import Mathlib

/-!
# Verification of the quill-core-rs editing core

A shallow embedding of the editing core of the `quill-core-rs` repository:
the document-node tree (`node_tree`), the tree-morphing primitives
(`core_formats/util/node_morph.rs`), the baseline paragraph and text formats
(`core_formats`), the format registry (`op_transform/registry.rs`) and the
operation application engine (`op_transform/op_insert.rs`, `op_delete.rs`,
`op_retain.rs`, `doc_root.rs`).

Modelling conventions:
* The engine is embedded for the baseline registry (paragraph block format +
  plain text leaf format), exactly the registry installed by
  `init_test_registry()`; this is the "paragraph + plain text" baseline the
  specification declares in scope.  A document is therefore a list of block
  nodes, each holding a list of leaf nodes.
* Rust `Arc<DocumentNode>` pointer identity is modelled by unique numeric ids;
  a `Doc` carries a fresh-id counter.  An id that is no longer in the tree
  corresponds to an unlinked Rust node; the places where the source would
  `unwrap()`/`assert!` on such a node are modelled as `Err.rustPanic`.
* Rust panics and failed `assert!`s are modelled as the error `Err.rustPanic`;
  `anyhow` errors are modelled by the remaining constructors of `Err`.
* The HTML DOM mirror is a one-way render target in the source (the core never
  reads document truth from it); it is not modelled, except for the automatic
  soft-break placeholder `<BR>` of empty blocks, which is kept as a boolean
  on each block because `AutomaticSoftBreak::insert/remove` have error paths
  that feed back into the engine's results.
-/

set_option maxHeartbeats 1000000

namespace Quill

/-- Modelled from the spec: attribute values of the external edit-operation
stream (`delta` crate, not under `src/`): string, number, boolean, or the
distinguished "clear" marker (`AttrVal::Null`). -/
inductive AttrVal where
  | strV (v : String)
  | numV (v : Int)
  | boolV (v : Bool)
  | null
deriving DecidableEq, Repr

/-- Modelled from the spec: an attribute mapping name → value.  The `delta`
crate stores a hash map; we use an association list (first binding of a key
wins) and compare maps with `Attrs.aeq` below. -/
abbrev Attrs := List (String × AttrVal)

/-- Key lookup in an attribute map (first binding wins, as in a map). -/
def Attrs.get (a : Attrs) (k : String) : Option AttrVal :=
  (a.find? (fun p => decide (p.1 = k))).map Prod.snd

def Attrs.containsKey (a : Attrs) (k : String) : Bool :=
  (Attrs.get a k).isSome

def Attrs.isEmptyA (a : Attrs) : Bool :=
  a.isEmpty

/-- One direction of map equality: every binding of `x` is a binding of `y`. -/
def Attrs.subsetA (x y : Attrs) : Bool :=
  x.all (fun p => decide (Attrs.get y p.1 = some p.2))

/-- Map equality of two attribute maps (the `delta` crate compares hash maps;
association lists are compared as the maps they represent). -/
def Attrs.aeq (x y : Attrs) : Bool :=
  Attrs.subsetA x y && Attrs.subsetA y x

/-- Modelled from the spec: `delta::attributes::compose(base, incoming, false)`.
The pre-existing attributes form the base and the incoming attributes are
layered on top; a clearing value (`null`) in the result is removed
(`keep_null = false`). -/
def Attrs.compose (base incoming : Attrs) : Attrs :=
  (incoming ++ base.filter (fun p => !Attrs.containsKey incoming p.1)).filter
    (fun p => decide (p.2 ≠ AttrVal.null))

/-- Modelled from the spec: the payload of an Insert operation is a string or
an embedded-object descriptor. -/
inductive InsertVal where
  | textI (s : List Char)
  | embedI (tag : String)
deriving DecidableEq, Repr

def InsertVal.isString : InsertVal → Bool
  | .textI _ => true
  | .embedI _ => false

/-- Modelled from the spec: an Insert `DeltaOperation`: payload + attributes.
Only insert operations are attached to document nodes. -/
structure InsOp where
  val : InsertVal
  attrs : Attrs
deriving DecidableEq, Repr

/-- `DeltaOperation::op_len()`: character count of a string payload, length 1
for an embedded object. -/
def InsOp.opLen (op : InsOp) : Nat :=
  match op.val with
  | .textI s => s.length
  | .embedI _ => 1

/-- The payload characters of an insert operation (empty for an embed). -/
def InsOp.payload (op : InsOp) : List Char :=
  match op.val with
  | .textI s => s
  | .embedI _ => []

/-- Errors.  The named constructors mirror `op_transform/src/error.rs`;
`rustPanic` stands for a Rust `panic!`/failed `assert!`/failed `unwrap()`. -/
inductive Err where
  | registryNotInitialised
  | registryNoSuchFormat
  | registryNoFormatForOp
  | unexpectedCursorPosition
  | deletingLastBlock
  | deleteOperationOnEmptyDocument
  | canNotFindNextBlock
  | doubleInsertionOfASoftBreak
  | canNotRemoveASoftBreak
  | notAString
  | documentNotOpenForEdit
  | rustPanic
deriving DecidableEq, Repr

/-- `DeltaOperation::insert_value().str_val()`: the string payload, or an
error for an embedded object. -/
def InsOp.strVal (op : InsOp) : Except Err (List Char) :=
  match op.val with
  | .textI s => .ok s
  | .embedI _ => .error .notAString

def newline : List Char := ['\n']

/-- Rust `str::split('\n')`: the pieces between the newline separators, in
order; `n` separators yield `n + 1` (possibly empty) pieces. -/
def splitNl : List Char → List (List Char)
  | [] => [[]]
  | c :: rest =>
    if c = '\n' then [] :: splitNl rest
    else
      match splitNl rest with
      | [] => [[c]]
      | p :: ps => (c :: p) :: ps

/-- `DocumentRoot::split_text_lines` (`op_transform/src/doc_root.rs`): splits a
potentially multi-line insert operation into single-line operations.  A
length-1 or non-string operation is passed through; otherwise each `\n`-free
piece is emitted (when non-empty) followed by a `"\n"` operation, and the
final trailing `"\n"` operation is popped when more than one operation was
produced. -/
def emitLine (a : Attrs) (p : List Char) : List InsOp :=
  if !p.isEmpty then
    [(⟨.textI p, a⟩ : InsOp), (⟨.textI newline, a⟩ : InsOp)]
  else
    [(⟨.textI newline, a⟩ : InsOp)]

def splitTextLines (op : InsOp) : Except Err (List InsOp) :=
  if op.opLen = 1 || !op.val.isString then .ok [op]
  else
    match op.val with
    | .embedI _ => .error .notAString
    | .textI txt =>
      let paragraphs := splitNl txt
      let dops := paragraphs.flatMap (emitLine op.attrs)
      .ok (if dops.length > 1 then dops.dropLast else dops)

/-! ## The document-node tree (`node_tree`), baseline shape -/

/-- A leaf document node: a run of text with attributes (`DocumentNode` whose
format is the plain text format).  `lid` models `Arc` pointer identity. -/
structure Leaf where
  lid : Nat
  ltext : List Char
  lattrs : Attrs
deriving DecidableEq, Repr

/-- A block document node (`DocumentNode` whose format is the paragraph block
format): its operation is `"\n"` plus `battrs`; `soft` records whether the
automatic soft-break placeholder `<BR>` is currently inserted in its DOM
element. -/
structure Block where
  bid : Nat
  battrs : Attrs
  soft : Bool
  kids : List Leaf
deriving DecidableEq, Repr

/-- The document: the root node's ordered children (all block nodes in the
baseline), plus a fresh-id counter for newly created nodes. -/
structure Doc where
  blocks : List Block
  freshId : Nat
deriving DecidableEq, Repr

/-- A reference to a document node, tagged with its kind. -/
inductive NRef where
  | leafRef (id : Nat)
  | blockRef (id : Nat)
deriving DecidableEq, Repr

def NRef.isLeafRef : NRef → Bool
  | .leafRef _ => true
  | .blockRef _ => false

def NRef.idOf : NRef → Nat
  | .leafRef i => i
  | .blockRef i => i

/-- Insert into a list at an index (Rust `Vec::insert`; `insert_at_index`
appends when the index is past the end, which this also does). -/
def listInsertAt {α : Type} (l : List α) (i : Nat) (a : α) : List α :=
  l.take i ++ a :: l.drop i

/-- Replace the element at an index, when present. -/
def listModify {α : Type} (l : List α) (i : Nat) (f : α → α) : List α :=
  match l.get? i with
  | some x => l.set i (f x)
  | none => l

/-- Suffix of `l` strictly after the first occurrence of `a`. -/
def listAfter {α : Type} [DecidableEq α] : List α → α → List α
  | [], _ => []
  | x :: xs, a => if x = a then xs else listAfter xs a

/-- Prefix of `l` strictly before the first occurrence of `a`. -/
def listBefore {α : Type} [DecidableEq α] : List α → α → List α
  | [], _ => []
  | x :: xs, a => if x = a then [] else x :: listBefore xs a

def Doc.findBlockIdx (d : Doc) (id : Nat) : Option Nat :=
  d.blocks.findIdx? (fun b => decide (b.bid = id))

def Doc.findBlock (d : Doc) (id : Nat) : Option Block :=
  d.blocks.find? (fun b => decide (b.bid = id))

def Block.findKidIdx (b : Block) (id : Nat) : Option Nat :=
  b.kids.findIdx? (fun l => decide (l.lid = id))

def findLeafPosAux (bs : List Block) (id : Nat) (bi : Nat) : Option (Nat × Nat) :=
  match bs with
  | [] => none
  | b :: rest =>
    match b.findKidIdx id with
    | some ki => some (bi, ki)
    | none => findLeafPosAux rest id (bi + 1)

/-- Position (block index, kid index) of the leaf with the given id. -/
def Doc.findLeafPos (d : Doc) (id : Nat) : Option (Nat × Nat) :=
  findLeafPosAux d.blocks id 0

/-- The containing block and the leaf itself, for a linked leaf id. -/
def Doc.findLeaf (d : Doc) (id : Nat) : Option (Block × Leaf) := do
  let (bi, ki) ← d.findLeafPos id
  let b ← d.blocks.get? bi
  let l ← b.kids.get? ki
  pure (b, l)

def Doc.isLinkedLeaf (d : Doc) (id : Nat) : Bool :=
  (d.findLeafPos id).isSome

def Doc.isLinkedBlock (d : Doc) (id : Nat) : Bool :=
  (d.findBlockIdx id).isSome

/-- The node reference carried by an id that is linked in the tree. -/
def Doc.refOfId (d : Doc) (id : Nat) : Option NRef :=
  if d.isLinkedLeaf id then some (.leafRef id)
  else if d.isLinkedBlock id then some (.blockRef id)
  else none

def Doc.refOfIdE (d : Doc) (id : Nat) : Except Err NRef :=
  match d.refOfId id with
  | some r => .ok r
  | none => .error .rustPanic

/-- Linear document order of one block's nodes: children first, then the
block's own length-1 unit (`tree_traverse`: "we have the block operations
AFTER the declaration of the leaf node"). -/
def Block.orderRefs (b : Block) : List NRef :=
  b.kids.map (fun l => NRef.leafRef l.lid) ++ [NRef.blockRef b.bid]

/-- Linear document order of all nodes (the root is never reported). -/
def Doc.orderRefs (d : Doc) : List NRef :=
  d.blocks.flatMap Block.orderRefs

/-- `DocumentNode::op_len()` of a referenced node: a leaf contributes its text
length; a block's operation is `"\n"`, of length 1.  Unlinked ids report 0
(never consulted on the verified paths). -/
def Doc.opLenOf (d : Doc) (r : NRef) : Nat :=
  match r with
  | .leafRef id =>
    match d.findLeaf id with
    | some (_, l) => l.ltext.length
    | none => 0
  | .blockRef id =>
    match d.findBlock id with
    | some _ => 1
    | none => 0

/-- `get_operation().get_attributes()` of a referenced node. -/
def Doc.attrsOf (d : Doc) (r : NRef) : Option Attrs :=
  match r with
  | .leafRef id => (d.findLeaf id).map (fun p => p.2.lattrs)
  | .blockRef id => (d.findBlock id).map Block.battrs

def Doc.attrsOfD (d : Doc) (r : NRef) : Attrs :=
  (d.attrsOf r).getD []

def Doc.childCount (d : Doc) (r : NRef) : Nat :=
  match r with
  | .leafRef _ => 0
  | .blockRef id =>
    match d.findBlock id with
    | some b => b.kids.length
    | none => 0

/-- `tree_traverse::next_node`: successor in document order.  On a node that
is no longer linked, the source `unwrap()`s its index in its parent and
panics. -/
def Doc.nextNode (d : Doc) (r : NRef) : Except Err (Option NRef) :=
  if r ∈ d.orderRefs then .ok ((listAfter d.orderRefs r).head?)
  else .error .rustPanic

/-- `tree_traverse::prev_node`: predecessor in document order. -/
def Doc.prevNode (d : Doc) (r : NRef) : Except Err (Option NRef) :=
  if r ∈ d.orderRefs then .ok ((listBefore d.orderRefs r).getLast?)
  else .error .rustPanic

/-- `tree_traverse::next_node_non_zero_length`: repeatedly `next_node`,
skipping zero-length nodes. -/
def Doc.nextNodeNonZero (d : Doc) (r : NRef) : Except Err (Option NRef) :=
  if r ∈ d.orderRefs then
    .ok ((listAfter d.orderRefs r).find? (fun x => decide (0 < d.opLenOf x)))
  else .error .rustPanic

/-- `tree_traverse::prev_node_non_zero_length`. -/
def Doc.prevNodeNonZero (d : Doc) (r : NRef) : Except Err (Option NRef) :=
  if r ∈ d.orderRefs then
    .ok ((listBefore d.orderRefs r).reverse.find? (fun x => decide (0 < d.opLenOf x)))
  else .error .rustPanic

/-- `tree_traverse::next_block`: the next non-zero-length block node,
skipping leaves.  For a leaf this is its own parent block (the block unit
comes after its children in document order). -/
def Doc.nextBlockT (d : Doc) (r : NRef) : Except Err (Option NRef) :=
  if r ∈ d.orderRefs then
    .ok ((listAfter d.orderRefs r).find?
      (fun x => !x.isLeafRef && decide (0 < d.opLenOf x)))
  else .error .rustPanic

/-- `tree_traverse::next_sibling`. -/
def Doc.nextSibling (d : Doc) (r : NRef) : Except Err (Option NRef) :=
  match r with
  | .leafRef id =>
    match d.findLeafPos id with
    | none => .error .rustPanic
    | some (bi, ki) =>
      match d.blocks.get? bi with
      | none => .error .rustPanic
      | some b => .ok ((b.kids.get? (ki + 1)).map (fun l => NRef.leafRef l.lid))
  | .blockRef id =>
    match d.findBlockIdx id with
    | none => .error .rustPanic
    | some bi => .ok ((d.blocks.get? (bi + 1)).map (fun b => NRef.blockRef b.bid))

/-- `tree_traverse::prev_sibling`. -/
def Doc.prevSibling (d : Doc) (r : NRef) : Except Err (Option NRef) :=
  match r with
  | .leafRef id =>
    match d.findLeafPos id with
    | none => .error .rustPanic
    | some (bi, ki) =>
      match d.blocks.get? bi with
      | none => .error .rustPanic
      | some b =>
        .ok (if ki = 0 then none
             else (b.kids.get? (ki - 1)).map (fun l => NRef.leafRef l.lid))
  | .blockRef id =>
    match d.findBlockIdx id with
    | none => .error .rustPanic
    | some bi =>
      .ok (if bi = 0 then none
           else (d.blocks.get? (bi - 1)).map (fun b => NRef.blockRef b.bid))

/-- `tree_traverse::first_node`: descend from the root's first child to its
first leaf (or the empty first block itself). -/
def Doc.firstNode (d : Doc) : Except Err NRef :=
  match d.blocks.head? with
  | none => .error .rustPanic
  | some b =>
    .ok (match b.kids.head? with
      | some l => .leafRef l.lid
      | none => .blockRef b.bid)

/-! ## The cursor (`node_tree/src/cursor.rs`) -/

/-- `CursorLocation`: `None`, `Before(leaf)`, `After(leaf)`, `At(node, index)`
(the node id is resolved against the document when a kind is needed). -/
inductive CLoc where
  | noneLoc
  | beforeLoc (id : Nat)
  | afterLoc (id : Nat)
  | atLoc (id : Nat) (index : Nat)
deriving DecidableEq, Repr

/-- The cursor: cached retain index plus start location (selections are not
exercised by the verified operations; the stop location is omitted). -/
structure Cursor where
  retainIdx : Nat
  startLoc : CLoc
deriving DecidableEq, Repr

/-- `CursorLocation::doc_node()`: panics on `None`. -/
def CLoc.idOf : CLoc → Except Err Nat
  | .noneLoc => .error .rustPanic
  | .beforeLoc id => .ok id
  | .afterLoc id => .ok id
  | .atLoc id _ => .ok id

/-- Op-lengths of all nodes strictly before `r` in document order. -/
def Doc.prefixLen (d : Doc) (r : NRef) : Nat :=
  ((listBefore d.orderRefs r).map (d.opLenOf)).sum

/-- `Cursor::calculate_retain_index()`: the local index within the cursor's
node (0 for `Before`, the node length for `After`) plus the op-lengths of all
preceding nodes, walked via `prev_node`. -/
def Doc.calcRetain (d : Doc) (loc : CLoc) : Except Err Nat :=
  match loc with
  | .noneLoc => .error .rustPanic
  | .beforeLoc id => do
    let r ← d.refOfIdE id
    .ok (d.prefixLen r)
  | .afterLoc id => do
    let r ← d.refOfIdE id
    .ok (d.prefixLen r + d.opLenOf r)
  | .atLoc id k => do
    let r ← d.refOfIdE id
    .ok (d.prefixLen r + k)

/-- `Cursor::set_after_no_retain_update` (asserts the node is a text leaf). -/
def Doc.setAfterNRU (d : Doc) (c : Cursor) (id : Nat) : Except Err Cursor :=
  if d.isLinkedLeaf id then .ok { c with startLoc := .afterLoc id }
  else .error .rustPanic

/-- `Cursor::set_before_no_retain_update` (asserts the node is a text leaf). -/
def Doc.setBeforeNRU (d : Doc) (c : Cursor) (id : Nat) : Except Err Cursor :=
  if d.isLinkedLeaf id then .ok { c with startLoc := .beforeLoc id }
  else .error .rustPanic

/-- `Cursor::set_at_no_retain_update`: asserts
`(index > 0 && text) || (index == 0 && !text)` and
`op_len > index || op_len == 0`. -/
def Doc.setAtNRU (d : Doc) (c : Cursor) (id : Nat) (k : Nat) : Except Err Cursor :=
  match d.refOfId id with
  | none => .error .rustPanic
  | some r =>
    let isText := r.isLeafRef
    let len := d.opLenOf r
    if ((decide (0 < k) && isText) || (decide (k = 0) && !isText))
        && (decide (k < len) || decide (len = 0)) then
      .ok { c with startLoc := .atLoc id k }
    else .error .rustPanic

/-- `Cursor::set_after`: the no-retain-update variant plus a recomputation of
the cached retain index. -/
def Doc.setAfterC (d : Doc) (c : Cursor) (id : Nat) : Except Err Cursor := do
  let c1 ← d.setAfterNRU c id
  let ri ← d.calcRetain c1.startLoc
  .ok { c1 with retainIdx := ri }

/-- `Cursor::set_before`. -/
def Doc.setBeforeC (d : Doc) (c : Cursor) (id : Nat) : Except Err Cursor := do
  let c1 ← d.setBeforeNRU c id
  let ri ← d.calcRetain c1.startLoc
  .ok { c1 with retainIdx := ri }

/-- `Cursor::set_at`. -/
def Doc.setAtC (d : Doc) (c : Cursor) (id : Nat) (k : Nat) : Except Err Cursor := do
  let c1 ← d.setAtNRU c id k
  let ri ← d.calcRetain c1.startLoc
  .ok { c1 with retainIdx := ri }

/-- `Cursor::set_cursor_to_doc_node_edge`.  Note the silent fall-through in
the `before = false` branch when the next non-zero node is a non-empty
non-leaf: the cursor location is left unchanged.  The cached retain index is
recomputed at the end in every case. -/
def Doc.setCursorToEdge (d : Doc) (c : Cursor) (r : NRef) (before : Bool) :
    Except Err Cursor := do
  let c1 ←
    if before then
      if r.isLeafRef then d.setBeforeC c r.idOf
      else do
        match ← d.prevNodeNonZero r with
        | some prev =>
          if prev.isLeafRef then d.setAfterC c prev.idOf
          else if d.childCount r = 0 then d.setAtC c r.idOf 0
          else do
            match ← d.nextNodeNonZero r with
            | some next => d.setBeforeC c next.idOf
            | none => .error .rustPanic
        | none =>
          if (d.blocks.head?).map (fun b => NRef.blockRef b.bid) = some r then
            d.setAtC c r.idOf 0
          else .error .rustPanic
    else
      if r.isLeafRef then d.setAfterC c r.idOf
      else do
        match ← d.nextNodeNonZero r with
        | some next =>
          if next.isLeafRef then d.setBeforeC c next.idOf
          else if d.opLenOf r = 0 then d.setAtC c next.idOf 0
          else .ok c
        | none => .error .rustPanic
  let ri ← d.calcRetain c1.startLoc
  .ok { c1 with retainIdx := ri }

/-! ## Doc surgery helpers (`node_tree/src/dom_doc_tree_morph.rs`) -/

/-- Replace the leaf with the given id, wherever it is linked. -/
def Doc.updateLeaf (d : Doc) (id : Nat) (f : Leaf → Leaf) : Doc :=
  { d with blocks := d.blocks.map (fun b =>
      { b with kids := b.kids.map (fun l => if l.lid = id then f l else l) }) }

/-- `unlink` of a leaf from its parent block. -/
def Doc.removeLeaf (d : Doc) (id : Nat) : Doc :=
  { d with blocks := d.blocks.map (fun b =>
      { b with kids := b.kids.filter (fun l => decide (l.lid ≠ id)) }) }

/-- Replace the block with the given id. -/
def Doc.updateBlock (d : Doc) (id : Nat) (f : Block → Block) : Doc :=
  { d with blocks := d.blocks.map (fun b => if b.bid = id then f b else b) }

/-- `unlink` of a block from the root. -/
def Doc.removeBlock (d : Doc) (id : Nat) : Doc :=
  { d with blocks := d.blocks.filter (fun b => decide (b.bid ≠ id)) }

/-! ## Tree morphing (`core_formats/src/util/node_morph.rs`) -/

/-- `node_morph::split_text_node`: split a leaf's text at `index`; the left
half keeps the node (and its id), the right half is a freshly created leaf
with the same attributes, inserted as the next sibling.  Asserts
`index ≠ 0` and `index < len`. -/
def splitTextNode (d : Doc) (id : Nat) (index : Nat) : Except Err (Doc × Nat) :=
  match d.findLeafPos id with
  | none => .error .rustPanic
  | some (bi, ki) =>
    match d.blocks.get? bi with
    | none => .error .rustPanic
    | some b =>
      match b.kids.get? ki with
      | none => .error .rustPanic
      | some l =>
        if index = 0 then .error .rustPanic
        else if ¬ index < l.ltext.length then .error .rustPanic
        else
          let leftLeaf : Leaf := { l with ltext := l.ltext.take index }
          let rightLeaf : Leaf := ⟨d.freshId, l.ltext.drop index, l.lattrs⟩
          let newKids := listInsertAt (listModify b.kids ki (fun _ => leftLeaf)) (ki + 1) rightLeaf
          let b2 : Block := { b with kids := newKids }
          let newBlocks := listModify d.blocks bi (fun _ => b2)
          .ok ({ d with blocks := newBlocks, freshId := d.freshId + 1 }, d.freshId)

/-- `node_morph::merge_text_node` / `merge`: concatenate the right leaf's text
onto the left leaf and unlink the right leaf.  `merge()` asserts that both
attribute maps are equal before anything is mutated; the merged operation
keeps the left node's attributes. -/
def mergeTextNode (d : Doc) (leftId rightId : Nat) : Except Err Doc :=
  match d.findLeaf leftId, d.findLeaf rightId with
  | some (_, ll), some (_, rl) =>
    if Attrs.aeq ll.lattrs rl.lattrs then
      let d1 := d.removeLeaf rightId
      .ok (d1.updateLeaf leftId (fun l0 =>
        { l0 with ltext := ll.ltext ++ rl.ltext, lattrs := ll.lattrs }))
    else .error .rustPanic
  | _, _ => .error .rustPanic

/-- Location bookkeeping local to `try_3_way_merge_text`. -/
inductive MLoc where
  | beforeM
  | afterM
  | atM
deriving DecidableEq, Repr

/-- The merge phase of `try_3_way_merge_text`: first try to merge the right
sibling into the pivot, then try to merge the pivot into the left sibling,
with the cursor updates of the source. -/
def mergePhase (d : Doc) (c : Cursor) (mloc : MLoc) (pos : Nat) (dn : NRef) :
    Except Err (Doc × Cursor) := do
  let next ← d.nextSibling dn
  let (d1, c1, mloc1) ←
    match next with
    | some n =>
      if Attrs.aeq (d.attrsOfD dn) (d.attrsOfD n) then do
        let d' ← mergeTextNode d dn.idOf n.idOf
        match mloc with
        | .beforeM => .error .rustPanic
        | _ => do
          let c' ← d'.setAtNRU c dn.idOf pos
          pure (d', c', MLoc.atM)
      else pure (d, c, mloc)
    | none => pure (d, c, mloc)
  let prev ← d1.prevSibling dn
  match prev with
  | some p =>
    if Attrs.aeq (d1.attrsOfD dn) (d1.attrsOfD p) then do
      let prevLen := d1.opLenOf p
      let d2 ← mergeTextNode d1 p.idOf dn.idOf
      match mloc1 with
      | .beforeM => .error .rustPanic
      | .afterM => do
        let c2 ← d2.setAfterNRU c1 p.idOf
        .ok (d2, c2)
      | .atM => do
        let c2 ← d2.setAtNRU c1 p.idOf (prevLen + pos)
        .ok (d2, c2)
    else .ok (d1, c1)
  | none => .ok (d1, c1)

/-- `node_morph::try_3_way_merge_text`: pick the pivot from the cursor (the
node just before the cursor when it has a previous sibling), then merge the
right and left siblings that have equal attributes.  Nothing to merge is not
an error. -/
def try3WayMergeText (d : Doc) (c : Cursor) : Except Err (Doc × Cursor) := do
  match c.startLoc with
  | .noneLoc => .ok (d, c)
  | .beforeLoc id => do
    let r ← d.refOfIdE id
    match ← d.prevSibling r with
    | some prev => mergePhase d c .afterM (d.opLenOf prev) prev
    | none => mergePhase d c .beforeM 0 r
  | .afterLoc id => do
    let r ← d.refOfIdE id
    mergePhase d c .afterM (d.opLenOf r) r
  | .atLoc id k => do
    let r ← d.refOfIdE id
    if d.opLenOf r = 0 then .error .rustPanic
    else mergePhase d c .atM k r

/-- The id of the parent block of a linked leaf. -/
def parentBlockIdOf (d : Doc) (id : Nat) : Except Err Nat :=
  match d.findLeafPos id with
  | some (bi, _) =>
    match d.blocks.get? bi with
    | some b => .ok b.bid
    | none => .error .rustPanic
  | none => .error .rustPanic

/-- `node_morph::split_block_before_child`: split a block at the boundary just
before `childId`; a clone of the block (fresh node, same attributes, via
`clone_doc_node` → `create`) receives all children from `childId` on and is
inserted right after the original.  Returns the new right-hand block. -/
def splitBlockBeforeChild (d : Doc) (blockId childId : Nat) : Except Err (Doc × Nat) :=
  match d.findBlockIdx blockId with
  | none => .error .rustPanic
  | some bi =>
    match d.blocks.get? bi with
    | none => .error .rustPanic
    | some b =>
      match b.findKidIdx childId with
      | none => .error .rustPanic
      | some ci =>
        let rightB : Block := ⟨d.freshId, b.battrs, false, b.kids.drop ci⟩
        let leftB : Block := { b with kids := b.kids.take ci }
        let newBlocks := listInsertAt (listModify d.blocks bi (fun _ => leftB)) (bi + 1) rightB
        .ok ({ d with blocks := newBlocks, freshId := d.freshId + 1 }, d.freshId)

/-- `node_morph::insert_empty_block_node_after_cursor`: append a fresh empty
block (created from the parent block's operation, hence with its attributes)
right after the block at the cursor. -/
def insertEmptyBlockAfterCursor (d : Doc) (c : Cursor) : Except Err (Doc × Nat) := do
  let id ← c.startLoc.idOf
  let r ← d.refOfIdE id
  let parentId ←
    if r.isLeafRef then parentBlockIdOf d id
    else pure id
  match d.findBlockIdx parentId, d.findBlock parentId with
  | some bi, some pb =>
    let nb : Block := ⟨d.freshId, pb.battrs, false, []⟩
    .ok ({ d with blocks := listInsertAt d.blocks (bi + 1) nb, freshId := d.freshId + 1 },
      d.freshId)
  | _, _ => .error .rustPanic

/-- `node_morph::split_text_at_cursor`: split only the leaf at an `At` cursor;
a `Before`/`After` cursor needs no split.  Leaves the cursor `Before` the
right half. -/
def splitTextAtCursor (d : Doc) (c : Cursor) : Except Err (Doc × Cursor) := do
  match c.startLoc with
  | .atLoc id k =>
    if k = 0 then .ok (d, c)
    else do
      let (d1, rid) ← splitTextNode d id k
      let c1 ← d1.setBeforeNRU c rid
      .ok (d1, c1)
  | _ => .ok (d, c)

/-- `node_morph::split_block_at_cursor`. -/
def splitBlockAtCursor (d : Doc) (c : Cursor) : Except Err (Doc × Cursor) := do
  match c.startLoc with
  | .noneLoc => .ok (d, c)
  | .atLoc id k => do
    let r ← d.refOfIdE id
    if k = 0 then
      if r.isLeafRef then .error .rustPanic
      else
        match d.findBlockIdx id, d.findBlock id with
        | some bi, some b =>
          let nb : Block := ⟨d.freshId, b.battrs, false, []⟩
          let d1 : Doc :=
            { d with blocks := listInsertAt d.blocks (bi + 1) nb, freshId := d.freshId + 1 }
          let c1 ← d1.setAtNRU c nb.bid 0
          .ok (d1, c1)
        | _, _ => .error .rustPanic
    else .error .rustPanic
  | .afterLoc id => do
    let r ← d.refOfIdE id
    match ← d.nextSibling r with
    | some next => do
      if r.isLeafRef then do
        let parentId ← parentBlockIdOf d id
        let (d1, _) ← splitBlockBeforeChild d parentId next.idOf
        .ok (d1, c)
      else .error .rustPanic
    | none => do
      let (d1, rid) ← insertEmptyBlockAfterCursor d c
      let c1 ← d1.setAtNRU c rid 0
      .ok (d1, c1)
  | .beforeLoc id => do
    let parentId ← parentBlockIdOf d id
    let (d1, _) ← splitBlockBeforeChild d parentId id
    .ok (d1, c)

/-- `node_morph::split_text_and_block_at_cursor`: split the leaf at the cursor
and its immediate parent block into two halves; on a block (empty-node)
cursor, insert an empty clone block after it instead. -/
def splitTextAndBlockAtCursor (d : Doc) (c : Cursor) : Except Err (Doc × Cursor) := do
  let id ← c.startLoc.idOf
  let r ← d.refOfIdE id
  if !r.isLeafRef then do
    let (d1, rid) ← insertEmptyBlockAfterCursor d c
    let c1 ← d1.setAtNRU c rid 0
    .ok (d1, c1)
  else
    match c.startLoc with
    | .atLoc _ _ => do
      let (d1, c1) ← splitTextAtCursor d c
      splitBlockAtCursor d1 c1
    | .beforeLoc lid => do
      let parentId ← parentBlockIdOf d lid
      let (d1, _) ← splitBlockBeforeChild d parentId lid
      .ok (d1, c)
    | .afterLoc lid => do
      match ← d.nextSibling (.leafRef lid) with
      | some next => do
        let parentId ← parentBlockIdOf d lid
        let (d1, _) ← splitBlockBeforeChild d parentId next.idOf
        let c1 ← d1.setBeforeNRU c next.idOf
        .ok (d1, c1)
      | none => do
        let parentId ← parentBlockIdOf d lid
        match d.findBlockIdx parentId, d.findBlock parentId with
        | some bi, some pb =>
          let nb : Block := ⟨d.freshId, pb.battrs, false, []⟩
          let d1 : Doc :=
            { d with blocks := listInsertAt d.blocks (bi + 1) nb, freshId := d.freshId + 1 }
          let c1 ← d1.setAtNRU c nb.bid 0
          .ok (d1, c1)
        | _, _ => .error .rustPanic
    | .noneLoc => .error .rustPanic

/-- `node_morph::delete_text`: delete `len` characters starting at `at0` in a
leaf; asserts the node is a leaf, stays non-empty, and the range is in
bounds. -/
def deleteTextM (d : Doc) (id : Nat) (at0 len : Nat) : Except Err Doc :=
  match d.findLeaf id with
  | none => .error .rustPanic
  | some (_, l) =>
    if ¬ len < l.ltext.length then .error .rustPanic
    else if ¬ at0 + len ≤ l.ltext.length then .error .rustPanic
    else .ok (d.updateLeaf id (fun l0 =>
      { l0 with ltext := l0.ltext.take at0 ++ (l0.ltext.drop at0).drop len }))

/-- `node_morph::delete_node`: unlink one whole node; a block may only be
deleted when it has no children (assert). -/
def deleteNodeM (d : Doc) (r : NRef) : Except Err Doc :=
  match r with
  | .leafRef id =>
    match d.findLeafPos id with
    | none => .error .rustPanic
    | some _ => .ok (d.removeLeaf id)
  | .blockRef id =>
    match d.findBlock id with
    | none => .error .rustPanic
    | some b =>
      if b.kids.length ≠ 0 then .error .rustPanic
      else .ok (d.removeBlock id)

/-! ## Automatic soft break (`op_transform/src/auto_soft_break.rs`) -/

/-- `AutomaticSoftBreak::insert` on a (possibly not yet linked) block value:
with exactly one child the source descends into the child and asserts it is
not a text node — in the baseline every child is a leaf, so that path panics;
with more children the `assert_eq!(child_count, 0)` fails; a double insertion
is the typed error. -/
def asbInsertB (b : Block) : Except Err Block :=
  if b.kids.length = 1 then .error .rustPanic
  else if b.kids.length ≠ 0 then .error .rustPanic
  else if b.soft then .error .doubleInsertionOfASoftBreak
  else .ok { b with soft := true }

/-- `AutomaticSoftBreak::insert` on a linked block. -/
def asbInsert (d : Doc) (id : Nat) : Except Err Doc :=
  match d.findBlock id with
  | none => .error .rustPanic
  | some b => do
    let _ ← asbInsertB b
    .ok (d.updateBlock id (fun b0 => { b0 with soft := true }))

/-- `AutomaticSoftBreak::remove`: removes the `<BR>` DOM child.  When there is
no break: an empty block yields the typed error (no DOM child at all); a
non-empty block's first DOM child is leaf content and the
`assert_eq!(node_name, BR)` fails. -/
def asbRemove (d : Doc) (id : Nat) : Except Err Doc :=
  match d.findBlock id with
  | none => .error .rustPanic
  | some b =>
    if b.soft then .ok (d.updateBlock id (fun b0 => { b0 with soft := false }))
    else if b.kids.isEmpty then .error .canNotRemoveASoftBreak
    else .error .rustPanic

/-! ## Baseline formats (`core_formats`) and registry (`op_transform/src/registry.rs`) -/

def NAME_P_BLOCK : String := "F_P-BLOCK"

def NAME_TEXT : String := "F_TEXT"

/-- The attribute keys recognised by the plain text format:
`t_formats::TEXT_FORMATS` plus `t_attributes::TEXT_ATTRIBUTES`. -/
def textAttrKeys : List String :=
  ["bold", "italic", "underline", "strike", "subscript", "superscript",
   "deleted", "inserted", "marked", "small",
   "font", "size", "color", "background"]

/-- `t_formats::has_text_fomat || t_attributes::has_text_attributes`. -/
def hasTextKeys (a : Attrs) : Bool :=
  textAttrKeys.any (fun k => Attrs.containsKey a k)

/-- `TextFormat::applies`: not the block operation `"\n"`, and either no
attributes or at least one recognised text attribute. -/
def textApplies (op : InsOp) : Bool :=
  if op.val.isString && decide (op.payload = newline) then false
  else if Attrs.isEmptyA op.attrs then true
  else hasTextKeys op.attrs

/-- `Pblock::applies`: exactly the string operation `"\n"`. -/
def pApplies (op : InsOp) : Bool :=
  op.val.isString && decide (op.payload = newline)

/-- A registered format as the registry sees it: its unique name and its
`applies` self-test. -/
structure RegFormat where
  rname : String
  rapplies : InsOp → Bool

/-- The registry: label→format maps plus the registration order of the labels
(`block_formats`/`text_formats` + `block_order`/`text_order`). -/
structure Registry where
  blockFormats : List (String × RegFormat)
  textFormats : List (String × RegFormat)
  blockOrder : List String
  textOrder : List String

def Registry.emptyR : Registry := ⟨[], [], [], []⟩

/-- `HashMap::insert`: replace an existing binding or add one. -/
def assocInsert (m : List (String × RegFormat)) (k : String) (v : RegFormat) :
    List (String × RegFormat) :=
  if (m.find? (fun p => decide (p.1 = k))).isSome then
    m.map (fun p => if p.1 = k then (k, v) else p)
  else m ++ [(k, v)]

def assocGet (m : List (String × RegFormat)) (k : String) : Option RegFormat :=
  (m.find? (fun p => decide (p.1 = k))).map Prod.snd

/-- `Registry::register_block_fmt`. -/
def Registry.registerBlockFmt (r : Registry) (label : String) (f : RegFormat) : Registry :=
  { r with blockOrder := r.blockOrder ++ [label],
           blockFormats := assocInsert r.blockFormats label f }

/-- `Registry::register_line_fmt`. -/
def Registry.registerLineFmt (r : Registry) (label : String) (f : RegFormat) : Registry :=
  { r with textOrder := r.textOrder ++ [label],
           textFormats := assocInsert r.textFormats label f }

/-- The scan shared by `block_format`/`line_format`: walk the order list, look
each label up (`unwrap`), return the first format whose `applies` holds. -/
def registryScan (m : List (String × RegFormat)) (order : List String) (op : InsOp) :
    Except Err (Option RegFormat) :=
  match order with
  | [] => .ok none
  | label :: rest =>
    match assocGet m label with
    | none => .error .rustPanic
    | some f =>
      if f.rapplies op then .ok (some f)
      else registryScan m rest op

/-- `Registry::block_format`: first applying block format in registration
order; otherwise `RegistryNotInitialised` when the *text* order is empty
(that is what the source tests), else `RegistryNoFormatForOp`. -/
def Registry.blockFormat (r : Registry) (op : InsOp) : Except Err RegFormat := do
  match ← registryScan r.blockFormats r.blockOrder op with
  | some f => .ok f
  | none =>
    if r.textOrder.isEmpty then .error .registryNotInitialised
    else .error .registryNoFormatForOp

/-- `Registry::line_format`. -/
def Registry.lineFormat (r : Registry) (op : InsOp) : Except Err RegFormat := do
  match ← registryScan r.textFormats r.textOrder op with
  | some f => .ok f
  | none =>
    if r.textOrder.isEmpty then .error .registryNotInitialised
    else .error .registryNoFormatForOp

/-- `Registry::is_block_fmt`: a string operation containing `'\n'` for which
some registered block format applies. -/
def Registry.isBlockFmt (r : Registry) (op : InsOp) : Except Err Bool := do
  let isNl := op.val.isString && decide ('\n' ∈ op.payload)
  if !isNl then .ok false
  else
    match ← registryScan r.blockFormats r.blockOrder op with
    | some _ => .ok true
    | none =>
      if r.textOrder.isEmpty then .error .registryNotInitialised
      else .ok false

def pRegFormat : RegFormat := ⟨NAME_P_BLOCK, pApplies⟩

def textRegFormat : RegFormat := ⟨NAME_TEXT, textApplies⟩

/-- `init_test_registry()`: the baseline registry with the paragraph block
format and the plain text line format. -/
def testRegistry : Registry :=
  (Registry.emptyR.registerBlockFmt NAME_P_BLOCK pRegFormat).registerLineFmt
    NAME_TEXT textRegFormat

/-- `TextFormat::create`: build a leaf node from an insert operation (all
three DOM shapes carry the same operation); fails on a non-string payload. -/
def textCreate (op : InsOp) (fid : Nat) : Except Err Leaf := do
  let txt ← op.strVal
  .ok ⟨fid, txt, op.attrs⟩

/-- `Pblock::create`: build a fresh empty block node carrying the operation's
attributes. -/
def pCreate (op : InsOp) (fid : Nat) : Block :=
  ⟨fid, op.attrs, false, []⟩

/-! ## Block transforms (`core_formats/src/util/block.rs`) -/

/-- `block::block_transform`: create a new block from `delta` (here: the
paragraph format — the only registered block format), insert it before the old
block, unlink the old block, and either point the cursor at the new (empty)
block when it pointed at the old one, or move all children across.  Returns
the new block's id. -/
def blockTransform (d : Doc) (c : Cursor) (blockId : Nat) (delta : InsOp) :
    Except Err (Doc × Cursor × Nat) := do
  match d.findBlockIdx blockId, d.findBlock blockId with
  | some bi, some b => do
    let curId ← c.startLoc.idOf
    let updateCursor := curId = blockId
    let nb : Block := pCreate delta d.freshId
    let d1 : Doc :=
      { d with blocks := listModify d.blocks bi (fun _ => nb), freshId := d.freshId + 1 }
    if updateCursor then do
      let c1 ← d1.setAtNRU c nb.bid 0
      .ok (d1, c1, nb.bid)
    else do
      let d2 := d1.updateBlock nb.bid (fun b0 => { b0 with kids := b.kids })
      .ok (d2, c, nb.bid)
  | _, _ => .error .rustPanic

/-- `block::un_block_transform`: replace the block by a fresh plain paragraph
that keeps the old block's attributes (`insert_attr("\n", old attributes)`),
with the same cursor/children handling as `block_transform`. -/
def unBlockTransform (d : Doc) (c : Cursor) (blockId : Nat) :
    Except Err (Doc × Cursor × Nat) := do
  match d.findBlock blockId with
  | some b => blockTransform d c blockId ⟨.textI newline, b.battrs⟩
  | none => .error .rustPanic

/-! ## Merge dispatch and retain (`op_transform/src/op_retain.rs`) -/

/-- `node.get_formatter().try_merge(cursor, node)` for the cursor's node: the
paragraph format's `try_merge` is a no-op, the text format dispatches to
`try_3_way_merge_text`.  (On a node that is no longer linked the sibling
lookups inside the source panic.) -/
def tryMergeAtCursor (d : Doc) (c : Cursor) : Except Err (Doc × Cursor) := do
  let id ← c.startLoc.idOf
  match d.refOfId id with
  | some (.blockRef _) => .ok (d, c)
  | some (.leafRef _) => try3WayMergeText d c
  | none => .error .rustPanic

/-- The while loop of `op_retain::retain_length`.  The fuel only bounds the
recursion; it is always sufficient because every node consumed after the
first has non-zero length. -/
def retainLengthLoop (d : Doc) (c : Cursor) (dn : NRef) (rtn : Nat) (fuel : Nat) :
    Except Err Cursor := do
  match fuel with
  | 0 => .error .rustPanic
  | fuel + 1 =>
    if rtn = 0 then .ok c
    else
      let ol := d.opLenOf dn
      if rtn ≥ ol then do
        let rtn1 := rtn - ol
        match ← d.nextNodeNonZero dn with
        | none => d.setCursorToEdge c dn false
        | some next =>
          if rtn1 = 0 then d.setCursorToEdge c next true
          else retainLengthLoop d c next rtn1 fuel
      else d.setAtNRU c dn.idOf rtn

/-- `op_retain::retain_length`: move the cursor forward without touching the
document. -/
def retainLength (d : Doc) (c : Cursor) (retainLen : Nat) : Except Err Cursor := do
  match c.startLoc with
  | .afterLoc id => do
    let r ← d.refOfIdE id
    match ← d.nextNodeNonZero r with
    | none => .ok c
    | some dn => retainLengthLoop d c dn retainLen (retainLen + 2)
  | .beforeLoc id => do
    let r ← d.refOfIdE id
    retainLengthLoop d c r retainLen (retainLen + 2)
  | .atLoc id idx => do
    let r ← d.refOfIdE id
    if !r.isLeafRef then retainLengthLoop d c r retainLen (retainLen + 2)
    else retainLengthLoop d c r (retainLen + idx) (retainLen + idx + 2)
  | .noneLoc => .error .rustPanic

/-- `op_retain::retain_text_format`: rebuild the leaf without attributes
(`drop_line_attributes`), resolve the line format for the *old* operation,
then rebuild it with the old attributes composed with the incoming ones
(`apply_line_attributes`).  Returns the replacement leaf's id. -/
def retainTextFormat (d : Doc) (id : Nat) (attr : Attrs) (reg : Registry) :
    Except Err (Doc × Nat) := do
  match d.findLeafPos id, d.findLeaf id with
  | some (bi, ki), some (_, l) => do
    let dropped : Leaf := ⟨d.freshId, l.ltext, []⟩
    let blocks1 := listModify d.blocks bi (fun b => { b with kids := listModify b.kids ki (fun _ => dropped) })
    let d1 : Doc := { d with blocks := blocks1, freshId := d.freshId + 1 }
    let attr2 := Attrs.compose l.lattrs attr
    let _f ← reg.lineFormat ⟨.textI l.ltext, l.lattrs⟩
    -- the only registered line format is the text format; `apply_line_attributes`
    -- replaces the node by a fresh leaf with the composed attributes
    let applied : Leaf := ⟨d1.freshId, l.ltext, attr2⟩
    let blocks2 := listModify d1.blocks bi (fun b => { b with kids := listModify b.kids ki (fun _ => applied) })
    let d2 : Doc := { d1 with blocks := blocks2, freshId := d1.freshId + 1 }
    .ok (d2, applied.lid)
  | _, _ => .error .rustPanic

/-- `op_retain::retain_block_format`: `un_block_transform` to a plain
paragraph, compose the old block attributes with the incoming ones,
`block_transform` with the registry-resolved block format, and restore the
soft-break placeholder when the result is empty. -/
def retainBlockFormat (d : Doc) (c : Cursor) (blockId : Nat) (attr : Attrs) (reg : Registry) :
    Except Err (Doc × Cursor × Nat) := do
  match d.findBlock blockId with
  | none => .error .rustPanic
  | some oldB => do
    let (d1, c1, ub) ← unBlockTransform d c blockId
    let attr2 := Attrs.compose oldB.battrs attr
    let operation : InsOp := ⟨.textI newline, attr2⟩
    let _f ← reg.blockFormat operation
    let (d2, c2, nb) ← blockTransform d1 c1 ub operation
    match d2.findBlock nb with
    | none => .error .rustPanic
    | some b2 =>
      if b2.kids.length = 0 then do
        let d3 ← asbInsert d2 nb
        .ok (d3, c2, nb)
      else .ok (d2, c2, nb)

/-- The while loop of `op_retain::retain_attributed`: each iteration
re-formats one node (splitting first when the boundary falls inside a leaf),
moves the cursor, and ends with a `try_merge` at the cursor. -/
def retainAttributedLoop (d : Doc) (c : Cursor) (dn : NRef) (rtn : Nat) (attr : Attrs)
    (reg : Registry) (fuel : Nat) : Except Err (Doc × Cursor) := do
  match fuel with
  | 0 => .error .rustPanic
  | fuel + 1 =>
    if rtn = 0 then .ok (d, c)
    else
      let ol := d.opLenOf dn
      if rtn > ol then do
        let (d1, c1, dn1) ←
          if dn.isLeafRef then do
            let (dA, nid) ← retainTextFormat d dn.idOf attr reg
            pure (dA, c, NRef.leafRef nid)
          else do
            let (dA, cA, nbid) ← retainBlockFormat d c dn.idOf attr reg
            pure (dA, cA, NRef.blockRef nbid)
        match ← d1.nextNodeNonZero dn1 with
        | some next => do
          let c2 ← d1.setCursorToEdge c1 next true
          let (d2, c3) ← tryMergeAtCursor d1 c2
          retainAttributedLoop d2 c3 next (rtn - ol) attr reg fuel
        | none => do
          let c2 ← d1.setAfterNRU c1 dn1.idOf
          .ok (d1, c2)
      else if rtn = ol then do
        let (d1, c1, dn1) ←
          if dn.isLeafRef then do
            let (dA, nid) ← retainTextFormat d dn.idOf attr reg
            pure (dA, c, NRef.leafRef nid)
          else do
            let (dA, cA, nbid) ← retainBlockFormat d c dn.idOf attr reg
            pure (dA, cA, NRef.blockRef nbid)
        match ← d1.nextNodeNonZero dn1 with
        | some next => do
          let c2 ← d1.setCursorToEdge c1 next true
          tryMergeAtCursor d1 c2
        | none => do
          let c2 ← d1.setAfterNRU c1 dn1.idOf
          .ok (d1, c2)
      else do
        -- 0 < rtn < op_len: split and re-format the left half (text only)
        let (d1, rid) ← splitTextNode d dn.idOf rtn
        let (d2, _) ← retainTextFormat d1 dn.idOf attr reg
        let c1 ← d2.setCursorToEdge c (.leafRef rid) true
        tryMergeAtCursor d2 c1

/-- `op_retain::retain_attributed`: establish a starting node (splitting the
leaf at an `At` cursor), then run the loop. -/
def retainAttributed (d : Doc) (c : Cursor) (retainLen : Nat) (attr : Attrs)
    (reg : Registry) : Except Err (Doc × Cursor) := do
  match c.startLoc with
  | .afterLoc id => do
    let r ← d.refOfIdE id
    match ← d.nextNodeNonZero r with
    | none => .ok (d, c)
    | some dn => retainAttributedLoop d c dn retainLen attr reg (retainLen + 2)
  | .beforeLoc id => do
    let r ← d.refOfIdE id
    retainAttributedLoop d c r retainLen attr reg (retainLen + 2)
  | .atLoc id idx => do
    let r ← d.refOfIdE id
    if !r.isLeafRef then retainAttributedLoop d c r retainLen attr reg (retainLen + 2)
    else do
      let (d1, rid) ← splitTextNode d id idx
      retainAttributedLoop d1 c (.leafRef rid) retainLen attr reg (retainLen + 2)
  | .noneLoc => .error .rustPanic

/-- `op_retain::retain`: bump the cached retain index by the operation
length, then either a pure cursor move (empty attributes) or an attributed
retain. -/
def opRetain (d : Doc) (c : Cursor) (len : Nat) (attr : Attrs) (reg : Registry) :
    Except Err (Doc × Cursor) := do
  let c0 : Cursor := { c with retainIdx := c.retainIdx + len }
  if Attrs.isEmptyA attr then do
    let c1 ← retainLength d c0 len
    .ok (d, c1)
  else retainAttributed d c0 len attr reg

/-! ## Delete (`op_transform/src/op_delete.rs`) -/

/-- `op_delete::find_left_node_and_set_cursor`: place the cursor after the
node preceding the one being deleted; `false` when there is none. -/
def findLeftNodeAndSetCursor (d : Doc) (c : Cursor) (r : NRef) :
    Except Err (Bool × Cursor) := do
  match ← d.prevNode r with
  | some prev =>
    if prev.isLeafRef then do
      let c1 ← d.setAfterNRU c prev.idOf
      .ok (true, c1)
    else if d.childCount prev = 0 then do
      let c1 ← d.setAtNRU c prev.idOf 0
      .ok (true, c1)
    else
      match d.findBlock prev.idOf with
      | none => .error .rustPanic
      | some pb =>
        match pb.kids.getLast? with
        | none => .error .rustPanic
        | some last => do
          let c1 ← d.setAfterNRU c last.lid
          .ok (true, c1)
  | none => .ok (false, c)

/-- `op_delete::delete_document_node`: delete one whole node.  A leaf is
removed outright (restoring the placeholder if its block becomes empty); an
empty block is removed; a non-empty block is unlinked and all its children
are relocated, in order, to the front of the next block, which keeps its own
attributes.  Without a next block the typed errors are returned. -/
def deleteDocumentNode (d : Doc) (r : NRef) : Except Err Doc := do
  match ← d.nextBlockT r with
  | none =>
    if !r.isLeafRef then .error .deletingLastBlock
    else .error .canNotFindNextBlock
  | some parent =>
    if r.isLeafRef then do
      let d1 ← deleteNodeM d r
      match d1.findBlock parent.idOf with
      | none => .error .rustPanic
      | some pb =>
        if pb.kids.isEmpty then asbInsert d1 parent.idOf
        else .ok d1
    else
      match d.findBlock r.idOf with
      | none => .error .rustPanic
      | some b =>
        if b.kids.length = 0 then deleteNodeM d r
        else do
          let d1 ←
            match d.findBlock parent.idOf with
            | none => .error .rustPanic
            | some pb =>
              if pb.kids.isEmpty then asbRemove d parent.idOf
              else pure d
          let d2 := d1.removeBlock r.idOf
          -- children are unlinked in reverse and inserted at index 0: the
          -- original order is preserved at the front of the next block
          let d3 := d2.updateBlock parent.idOf (fun pb0 => { pb0 with kids := b.kids ++ pb0.kids })
          .ok d3

/-- The while loop of `op_delete::delete`.  The fuel only bounds the
recursion; every consumed node has non-zero length, so it is sufficient. -/
def deleteLoop (d : Doc) (c : Cursor) (dn : NRef) (del : Nat) (fuel : Nat) :
    Except Err (Doc × Cursor) := do
  match fuel with
  | 0 => .error .rustPanic
  | fuel + 1 =>
    if del = 0 then .ok (d, c)
    else
      let ol := d.opLenOf dn
      if del > ol then do
        match ← d.nextNodeNonZero dn with
        | some next => do
          let d1 ← deleteDocumentNode d dn
          deleteLoop d1 c next (del - ol) fuel
        | none => do
          let (found, c1) ← findLeftNodeAndSetCursor d c dn
          let d1 ← deleteDocumentNode d dn
          if !found then .error .deleteOperationOnEmptyDocument
          else .ok (d1, c1)
      else if del = ol then do
        match ← d.nextNodeNonZero dn with
        | some next => do
          let d1 ← deleteDocumentNode d dn
          let c1 ← d1.setCursorToEdge c next true
          .ok (d1, c1)
        | none => do
          let (found, c1) ← findLeftNodeAndSetCursor d c dn
          let d1 ← deleteDocumentNode d dn
          if !found then .error .deleteOperationOnEmptyDocument
          else .ok (d1, c1)
      else
        -- 0 < del < op_len: delete the leading segment of the leaf
        -- (`delete_leaf_segment` panics on the paragraph format)
        if dn.isLeafRef then do
          let d1 ← deleteTextM d dn.idOf 0 del
          let c1 ← d1.setBeforeNRU c dn.idOf
          .ok (d1, c1)
        else .error .rustPanic

/-- `op_delete::delete`: establish a starting node from the cursor (splitting
an `At` leaf first), consume `deleteLen` characters, try-merge at the final
cursor, and assert the cursor does not rest on a zero-length node. -/
def opDelete (d : Doc) (c : Cursor) (deleteLen : Nat) : Except Err (Doc × Cursor) := do
  let (d0, c0, dn, del) ←
    match c.startLoc with
    | .afterLoc id => do
      let r ← d.refOfIdE id
      match ← d.nextNodeNonZero r with
      | none => return (d, c)
      | some dnn => pure (d, c, dnn, deleteLen)
    | .beforeLoc id => do
      let r ← d.refOfIdE id
      pure (d, c, r, deleteLen)
    | .atLoc id idx => do
      let r ← d.refOfIdE id
      if !r.isLeafRef then
        if idx = 0 then pure (d, c, r, deleteLen)
        else .error .rustPanic
      else do
        let (d1, rid) ← splitTextNode d id idx
        let c1 ← d1.setAfterNRU c id
        pure (d1, c1, NRef.leafRef rid, deleteLen)
    | .noneLoc => .error .unexpectedCursorPosition
  let (d2, c2) ← deleteLoop d0 c0 dn del (del + 2)
  let (d3, c3) ← tryMergeAtCursor d2 c2
  let id ← c3.startLoc.idOf
  let rr ← d3.refOfIdE id
  if d3.opLenOf rr = 0 then .error .rustPanic
  else .ok (d3, c3)

/-! ## Insert (`op_transform/src/op_insert.rs`) -/

/-- `op_insert::insert_new_text`. -/
def insertNewText (d : Doc) (c : Cursor) (delta : InsOp) : Except Err (Doc × Cursor) := do
  let hit ←
    match c.startLoc with
    | .atLoc id _ =>
      match d.refOfId id with
      | some (.blockRef _) =>
        pure (if d.childCount (.blockRef id) = 0 then some id else none)
      | some (.leafRef _) => pure (none : Option Nat)
      | none => .error .rustPanic
    | _ => pure (none : Option Nat)
  match hit with
  | some blockId => do
    -- cursor At an empty block: clear the placeholder, create the leaf, point
    -- the cursor after it, append it as the sole child, then try-merge
    let d1 ← asbRemove d blockId
    let leaf ← textCreate delta d1.freshId
    let d2 : Doc := { d1 with freshId := d1.freshId + 1 }
    let c1 : Cursor := { c with startLoc := .afterLoc leaf.lid }
    let d3 := d2.updateBlock blockId (fun b => { b with kids := b.kids ++ [leaf] })
    tryMergeAtCursor d3 c1
  | none => do
    -- split the leaf at the cursor via the cursor node's formatter
    -- (`Pblock::split_leaf` panics; `cursor.get_doc_node()` panics on `None`)
    let id ← c.startLoc.idOf
    let r ← d.refOfIdE id
    let (d1, c1) ←
      if r.isLeafRef then splitTextAtCursor d c
      else .error .rustPanic
    match c1.startLoc with
    | .afterLoc did => do
      let leaf ← textCreate delta d1.freshId
      let d2 : Doc := { d1 with freshId := d1.freshId + 1 }
      match d2.findLeafPos did with
      | none => .error .rustPanic
      | some (bi, ki) =>
        let blocks1 := listModify d2.blocks bi (fun b => { b with kids := listInsertAt b.kids (ki + 1) leaf })
        let d3 : Doc := { d2 with blocks := blocks1 }
        let c2 : Cursor := { c1 with startLoc := .afterLoc leaf.lid }
        tryMergeAtCursor d3 c2
    | .beforeLoc did => do
      let leaf ← textCreate delta d1.freshId
      let d2 : Doc := { d1 with freshId := d1.freshId + 1 }
      match d2.findLeafPos did with
      | none => .error .rustPanic
      | some (bi, ki) =>
        let blocks1 := listModify d2.blocks bi (fun b => { b with kids := listInsertAt b.kids ki leaf })
        let d3 : Doc := { d2 with blocks := blocks1 }
        let c2 : Cursor := { c1 with startLoc := .afterLoc leaf.lid }
        tryMergeAtCursor d3 c2
    | .atLoc did _ => do
      let leaf ← textCreate delta d1.freshId
      let d2 : Doc := { d1 with freshId := d1.freshId + 1 }
      match d2.findLeafPos did with
      | none => .error .rustPanic
      | some (bi, ki) =>
        let blocks1 := listModify d2.blocks bi (fun b => { b with kids := listInsertAt b.kids ki leaf })
        let d3 : Doc := { d2 with blocks := blocks1 }
        let c2 : Cursor := { c1 with startLoc := .afterLoc leaf.lid }
        tryMergeAtCursor d3 c2
    | .noneLoc => .error .unexpectedCursorPosition

/-- `op_insert::insert_new_block`. -/
def insertNewBlock (d : Doc) (c : Cursor) (delta : InsOp) (reg : Registry) :
    Except Err (Doc × Cursor) := do
  let id ← c.startLoc.idOf
  let r ← d.refOfIdE id
  if r.isLeafRef then do
    -- cursor inside a leaf: split text and block at the cursor
    let (d1, c1) ← splitTextAndBlockAtCursor d c
    let curId ← c1.startLoc.idOf
    let curRef ← d1.refOfIdE curId
    let leftNode ←
      match ← d1.prevNodeNonZero curRef with
      | some ln => pure ln
      | none => .error .rustPanic
    let leftParentId ←
      if leftNode.isLeafRef then parentBlockIdOf d1 leftNode.idOf
      else pure leftNode.idOf
    -- remember the right-hand parent produced by the split, if any; isolate
    -- is the identity for the paragraph format; restore its placeholder
    let rightParent ← d1.nextSibling (.blockRef leftParentId)
    let d2 ←
      match rightParent with
      | some rp =>
        match d1.findBlock rp.idOf with
        | none => .error .rustPanic
        | some rpb => if rpb.kids.isEmpty then asbInsert d1 rp.idOf else pure d1
      | none => pure d1
    let (d3, c3, ub) ← unBlockTransform d2 c1 leftParentId
    let _newFormat ← reg.blockFormat delta
    let (d4, c4, nb) ← blockTransform d3 c3 ub delta
    let d5 ←
      match d4.findBlock nb with
      | none => .error .rustPanic
      | some nbb => if nbb.kids.isEmpty then asbInsert d4 nb else pure d4
    -- right_format.try_merge on the remembered right parent: the paragraph
    -- format's try_merge is a no-op
    .ok (d5, c4)
  else do
    -- cursor at an (empty) block: isolate (identity), create the new block
    -- before it; its placeholder is inserted while it is still unlinked
    let _leftFormat ← reg.blockFormat delta
    let newB0 := pCreate delta d.freshId
    let d1 : Doc := { d with freshId := d.freshId + 1 }
    let newB ← asbInsertB newB0
    match d1.findBlockIdx id with
    | none => .error .rustPanic
    | some bi =>
      let d2 : Doc := { d1 with blocks := listInsertAt d1.blocks bi newB }
      -- left/right try_merge: paragraph format, no-ops
      .ok (d2, c)

/-- `op_insert::insert`: bump the cached retain index, classify via the
registry, dispatch, and assert the cursor does not rest on a zero-length
text node. -/
def opInsert (d : Doc) (c : Cursor) (op : InsOp) (reg : Registry) :
    Except Err (Doc × Cursor) := do
  let c0 : Cursor := { c with retainIdx := c.retainIdx + op.opLen }
  let isB ← reg.isBlockFmt op
  let (d1, c1) ←
    if isB then insertNewBlock d c0 op reg
    else do
      let _newFormat ← reg.lineFormat op
      insertNewText d c0 op
  let id ← c1.startLoc.idOf
  let rr ← d1.refOfIdE id
  if rr.isLeafRef && decide (d1.opLenOf rr = 0) then .error .rustPanic
  else .ok (d1, c1)

/-! ## The engine state and operation stream -/

/-- The engine state: the tree and the cursor (the registry is the baseline
one throughout). -/
structure EState where
  doc : Doc
  cur : Cursor
deriving DecidableEq, Repr

/-- `DocumentRoot::open()`: one empty paragraph block (with its placeholder),
cursor `At(block, 0)`, retain index 0. -/
def openState : EState :=
  ⟨⟨[⟨0, [], true, []⟩], 1⟩, ⟨0, .atLoc 0 0⟩⟩

/-- One engine operation, as fed to the application engine. -/
inductive EngineOp where
  | insOp (op : InsOp)
  | delOp (n : Nat)
  | retOp (n : Nat) (a : Attrs)
deriving DecidableEq, Repr

/-- Apply a single operation with the baseline registry. -/
def applyOp (s : EState) : EngineOp → Except Err EState
  | .insOp op => do
    let (d, c) ← opInsert s.doc s.cur op testRegistry
    .ok ⟨d, c⟩
  | .delOp n => do
    let (d, c) ← opDelete s.doc s.cur n
    .ok ⟨d, c⟩
  | .retOp n a => do
    let (d, c) ← opRetain s.doc s.cur n a testRegistry
    .ok ⟨d, c⟩

/-- Apply a sequence of operations. -/
def applyOps (s : EState) : List EngineOp → Except Err EState
  | [] => .ok s
  | o :: rest => do
    let s1 ← applyOp s o
    applyOps s1 rest

/-! ## Properties of `splitNl` (for claim C10) -/

/-- Concatenation of pieces with `'\n'` between them (`intercalate`). -/
def joinNl : List (List Char) → List Char
  | [] => []
  | [p] => p
  | p :: ps => p ++ '\n' :: joinNl ps

theorem splitNl_ne_nil (s : List Char) : splitNl s ≠ [] := by
  cases s with
  | nil => simp [splitNl]
  | cons c rest =>
    simp only [splitNl]
    by_cases h : c = '\n'
    · simp [h]
    · simp only [if_neg h]
      cases hr : splitNl rest with
      | nil => simp
      | cons p ps => simp

theorem splitNl_no_newline (s : List Char) : ∀ p ∈ splitNl s, '\n' ∉ p := by
  induction s with
  | nil => intro p hp; simp [splitNl] at hp; simp [hp]
  | cons c rest ih =>
    intro p hp
    simp only [splitNl] at hp
    by_cases h : c = '\n'
    · rw [if_pos h] at hp
      rcases List.mem_cons.mp hp with h1 | h1
      · simp [h1]
      · exact ih p h1
    · rw [if_neg h] at hp
      cases hr : splitNl rest with
      | nil => exact absurd hr (splitNl_ne_nil rest)
      | cons q qs =>
        rw [hr] at hp
        rcases List.mem_cons.mp hp with h1 | h1
        · subst h1
          intro hmem
          rcases List.mem_cons.mp hmem with h2 | h2
          · exact h (h2.symm)
          · exact ih q (by rw [hr]; exact List.mem_cons_self q qs) h2
        · exact ih p (by rw [hr]; exact List.mem_cons_of_mem q h1)

theorem joinNl_cons_ne (p : List Char) (ps : List (List Char)) (h : ps ≠ []) :
    joinNl (p :: ps) = p ++ '\n' :: joinNl ps := by
  cases ps with
  | nil => exact absurd rfl h
  | cons q qs => rfl

theorem joinNl_splitNl (s : List Char) : joinNl (splitNl s) = s := by
  induction s with
  | nil => rfl
  | cons c rest ih =>
    simp only [splitNl]
    by_cases h : c = '\n'
    · rw [if_pos h, joinNl_cons_ne _ _ (splitNl_ne_nil rest), ih, h]
      rfl
    · rw [if_neg h]
      cases hr : splitNl rest with
      | nil => exact absurd hr (splitNl_ne_nil rest)
      | cons q qs =>
        rw [hr] at ih
        cases qs with
        | nil =>
          simp only [joinNl] at ih ⊢
          rw [ih]
        | cons q2 qs2 =>
          rw [joinNl_cons_ne _ _ (by simp), List.cons_append,
            ← joinNl_cons_ne q (q2 :: qs2) (by simp), ih]

theorem emitLine_payload_flatten (a : Attrs) (p : List Char) :
    ((emitLine a p).map InsOp.payload).flatten = p ++ ['\n'] := by
  by_cases h : p = []
  · subst h; rfl
  · simp [emitLine, h, InsOp.payload, newline]

theorem emitLine_ne_nil (a : Attrs) (p : List Char) : emitLine a p ≠ [] := by
  by_cases h : p = [] <;> simp [emitLine, h]

theorem flatMap_emitLine_flatten (a : Attrs) (parts : List (List Char)) :
    ((parts.flatMap (emitLine a)).map InsOp.payload).flatten =
      parts.flatMap (fun p => p ++ ['\n']) := by
  induction parts with
  | nil => rfl
  | cons p ps ih =>
    simp only [List.flatMap_cons, List.map_append, List.flatten_append, ih,
      emitLine_payload_flatten]

theorem flatMap_append_nl (parts : List (List Char)) (h : parts ≠ []) :
    parts.flatMap (fun p => p ++ ['\n']) = joinNl parts ++ ['\n'] := by
  induction parts with
  | nil => exact absurd rfl h
  | cons p ps ih =>
    cases ps with
    | nil => simp [joinNl]
    | cons q qs =>
      rw [List.flatMap_cons, ih (by simp), joinNl_cons_ne p (q :: qs) (by simp)]
      simp

theorem getLast?_flatMap_emitLine (a : Attrs) (parts : List (List Char)) (h : parts ≠ []) :
    (parts.flatMap (emitLine a)).getLast? = some ⟨.textI newline, a⟩ := by
  induction parts with
  | nil => exact absurd rfl h
  | cons p ps ih =>
    cases ps with
    | nil =>
      by_cases hp : p = [] <;> simp [emitLine, hp]
    | cons q qs =>
      have hne : (q :: qs).flatMap (emitLine a) ≠ [] := by
        rw [List.flatMap_cons]
        intro hcon
        rcases List.append_eq_nil.mp hcon with ⟨h1, _⟩
        exact emitLine_ne_nil a q h1
      rw [List.flatMap_cons, List.getLast?_append_of_ne_nil _ hne, ih (by simp)]

theorem flatten_map_dropLast (l : List InsOp) (x : InsOp) (h : l.getLast? = some x) :
    (l.map InsOp.payload).flatten = ((l.dropLast).map InsOp.payload).flatten ++ x.payload := by
  have hne : l ≠ [] := by
    intro hc; rw [hc] at h; simp at h
  have hx : l.getLast hne = x := by
    have := List.getLast?_eq_getLast l hne
    rw [this] at h
    exact Option.some.inj h
  conv_lhs => rw [← List.dropLast_append_getLast hne]
  rw [hx, List.map_append, List.flatten_append]
  simp [InsOp.payload]

/-- C10: for every Insert operation whose payload is a non-empty string,
`split_text_lines` returns a sequence of operations in which every payload is
either exactly `"\n"` or a non-empty string containing no `"\n"`, every
operation carries the original operation's attributes, and the concatenation
of all payloads in order equals the original string. -/
theorem C10_split_text_lines (op : InsOp) (s : List Char)
    (hval : op.val = .textI s) (hne : s ≠ []) (l : List InsOp)
    (hok : splitTextLines op = .ok l) :
    (∀ o ∈ l, o.attrs = op.attrs ∧
      (o.val = .textI newline ∨ ∃ t, o.val = .textI t ∧ t ≠ [] ∧ '\n' ∉ t)) ∧
    (l.map InsOp.payload).flatten = s := by
  obtain ⟨v, a⟩ := op
  simp only at hval
  subst hval
  simp only [splitTextLines, InsOp.opLen, InsertVal.isString, Bool.not_true,
    Bool.or_false] at hok
  by_cases h1 : s.length = 1
  · rw [if_pos (by simp [h1])] at hok
    obtain ⟨c, hs⟩ := List.length_eq_one.mp h1
    have hl : l = [⟨.textI s, a⟩] := by
      cases hok; rfl
    subst hl
    constructor
    · intro o ho
      rcases List.mem_singleton.mp ho with rfl
      refine ⟨rfl, ?_⟩
      by_cases hc : c = '\n'
      · left; rw [hs, hc]; rfl
      · right
        refine ⟨s, rfl, hne, ?_⟩
        rw [hs]
        intro hmem
        exact hc (List.mem_singleton.mp hmem).symm
    · have hm : (List.map InsOp.payload [(⟨.textI s, a⟩ : InsOp)]) = [s] := rfl
      rw [hm]
      simp
  · rw [if_neg (by simp [h1])] at hok
    set parts := splitNl s with hparts
    set dops := parts.flatMap (emitLine a) with hdops
    have hpne : parts ≠ [] := splitNl_ne_nil s
    have hjoin : joinNl parts = s := joinNl_splitNl s
    have hlen : dops.length > 1 := by
      rw [hdops]
      cases hp : parts with
      | nil => exact absurd hp hpne
      | cons p ps =>
        cases ps with
        | nil =>
          have hpeq : p = s := by
            rw [hp] at hjoin
            simpa [joinNl] using hjoin
          have hpne2 : p ≠ [] := hpeq ▸ hne
          simp [emitLine, hpne2]
        | cons q qs =>
          rw [List.flatMap_cons, List.length_append, List.flatMap_cons,
            List.length_append]
          have e1 : 0 < (emitLine a p).length := List.length_pos.mpr (emitLine_ne_nil a p)
          have e2 : 0 < (emitLine a q).length := List.length_pos.mpr (emitLine_ne_nil a q)
          omega
    rw [if_pos hlen] at hok
    have hl : l = dops.dropLast := by cases hok; rfl
    subst hl
    constructor
    · intro o ho
      have ho2 : o ∈ dops := (List.dropLast_prefix dops).subset ho
      rw [hdops] at ho2
      obtain ⟨p, hp, hmem⟩ := List.mem_flatMap.mp ho2
      by_cases hpe : p = []
      · rw [hpe] at hmem
        simp only [emitLine, List.isEmpty_nil, Bool.not_true, if_false] at hmem
        rcases List.mem_singleton.mp hmem with rfl
        exact ⟨rfl, Or.inl rfl⟩
      · have hcond : (!p.isEmpty) = true := by simp [hpe]
        rw [emitLine, if_pos hcond] at hmem
        rcases List.mem_cons.mp hmem with rfl | hmem2
        · exact ⟨rfl, Or.inr ⟨p, rfl, hpe, splitNl_no_newline s p hp⟩⟩
        · rcases List.mem_singleton.mp hmem2 with rfl
          exact ⟨rfl, Or.inl rfl⟩
    · have h4 := getLast?_flatMap_emitLine a parts hpne
      rw [← hdops] at h4
      have h5 := flatten_map_dropLast dops _ h4
      have h6 : (dops.map InsOp.payload).flatten = s ++ ['\n'] := by
        rw [hdops, flatMap_emitLine_flatten, flatMap_append_nl parts hpne, hjoin]
      rw [h6] at h5
      have h7 : (⟨InsertVal.textI newline, a⟩ : InsOp).payload = ['\n'] := rfl
      rw [h7] at h5
      exact (List.append_left_inj _).mp h5.symm

/-- Witness for C10 at the concrete bold operation `"a\nb"`. -/
theorem C10_split_text_lines_witness :
    (⟨.textI ['a', '\n', 'b'], [("bold", .boolV true)]⟩ : InsOp).val
        = .textI ['a', '\n', 'b'] ∧
    (['a', '\n', 'b'] : List Char) ≠ [] ∧
    splitTextLines ⟨.textI ['a', '\n', 'b'], [("bold", .boolV true)]⟩ =
      .ok [⟨.textI ['a'], [("bold", .boolV true)]⟩,
           ⟨.textI newline, [("bold", .boolV true)]⟩,
           ⟨.textI ['b'], [("bold", .boolV true)]⟩] ∧
    ((∀ o ∈ [(⟨.textI ['a'], [("bold", .boolV true)]⟩ : InsOp),
           ⟨.textI newline, [("bold", .boolV true)]⟩,
           ⟨.textI ['b'], [("bold", .boolV true)]⟩],
        o.attrs = [("bold", AttrVal.boolV true)] ∧
        (o.val = .textI newline ∨ ∃ t, o.val = .textI t ∧ t ≠ [] ∧ '\n' ∉ t)) ∧
      (([(⟨.textI ['a'], [("bold", .boolV true)]⟩ : InsOp),
           ⟨.textI newline, [("bold", .boolV true)]⟩,
           ⟨.textI ['b'], [("bold", .boolV true)]⟩]).map InsOp.payload).flatten
        = ['a', '\n', 'b']) :=
  ⟨rfl, by decide, by rfl,
    C10_split_text_lines ⟨.textI ['a', '\n', 'b'], [("bold", .boolV true)]⟩
      ['a', '\n', 'b'] rfl (by decide)
      [⟨.textI ['a'], [("bold", .boolV true)]⟩,
       ⟨.textI newline, [("bold", .boolV true)]⟩,
       ⟨.textI ['b'], [("bold", .boolV true)]⟩] (by rfl)⟩

/-! ## Registry scan semantics (claim C8) -/

/-- The formats a registry scan visits, in registration order of their
labels. -/
def firstMatch (m : List (String × RegFormat)) (order : List String) (op : InsOp) :
    Option RegFormat :=
  (order.filterMap (assocGet m)).find? (fun f => f.rapplies op)

theorem registryScan_eq_firstMatch (m : List (String × RegFormat)) (order : List String)
    (op : InsOp) (hb : ∀ lab ∈ order, (assocGet m lab).isSome) :
    registryScan m order op = .ok (firstMatch m order op) := by
  induction order with
  | nil => rfl
  | cons lab rest ih =>
    have hhead := hb lab (List.mem_cons_self lab rest)
    obtain ⟨f, hf⟩ := Option.isSome_iff_exists.mp hhead
    have hrest : ∀ l2 ∈ rest, (assocGet m l2).isSome := fun l2 h2 =>
      hb l2 (List.mem_cons_of_mem lab h2)
    by_cases ha : f.rapplies op
    · simp [registryScan, hf, firstMatch, List.filterMap_cons, ha]
    · simp [registryScan, hf, firstMatch, List.filterMap_cons, ha, ih hrest,
        List.find?]

/-- C8: `Registry::block_format` and `Registry::line_format` scan the
registered formats in registration (insertion) order and return the first
format whose `applies(op)` is true; when no registered format applies they
return an error — `RegistryNotInitialised` when the registry is empty,
`RegistryNoFormatForOp` otherwise — never a silent default.  (The emptiness
test in the source inspects the line-format order list in both functions.) -/
theorem C8_registry_first_match (r : Registry) (op : InsOp)
    (hb : ∀ lab ∈ r.blockOrder, (assocGet r.blockFormats lab).isSome)
    (ht : ∀ lab ∈ r.textOrder, (assocGet r.textFormats lab).isSome) :
    (r.blockFormat op =
      match firstMatch r.blockFormats r.blockOrder op with
      | some f => .ok f
      | none => .error (if r.textOrder.isEmpty then Err.registryNotInitialised
          else Err.registryNoFormatForOp)) ∧
    (r.lineFormat op =
      match firstMatch r.textFormats r.textOrder op with
      | some f => .ok f
      | none => .error (if r.textOrder.isEmpty then Err.registryNotInitialised
          else Err.registryNoFormatForOp)) := by
  constructor
  · rw [Registry.blockFormat, registryScan_eq_firstMatch r.blockFormats r.blockOrder op hb]
    cases firstMatch r.blockFormats r.blockOrder op with
    | some f => rfl
    | none =>
      by_cases h : r.textOrder.isEmpty <;> simp only [h, if_true, if_false] <;> rfl
  · rw [Registry.lineFormat, registryScan_eq_firstMatch r.textFormats r.textOrder op ht]
    cases firstMatch r.textFormats r.textOrder op with
    | some f => rfl
    | none =>
      by_cases h : r.textOrder.isEmpty <;> simp only [h, if_true, if_false] <;> rfl

/-- Witness for C8: the baseline registry with the operation `"x"` — the text
format is the first (only) line match; no block format applies, so
`block_format` reports `RegistryNoFormatForOp`. -/
theorem C8_registry_first_match_witness :
    (∀ lab ∈ testRegistry.blockOrder, (assocGet testRegistry.blockFormats lab).isSome) ∧
    (∀ lab ∈ testRegistry.textOrder, (assocGet testRegistry.textFormats lab).isSome) ∧
    ((testRegistry.blockFormat ⟨.textI ['x'], []⟩ =
      match firstMatch testRegistry.blockFormats testRegistry.blockOrder ⟨.textI ['x'], []⟩ with
      | some f => .ok f
      | none => .error (if testRegistry.textOrder.isEmpty then Err.registryNotInitialised
          else Err.registryNoFormatForOp)) ∧
    (testRegistry.lineFormat ⟨.textI ['x'], []⟩ =
      match firstMatch testRegistry.textFormats testRegistry.textOrder ⟨.textI ['x'], []⟩ with
      | some f => .ok f
      | none => .error (if testRegistry.textOrder.isEmpty then Err.registryNotInitialised
          else Err.registryNoFormatForOp))) :=
  ⟨by decide, by decide,
    C8_registry_first_match testRegistry ⟨.textI ['x'], []⟩ (by decide) (by decide)⟩

/-! ## Identity bookkeeping: locating nodes in well-formed documents -/

/-- All node ids of one block (children first, then the block itself). -/
def Block.nodeIdsB (b : Block) : List Nat :=
  b.kids.map Leaf.lid ++ [b.bid]

/-- All node ids of a document, in document order. -/
def Doc.nodeIds (d : Doc) : List Nat :=
  d.blocks.flatMap Block.nodeIdsB

/-- The id discipline of the `Arc`-pointer model: node ids are pairwise
distinct and below the fresh-id counter. -/
structure DocIdsOk (d : Doc) : Prop where
  nodup : d.nodeIds.Nodup
  bound : ∀ i ∈ d.nodeIds, i < d.freshId

theorem findIdx?_locate {α : Type} (p : α → Bool) (pre : List α) (x : α) (post : List α)
    (hpre : ∀ y ∈ pre, p y = false) (hx : p x = true) :
    (pre ++ x :: post).findIdx? p = some pre.length := by
  rw [List.findIdx?_append]
  have h1 : pre.findIdx? p = none := List.findIdx?_eq_none_iff.mpr hpre
  have h2 : (x :: post).findIdx? p = some 0 := by
    rw [List.findIdx?_cons, if_pos hx]
  rw [h1, h2]
  simp

theorem findKidIdx_locate (b : Block) (kpre : List Leaf) (l : Leaf) (kpost : List Leaf)
    (hk : b.kids = kpre ++ l :: kpost) (hpre : ∀ y ∈ kpre, y.lid ≠ l.lid) :
    b.findKidIdx l.lid = some kpre.length := by
  rw [Block.findKidIdx, hk]
  exact findIdx?_locate _ kpre l kpost
    (fun y hy => by simp [hpre y hy]) (by simp)

theorem findKidIdx_none (b : Block) (id : Nat) (h : ∀ y ∈ b.kids, y.lid ≠ id) :
    b.findKidIdx id = none := by
  rw [Block.findKidIdx]
  exact List.findIdx?_eq_none_iff.mpr (fun y hy => by simp [h y hy])

theorem findLeafPosAux_append_none (pre : List Block) (bs : List Block) (id n : Nat)
    (hpre : ∀ b ∈ pre, b.findKidIdx id = none) :
    findLeafPosAux (pre ++ bs) id n = findLeafPosAux bs id (n + pre.length) := by
  induction pre generalizing n with
  | nil => simp [findLeafPosAux]
  | cons b rest ih =>
    have hb := hpre b (List.mem_cons_self b rest)
    rw [List.cons_append, findLeafPosAux, hb,
      ih (n + 1) (fun b2 h2 => hpre b2 (List.mem_cons_of_mem b h2))]
    simp [Nat.add_assoc, Nat.add_comm 1 rest.length]

theorem findLeafPosAux_none (bs : List Block) (id n : Nat)
    (h : ∀ b ∈ bs, b.findKidIdx id = none) :
    findLeafPosAux bs id n = none := by
  induction bs generalizing n with
  | nil => rfl
  | cons b rest ih =>
    rw [findLeafPosAux, h b (List.mem_cons_self b rest)]
    exact ih (n + 1) (fun b2 h2 => h b2 (List.mem_cons_of_mem b h2))

/-- Locate a leaf from a document decomposition, given that no earlier block
contains the id and no earlier kid of its block carries it. -/
theorem findLeafPos_locate (d : Doc) (pre : List Block) (b : Block) (post : List Block)
    (kpre : List Leaf) (l : Leaf) (kpost : List Leaf)
    (hd : d.blocks = pre ++ b :: post) (hk : b.kids = kpre ++ l :: kpost)
    (hpre : ∀ b2 ∈ pre, b2.findKidIdx l.lid = none)
    (hkpre : ∀ y ∈ kpre, y.lid ≠ l.lid) :
    d.findLeafPos l.lid = some (pre.length, kpre.length) := by
  rw [Doc.findLeafPos, hd, findLeafPosAux_append_none pre _ _ _ hpre,
    findLeafPosAux, findKidIdx_locate b kpre l kpost hk hkpre]
  simp

theorem findLeafPos_not_found (d : Doc) (id : Nat)
    (h : ∀ b ∈ d.blocks, ∀ y ∈ b.kids, y.lid ≠ id) :
    d.findLeafPos id = none :=
  findLeafPosAux_none d.blocks id 0 (fun b hb => findKidIdx_none b id (h b hb))

theorem findBlockIdx_locate (d : Doc) (pre : List Block) (b : Block) (post : List Block)
    (hd : d.blocks = pre ++ b :: post)
    (hpre : ∀ b2 ∈ pre, b2.bid ≠ b.bid) :
    d.findBlockIdx b.bid = some pre.length := by
  rw [Doc.findBlockIdx, hd]
  exact findIdx?_locate _ pre b post (fun y hy => by simp [hpre y hy]) (by simp)

theorem findBlockIdx_not_found (d : Doc) (id : Nat)
    (h : ∀ b ∈ d.blocks, b.bid ≠ id) :
    d.findBlockIdx id = none := by
  rw [Doc.findBlockIdx]
  exact List.findIdx?_eq_none_iff.mpr (fun y hy => by simp [h y hy])

theorem find?_locate {α : Type} (p : α → Bool) (pre : List α) (x : α) (post : List α)
    (hpre : ∀ y ∈ pre, p y = false) (hx : p x = true) :
    (pre ++ x :: post).find? p = some x := by
  induction pre with
  | nil => simp [List.find?, hx]
  | cons y rest ih =>
    rw [List.cons_append, List.find?]
    rw [hpre y (List.mem_cons_self y rest)]
    exact ih (fun y2 h2 => hpre y2 (List.mem_cons_of_mem y h2))

theorem findBlock_locate (d : Doc) (pre : List Block) (b : Block) (post : List Block)
    (hd : d.blocks = pre ++ b :: post)
    (hpre : ∀ b2 ∈ pre, b2.bid ≠ b.bid) :
    d.findBlock b.bid = some b := by
  rw [Doc.findBlock, hd]
  exact find?_locate _ pre b post (fun y hy => by simp [hpre y hy]) (by simp)

theorem nodeIds_decomp (d : Doc) (pre : List Block) (b : Block) (post : List Block)
    (hd : d.blocks = pre ++ b :: post) :
    d.nodeIds = pre.flatMap Block.nodeIdsB ++ (b.nodeIdsB ++ post.flatMap Block.nodeIdsB) := by
  rw [Doc.nodeIds, hd, List.flatMap_append, List.flatMap_cons]

theorem mem_nodeIdsB_of_kid (b : Block) (l : Leaf) (hl : l ∈ b.kids) :
    l.lid ∈ b.nodeIdsB := by
  rw [Block.nodeIdsB]
  exact List.mem_append_left _ (List.mem_map_of_mem Leaf.lid hl)

theorem bid_mem_nodeIdsB (b : Block) : b.bid ∈ b.nodeIdsB := by
  rw [Block.nodeIdsB]
  exact List.mem_append_right _ (List.mem_singleton_self _)

/-- All the disequalities needed to locate the leaf `l` in a decomposed
well-formed document. -/
theorem leaf_sides (d : Doc) (pre : List Block) (b : Block) (post : List Block)
    (kpre : List Leaf) (l : Leaf) (kpost : List Leaf)
    (hnd : d.nodeIds.Nodup)
    (hd : d.blocks = pre ++ b :: post) (hk : b.kids = kpre ++ l :: kpost) :
    (∀ b2 ∈ pre, b2.findKidIdx l.lid = none) ∧ (∀ y ∈ kpre, y.lid ≠ l.lid) ∧
    (∀ b2 ∈ post, b2.findKidIdx l.lid = none) ∧ (∀ y ∈ kpost, y.lid ≠ l.lid) ∧
    (∀ b2 ∈ d.blocks, b2.bid ≠ l.lid) := by
  rw [nodeIds_decomp d pre b post hd] at hnd
  rw [List.nodup_append] at hnd
  obtain ⟨hnPre, hnRest, hdisj1⟩ := hnd
  rw [List.nodup_append] at hnRest
  obtain ⟨hnB, hnPost, hdisj2⟩ := hnRest
  have hmemB : l.lid ∈ b.nodeIdsB := mem_nodeIdsB_of_kid b l (by rw [hk]; simp)
  have hBids : b.nodeIdsB = (kpre.map Leaf.lid ++ l.lid :: kpost.map Leaf.lid) ++ [b.bid] := by
    rw [Block.nodeIdsB, hk]; simp
  refine ⟨?_, ?_, ?_, ?_, ?_⟩
  · intro b2 h2
    refine findKidIdx_none b2 l.lid (fun y hy hcon => ?_)
    exact hdisj1 (by
      rw [List.mem_flatMap]
      exact ⟨b2, h2, hcon ▸ mem_nodeIdsB_of_kid b2 y hy⟩)
      (List.mem_append_left _ hmemB)
  · intro y hy hcon
    have := hnB
    rw [hBids, List.nodup_append] at this
    have hnkids := this.1
    rw [List.nodup_append] at hnkids
    obtain ⟨_, hcons, hdj⟩ := hnkids
    exact hdj (hcon ▸ List.mem_map_of_mem Leaf.lid hy) (List.mem_cons_self _ _)
  · intro b2 h2
    refine findKidIdx_none b2 l.lid (fun y hy hcon => ?_)
    exact hdisj2 hmemB (by
      rw [List.mem_flatMap]
      exact ⟨b2, h2, hcon ▸ mem_nodeIdsB_of_kid b2 y hy⟩)
  · intro y hy hcon
    have := hnB
    rw [hBids, List.nodup_append] at this
    have hnkids := this.1
    rw [List.nodup_append] at hnkids
    obtain ⟨_, hcons, _⟩ := hnkids
    rw [List.nodup_cons] at hcons
    exact hcons.1 (hcon ▸ List.mem_map_of_mem Leaf.lid hy)
  · intro b2 h2 hcon
    rw [hd] at h2
    rcases List.mem_append.mp h2 with h3 | h3
    · exact hdisj1 (by
        rw [List.mem_flatMap]
        exact ⟨b2, h3, hcon ▸ bid_mem_nodeIdsB b2⟩)
        (List.mem_append_left _ hmemB)
    · rcases List.mem_cons.mp h3 with rfl | h4
      · have := hnB
        rw [hBids, List.nodup_append] at this
        obtain ⟨_, _, hdj⟩ := this
        exact hdj (by rw [hcon]; simp) (List.mem_singleton_self _)
      · exact hdisj2 hmemB (by
          rw [List.mem_flatMap]
          exact ⟨b2, h4, hcon ▸ bid_mem_nodeIdsB b2⟩)

/-- All the disequalities needed to locate the block `b` in a decomposed
well-formed document. -/
theorem block_sides (d : Doc) (pre : List Block) (b : Block) (post : List Block)
    (hnd : d.nodeIds.Nodup) (hd : d.blocks = pre ++ b :: post) :
    (∀ b2 ∈ pre, b2.bid ≠ b.bid) ∧ (∀ b2 ∈ post, b2.bid ≠ b.bid) ∧
    (∀ b2 ∈ d.blocks, ∀ y ∈ b2.kids, y.lid ≠ b.bid) := by
  rw [nodeIds_decomp d pre b post hd] at hnd
  rw [List.nodup_append] at hnd
  obtain ⟨hnPre, hnRest, hdisj1⟩ := hnd
  rw [List.nodup_append] at hnRest
  obtain ⟨hnB, hnPost, hdisj2⟩ := hnRest
  refine ⟨?_, ?_, ?_⟩
  · intro b2 h2 hcon
    exact hdisj1 (by
      rw [List.mem_flatMap]
      exact ⟨b2, h2, hcon ▸ bid_mem_nodeIdsB b2⟩)
      (List.mem_append_left _ (bid_mem_nodeIdsB b))
  · intro b2 h2 hcon
    exact hdisj2 (bid_mem_nodeIdsB b) (by
      rw [List.mem_flatMap]
      exact ⟨b2, h2, hcon ▸ bid_mem_nodeIdsB b2⟩)
  · intro b2 h2 y hy hcon
    rw [hd] at h2
    rcases List.mem_append.mp h2 with h3 | h3
    · exact hdisj1 (by
        rw [List.mem_flatMap]
        exact ⟨b2, h3, mem_nodeIdsB_of_kid b2 y hy⟩)
        (List.mem_append_left _ (hcon ▸ bid_mem_nodeIdsB b))
    · rcases List.mem_cons.mp h3 with rfl | h4
      · have := hnB
        rw [Block.nodeIdsB, List.nodup_append] at this
        obtain ⟨_, _, hdj⟩ := this
        exact hdj (hcon ▸ List.mem_map_of_mem Leaf.lid hy) (List.mem_singleton_self _)
      · exact hdisj2 (bid_mem_nodeIdsB b) (by
          rw [List.mem_flatMap]
          exact ⟨b2, h4, hcon ▸ mem_nodeIdsB_of_kid b2 y hy⟩)

theorem get?_middle {α : Type} (pre : List α) (x : α) (post : List α) :
    (pre ++ x :: post).get? pre.length = some x := by
  induction pre with
  | nil => rfl
  | cons y rest ih => simpa using ih

/-- Lookup bundle for a decomposed leaf in a well-formed document. -/
theorem lookup_leaf (d : Doc) (pre : List Block) (b : Block) (post : List Block)
    (kpre : List Leaf) (l : Leaf) (kpost : List Leaf)
    (hnd : d.nodeIds.Nodup)
    (hd : d.blocks = pre ++ b :: post) (hk : b.kids = kpre ++ l :: kpost) :
    d.findLeafPos l.lid = some (pre.length, kpre.length) ∧
    d.blocks.get? pre.length = some b ∧
    b.kids.get? kpre.length = some l ∧
    d.findLeaf l.lid = some (b, l) ∧
    d.refOfId l.lid = some (.leafRef l.lid) := by
  obtain ⟨h1, h2, _, _, _⟩ := leaf_sides d pre b post kpre l kpost hnd hd hk
  have hpos := findLeafPos_locate d pre b post kpre l kpost hd hk h1 h2
  have hgb : d.blocks.get? pre.length = some b := by
    rw [hd]; exact get?_middle pre b post
  have hgl : b.kids.get? kpre.length = some l := by
    rw [hk]; exact get?_middle kpre l kpost
  refine ⟨hpos, hgb, hgl, ?_, ?_⟩
  · have hgb2 : d.blocks[pre.length]? = some b := by
      rw [← List.get?_eq_getElem?]; exact hgb
    have hgl2 : b.kids[kpre.length]? = some l := by
      rw [← List.get?_eq_getElem?]; exact hgl
    rw [Doc.findLeaf, hpos]
    simp [Option.bind, hgb2, hgl2]
  · rw [Doc.refOfId, Doc.isLinkedLeaf, hpos]
    simp

/-- Lookup bundle for a decomposed block in a well-formed document. -/
theorem lookup_block (d : Doc) (pre : List Block) (b : Block) (post : List Block)
    (hnd : d.nodeIds.Nodup) (hd : d.blocks = pre ++ b :: post) :
    d.findBlockIdx b.bid = some pre.length ∧
    d.findBlock b.bid = some b ∧
    d.blocks.get? pre.length = some b ∧
    d.findLeafPos b.bid = none ∧
    d.refOfId b.bid = some (.blockRef b.bid) := by
  obtain ⟨h1, _, h3⟩ := block_sides d pre b post hnd hd
  have hbi := findBlockIdx_locate d pre b post hd h1
  have hfb := findBlock_locate d pre b post hd h1
  have hnl : d.findLeafPos b.bid = none :=
    findLeafPos_not_found d b.bid h3
  refine ⟨hbi, hfb, by rw [hd]; exact get?_middle pre b post, hnl, ?_⟩
  rw [Doc.refOfId, Doc.isLinkedLeaf, hnl, Doc.isLinkedBlock, hbi]
  simp

/-- A well-formed attribute map binds each key once. -/
def WFAttrs (a : Attrs) : Prop :=
  (a.map Prod.fst).Nodup

theorem Attrs.get_of_mem (a : Attrs) (p : String × AttrVal) (hw : WFAttrs a) (hp : p ∈ a) :
    Attrs.get a p.1 = some p.2 := by
  induction a with
  | nil => cases hp
  | cons q rest ih =>
    rw [WFAttrs, List.map_cons, List.nodup_cons] at hw
    rcases List.mem_cons.mp hp with rfl | hp2
    · rw [Attrs.get, List.find?_cons]
      simp
    · by_cases hq : q.1 = p.1
      · exact absurd (hq ▸ List.mem_map_of_mem Prod.fst hp2) hw.1
      · have hstep : Attrs.get (q :: rest) p.1 = Attrs.get rest p.1 := by
          rw [Attrs.get, Attrs.get, List.find?_cons]
          simp [hq]
        rw [hstep]
        exact ih hw.2 hp2

theorem aeq_refl (a : Attrs) (hw : WFAttrs a) : Attrs.aeq a a = true := by
  rw [Attrs.aeq, Bool.and_eq_true]
  constructor <;>
    (rw [Attrs.subsetA, List.all_eq_true]
     intro p hp
     rw [Attrs.get_of_mem a p hw hp]
     simp)

theorem map_id_of {α : Type} (l : List α) (f : α → α) (h : ∀ x ∈ l, f x = x) :
    l.map f = l := by
  induction l with
  | nil => rfl
  | cons x rest ih =>
    rw [List.map_cons, h x (List.mem_cons_self x rest),
      ih (fun y hy => h y (List.mem_cons_of_mem x hy))]

theorem listModify_middle {α : Type} (pre : List α) (x : α) (post : List α) (f : α → α) :
    listModify (pre ++ x :: post) pre.length f = pre ++ f x :: post := by
  rw [listModify, get?_middle]
  induction pre with
  | nil => rfl
  | cons y rest ih => simpa using ih

theorem listInsertAt_at {α : Type} (pre : List α) (post : List α) (y : α) :
    listInsertAt (pre ++ post) pre.length y = pre ++ y :: post := by
  rw [listInsertAt, List.take_left' rfl]
  congr 1
  rw [List.drop_left' rfl]

theorem listInsertAt_after {α : Type} (pre : List α) (x : α) (post : List α) (y : α) :
    listInsertAt (pre ++ x :: post) (pre.length + 1) y = pre ++ x :: y :: post := by
  have h : pre ++ x :: y :: post = (pre ++ [x]) ++ y :: post := by simp
  have h2 : pre.length + 1 = (pre ++ [x]).length := by simp
  have h3 : pre ++ x :: post = (pre ++ [x]) ++ post := by simp
  rw [h, h2, h3, listInsertAt_at]

/-- The left half of a split leaf (keeps the node identity). -/
def leftHalf (l : Leaf) (k : Nat) : Leaf :=
  { l with ltext := l.ltext.take k }

/-- The right half of a split leaf (a fresh node with the same attributes). -/
def rightHalf (d : Doc) (l : Leaf) (k : Nat) : Leaf :=
  ⟨d.freshId, l.ltext.drop k, l.lattrs⟩

/-- Computation of `split_text_node` on a decomposed well-formed document. -/
theorem splitTextNode_spec (d : Doc) (pre : List Block) (b : Block) (post : List Block)
    (kpre : List Leaf) (l : Leaf) (kpost : List Leaf) (k : Nat)
    (hnd : d.nodeIds.Nodup)
    (hd : d.blocks = pre ++ b :: post) (hk : b.kids = kpre ++ l :: kpost)
    (hk0 : 0 < k) (hkl : k < l.ltext.length) :
    splitTextNode d l.lid k =
      .ok (⟨pre ++ { b with kids := kpre ++ leftHalf l k :: rightHalf d l k :: kpost } :: post,
            d.freshId + 1⟩, d.freshId) := by
  obtain ⟨hpos, hgb, hgl, _, _⟩ := lookup_leaf d pre b post kpre l kpost hnd hd hk
  rw [splitTextNode, hpos]
  simp only [hgb, hgl]
  rw [if_neg (by omega), if_neg (by omega)]
  have hmod : listModify b.kids kpre.length (fun _ => leftHalf l k) =
      kpre ++ leftHalf l k :: kpost := by
    rw [hk]; exact listModify_middle kpre l kpost _
  have hins : listInsertAt (kpre ++ leftHalf l k :: kpost) (kpre.length + 1)
      (rightHalf d l k) = kpre ++ leftHalf l k :: rightHalf d l k :: kpost :=
    listInsertAt_after kpre (leftHalf l k) kpost (rightHalf d l k)
  have hmod2 : listModify d.blocks pre.length
      (fun _ => { b with kids := kpre ++ leftHalf l k :: rightHalf d l k :: kpost }) =
      pre ++ { b with kids := kpre ++ leftHalf l k :: rightHalf d l k :: kpost } :: post := by
    rw [hd]; exact listModify_middle pre b post _
  simp only [leftHalf, rightHalf] at hmod hins hmod2 ⊢
  rw [hmod, hins, hmod2]

/-- Raw disequalities for a decomposed leaf. -/
theorem leaf_sides_raw (d : Doc) (pre : List Block) (b : Block) (post : List Block)
    (kpre : List Leaf) (l : Leaf) (kpost : List Leaf)
    (hnd : d.nodeIds.Nodup)
    (hd : d.blocks = pre ++ b :: post) (hk : b.kids = kpre ++ l :: kpost) :
    (∀ b2 ∈ pre, ∀ y ∈ b2.kids, y.lid ≠ l.lid) ∧ (∀ y ∈ kpre, y.lid ≠ l.lid) ∧
    (∀ b2 ∈ post, ∀ y ∈ b2.kids, y.lid ≠ l.lid) ∧ (∀ y ∈ kpost, y.lid ≠ l.lid) ∧
    (∀ b2 ∈ d.blocks, b2.bid ≠ l.lid) := by
  have hnd0 := hnd
  rw [nodeIds_decomp d pre b post hd] at hnd
  rw [List.nodup_append] at hnd
  obtain ⟨hnPre, hnRest, hdisj1⟩ := hnd
  rw [List.nodup_append] at hnRest
  obtain ⟨hnB, hnPost, hdisj2⟩ := hnRest
  have hmemB : l.lid ∈ b.nodeIdsB := mem_nodeIdsB_of_kid b l (by rw [hk]; simp)
  have hBids : b.nodeIdsB = (kpre.map Leaf.lid ++ l.lid :: kpost.map Leaf.lid) ++ [b.bid] := by
    rw [Block.nodeIdsB, hk]; simp
  refine ⟨?_, ?_, ?_, ?_, ?_⟩
  · intro b2 h2 y hy hcon
    exact hdisj1 (by
      rw [List.mem_flatMap]
      exact ⟨b2, h2, hcon ▸ mem_nodeIdsB_of_kid b2 y hy⟩)
      (List.mem_append_left _ hmemB)
  · intro y hy hcon
    have := hnB
    rw [hBids, List.nodup_append] at this
    have hnkids := this.1
    rw [List.nodup_append] at hnkids
    obtain ⟨_, hcons, hdj⟩ := hnkids
    exact hdj (hcon ▸ List.mem_map_of_mem Leaf.lid hy) (List.mem_cons_self _ _)
  · intro b2 h2 y hy hcon
    exact hdisj2 hmemB (by
      rw [List.mem_flatMap]
      exact ⟨b2, h2, hcon ▸ mem_nodeIdsB_of_kid b2 y hy⟩)
  · intro y hy hcon
    have := hnB
    rw [hBids, List.nodup_append] at this
    have hnkids := this.1
    rw [List.nodup_append] at hnkids
    obtain ⟨_, hcons, _⟩ := hnkids
    rw [List.nodup_cons] at hcons
    exact hcons.1 (hcon ▸ List.mem_map_of_mem Leaf.lid hy)
  · exact (leaf_sides d pre b post kpre l kpost hnd0 hd hk).2.2.2.2

/-- Inserting one fresh id in the middle keeps the id list duplicate-free. -/
theorem nodup_insert_middle (u v : List Nat) (x : Nat)
    (h : (u ++ v).Nodup) (hx : x ∉ u ++ v) : (u ++ x :: v).Nodup :=
  List.nodup_middle.mpr (List.nodup_cons.mpr ⟨hx, h⟩)

theorem freshId_not_mem (d : Doc) (hids : DocIdsOk d) : d.freshId ∉ d.nodeIds := by
  intro h
  exact absurd (hids.bound _ h) (by omega)

/-- Id discipline is preserved by `split_text_node`. -/
theorem splitTextNode_idsOk (d : Doc) (pre : List Block) (b : Block) (post : List Block)
    (kpre : List Leaf) (l : Leaf) (kpost : List Leaf) (k : Nat)
    (hids : DocIdsOk d)
    (hd : d.blocks = pre ++ b :: post) (hk : b.kids = kpre ++ l :: kpost) :
    DocIdsOk ⟨pre ++ { b with kids := kpre ++ leftHalf l k :: rightHalf d l k :: kpost } :: post,
      d.freshId + 1⟩ := by
  set X := pre.flatMap Block.nodeIdsB ++ (kpre.map Leaf.lid ++ [l.lid]) with hX
  set Y := (kpost.map Leaf.lid ++ [b.bid]) ++ post.flatMap Block.nodeIdsB with hY
  have he1 : (⟨pre ++ { b with kids := kpre ++ leftHalf l k :: rightHalf d l k :: kpost } :: post,
      d.freshId + 1⟩ : Doc).nodeIds = X ++ d.freshId :: Y := by
    simp [Doc.nodeIds, Block.nodeIdsB, hX, hY, leftHalf, rightHalf, List.flatMap_append,
      List.flatMap_cons, List.map_append, List.append_assoc]
  have he2 : d.nodeIds = X ++ Y := by
    simp [Doc.nodeIds, hd, hk, Block.nodeIdsB, hX, hY, List.flatMap_append,
      List.flatMap_cons, List.map_append, List.append_assoc]
  constructor
  · rw [he1]
    exact nodup_insert_middle X Y d.freshId (he2 ▸ hids.nodup)
      (he2 ▸ freshId_not_mem d hids)
  · intro i hi
    rw [he1] at hi
    show i < d.freshId + 1
    rcases List.mem_append.mp hi with h1 | h1
    · have : i ∈ d.nodeIds := he2 ▸ List.mem_append_left _ h1
      have := hids.bound i this
      omega
    · rcases List.mem_cons.mp h1 with rfl | h2
      · omega
      · have : i ∈ d.nodeIds := he2 ▸ List.mem_append_right _ h2
        have := hids.bound i this
        omega

/-- The merged leaf: the left node keeps its identity and attributes, with the
right node's text appended. -/
def mergedLeaf (la lb : Leaf) : Leaf :=
  ⟨la.lid, la.ltext ++ lb.ltext, la.lattrs⟩

theorem kidsFilter_id (ks : List Leaf) (id : Nat) (h : ∀ y ∈ ks, y.lid ≠ id) :
    ks.filter (fun l => decide (l.lid ≠ id)) = ks :=
  List.filter_eq_self.mpr (fun y hy => by simp [h y hy])

theorem kidsMap_id (ks : List Leaf) (id : Nat) (f : Leaf → Leaf)
    (h : ∀ y ∈ ks, y.lid ≠ id) :
    ks.map (fun l => if l.lid = id then f l else l) = ks := by
  induction ks with
  | nil => rfl
  | cons y rest ih =>
    rw [List.map_cons, if_neg (h y (List.mem_cons_self y rest)),
      ih (fun z hz => h z (List.mem_cons_of_mem y hz))]

theorem removeLeaf_map_id (bs : List Block) (id : Nat)
    (h : ∀ b2 ∈ bs, ∀ y ∈ b2.kids, y.lid ≠ id) :
    bs.map (fun b => { b with kids := b.kids.filter (fun l => decide (l.lid ≠ id)) }) = bs := by
  induction bs with
  | nil => rfl
  | cons b rest ih =>
    rw [List.map_cons, kidsFilter_id b.kids id (h b (List.mem_cons_self b rest)),
      ih (fun b2 h2 => h b2 (List.mem_cons_of_mem b h2))]

theorem updateLeaf_map_id (bs : List Block) (id : Nat) (f : Leaf → Leaf)
    (h : ∀ b2 ∈ bs, ∀ y ∈ b2.kids, y.lid ≠ id) :
    bs.map (fun b => { b with kids := b.kids.map (fun l => if l.lid = id then f l else l) })
      = bs := by
  induction bs with
  | nil => rfl
  | cons b rest ih =>
    rw [List.map_cons, kidsMap_id b.kids id f (h b (List.mem_cons_self b rest)),
      ih (fun b2 h2 => h b2 (List.mem_cons_of_mem b h2))]

/-- Computation of `merge_text_node` on two adjacent sibling leaves of a
well-formed document with equal attribute maps. -/
theorem mergeTextNode_spec (d : Doc) (pre : List Block) (b : Block) (post : List Block)
    (kpre : List Leaf) (la lb : Leaf) (kpost : List Leaf)
    (hnd : d.nodeIds.Nodup)
    (hd : d.blocks = pre ++ b :: post) (hk : b.kids = kpre ++ la :: lb :: kpost)
    (haeq : Attrs.aeq la.lattrs lb.lattrs = true) :
    mergeTextNode d la.lid lb.lid =
      .ok ⟨pre ++ { b with kids := kpre ++ mergedLeaf la lb :: kpost } :: post, d.freshId⟩ := by
  have hka : b.kids = kpre ++ la :: (lb :: kpost) := hk
  have hkb : b.kids = (kpre ++ [la]) ++ lb :: kpost := by rw [hk]; simp
  obtain ⟨_, _, _, hfla, _⟩ := lookup_leaf d pre b post kpre la (lb :: kpost) hnd hd hka
  obtain ⟨_, _, _, hflb, _⟩ := lookup_leaf d pre b post (kpre ++ [la]) lb kpost hnd hd hkb
  obtain ⟨hrawA1, hrawA2, hrawA3, hrawA4, _⟩ :=
    leaf_sides_raw d pre b post kpre la (lb :: kpost) hnd hd hka
  obtain ⟨hrawB1, hrawB2, hrawB3, hrawB4, _⟩ :=
    leaf_sides_raw d pre b post (kpre ++ [la]) lb kpost hnd hd hkb
  rw [mergeTextNode, hfla, hflb]
  simp only [haeq, eq_self_iff_true, if_true]
  have hrm : d.removeLeaf lb.lid =
      ⟨pre ++ { b with kids := kpre ++ la :: kpost } :: post, d.freshId⟩ := by
    rw [Doc.removeLeaf]
    congr 1
    rw [hd, List.map_append, List.map_cons,
      removeLeaf_map_id pre lb.lid hrawB1, removeLeaf_map_id post lb.lid hrawB3]
    congr 2
    rw [hk, List.filter_append, List.filter_cons, List.filter_cons]
    have h1 := kidsFilter_id kpre lb.lid (fun y hy => hrawB2 y (List.mem_append_left _ hy))
    have h2 := kidsFilter_id kpost lb.lid hrawB4
    have h3 : la.lid ≠ lb.lid :=
      hrawB2 la (List.mem_append_right _ (List.mem_singleton_self la))
    simp only [decide_not] at h1 h2
    simp [h1, h2, h3]
  rw [hrm, Doc.updateLeaf]
  congr 1
  simp only [List.map_append, List.map_cons]
  rw [updateLeaf_map_id pre la.lid _ hrawA1, updateLeaf_map_id post la.lid _ hrawA3]
  rw [kidsMap_id kpre la.lid _ hrawA2,
    kidsMap_id kpost la.lid _ (fun y hy => hrawA4 y (List.mem_cons_of_mem lb hy))]
  simp [mergedLeaf]

/-- The composition checked by the split/merge round trip: `split_text_node`
at `k` followed by `merge_text_node` of the two halves it produced. -/
def splitThenMerge (d : Doc) (id k : Nat) : Except Err Doc :=
  match splitTextNode d id k with
  | .ok (d1, rid) => mergeTextNode d1 id rid
  | .error e => .error e

/-- C5: for every leaf with content of length `L` (and duplicate-free attribute
keys) sitting anywhere in a well-formed document, and every `k` with
`0 < k < L`, splitting the leaf at `k` with `split_text_node` and then merging
the two resulting adjacent siblings with `merge_text_node` yields back exactly
the original document tree: a single leaf with the original content and the
original attributes, in its original position. -/
theorem C5_split_merge_inverse (d : Doc) (pre : List Block) (b : Block)
    (post : List Block) (kpre : List Leaf) (l : Leaf) (kpost : List Leaf) (k : Nat)
    (hids : DocIdsOk d) (hw : WFAttrs l.lattrs)
    (hd : d.blocks = pre ++ b :: post) (hk : b.kids = kpre ++ l :: kpost)
    (hk0 : 0 < k) (hkl : k < l.ltext.length) :
    splitThenMerge d l.lid k = .ok ⟨d.blocks, d.freshId + 1⟩ := by
  have hsp := splitTextNode_spec d pre b post kpre l kpost k hids.nodup hd hk hk0 hkl
  rw [splitThenMerge, hsp]
  have hids1 := splitTextNode_idsOk d pre b post kpre l kpost k hids hd hk
  have haeq : Attrs.aeq (leftHalf l k).lattrs (rightHalf d l k).lattrs = true :=
    aeq_refl l.lattrs hw
  have hmg := mergeTextNode_spec
    ⟨pre ++ { b with kids := kpre ++ leftHalf l k :: rightHalf d l k :: kpost } :: post,
      d.freshId + 1⟩
    pre { b with kids := kpre ++ leftHalf l k :: rightHalf d l k :: kpost } post
    kpre (leftHalf l k) (rightHalf d l k) kpost hids1.nodup rfl rfl haeq
  have hml : mergedLeaf (leftHalf l k) (rightHalf d l k) = l := by
    simp [mergedLeaf, leftHalf, rightHalf]
  have hlid : (leftHalf l k).lid = l.lid := rfl
  have hrid : (rightHalf d l k).lid = d.freshId := rfl
  rw [hlid, hrid] at hmg
  show mergeTextNode
    ⟨pre ++ { b with kids := kpre ++ leftHalf l k :: rightHalf d l k :: kpost } :: post,
      d.freshId + 1⟩ l.lid d.freshId = .ok ⟨d.blocks, d.freshId + 1⟩
  rw [hmg, hml, ← hk, hd]

/-- Witness for C5: splitting the bold leaf "ab" at 1 and merging the halves
back restores the original one-leaf document. -/
theorem C5_split_merge_inverse_witness :
    splitThenMerge ⟨[⟨0, [], true, [⟨1, ['a', 'b'], [("bold", AttrVal.boolV true)]⟩]⟩], 2⟩ 1 1 =
      .ok ⟨[⟨0, [], true, [⟨1, ['a', 'b'], [("bold", AttrVal.boolV true)]⟩]⟩], 3⟩ :=
  C5_split_merge_inverse
    ⟨[⟨0, [], true, [⟨1, ['a', 'b'], [("bold", AttrVal.boolV true)]⟩]⟩], 2⟩
    [] ⟨0, [], true, [⟨1, ['a', 'b'], [("bold", AttrVal.boolV true)]⟩]⟩ []
    [] ⟨1, ['a', 'b'], [("bold", AttrVal.boolV true)]⟩ [] 1
    ⟨by decide, by decide⟩ (by show List.Nodup (List.map Prod.fst [("bold", AttrVal.boolV true)]); decide)
    rfl rfl (by decide) (by decide)

/-- C6: `merge_text_node` on two adjacent leaves concatenates the right node's
content onto the left node, unlinks the right node, and keeps the left node's
attributes — but only when the two attribute maps are equal.  When they are
not, `merge()`'s `assert!` fires: the call panics instead of silently losing
the right node's attributes, contradicting the documented behaviour.  The
second conjunct exhibits the panic on a concrete unequal-attribute pair. -/
theorem C6_merge_leaf_behavior :
    (∀ (d : Doc) (pre : List Block) (b : Block) (post : List Block)
       (kpre : List Leaf) (la lb : Leaf) (kpost : List Leaf),
       d.nodeIds.Nodup → d.blocks = pre ++ b :: post →
       b.kids = kpre ++ la :: lb :: kpost →
       Attrs.aeq la.lattrs lb.lattrs = true →
       mergeTextNode d la.lid lb.lid =
         .ok ⟨pre ++ { b with kids := kpre ++ mergedLeaf la lb :: kpost } :: post, d.freshId⟩) ∧
    mergeTextNode
      ⟨[⟨0, [], true, [⟨1, ['a'], []⟩, ⟨2, ['b'], [("bold", AttrVal.boolV true)]⟩]⟩], 3⟩ 1 2 =
      .error .rustPanic :=
  ⟨fun d pre b post kpre la lb kpost hnd hd hk haeq =>
    mergeTextNode_spec d pre b post kpre la lb kpost hnd hd hk haeq, by rfl⟩

/-- Witness for C6: merging two adjacent equal-attribute leaves "a" and "b"
yields the single leaf "ab" with the left node's identity and attributes. -/
theorem C6_merge_leaf_behavior_witness :
    mergeTextNode ⟨[⟨0, [], true, [⟨1, ['a'], []⟩, ⟨2, ['b'], []⟩]⟩], 3⟩ 1 2 =
      .ok ⟨[⟨0, [], true, [⟨1, ['a', 'b'], []⟩]⟩], 3⟩ :=
  C6_merge_leaf_behavior.1
    ⟨[⟨0, [], true, [⟨1, ['a'], []⟩, ⟨2, ['b'], []⟩]⟩], 3⟩
    [] ⟨0, [], true, [⟨1, ['a'], []⟩, ⟨2, ['b'], []⟩]⟩ []
    [] ⟨1, ['a'], []⟩ ⟨2, ['b'], []⟩ []
    (by decide) rfl rfl (by decide)

/-- Counterexample for C7: a cursor `Before` the first leaf of a block whose
right sibling has equal attributes.  The pivot stays in the `Before` location,
the right sibling qualifies and is merged, and the source then hits
`panic!("ERROR: This case can never happen!!")` — the call is not the claimed
merge-and-return-Ok. -/
theorem C7_counterexample :
    try3WayMergeText ⟨[⟨0, [], true, [⟨1, ['a'], []⟩, ⟨2, ['b'], []⟩]⟩], 3⟩ ⟨0, .beforeLoc 1⟩ =
      .error .rustPanic := by rfl

/-! ## Document-order machinery for the traversal proofs -/

theorem listAfter_middle {α : Type} [DecidableEq α] (u : List α) (x : α) (v : List α)
    (hx : x ∉ u) : listAfter (u ++ x :: v) x = v := by
  induction u with
  | nil => simp [listAfter]
  | cons y ys ih =>
    have hyx : ¬ y = x := fun h => hx (h ▸ List.mem_cons_self y ys)
    simp only [List.cons_append, listAfter, if_neg hyx]
    exact ih (fun h => hx (List.mem_cons_of_mem y h))

theorem listBefore_middle {α : Type} [DecidableEq α] (u : List α) (x : α) (v : List α)
    (hx : x ∉ u) : listBefore (u ++ x :: v) x = u := by
  induction u with
  | nil => simp [listBefore]
  | cons y ys ih =>
    have hyx : ¬ y = x := fun h => hx (h ▸ List.mem_cons_self y ys)
    simp only [List.cons_append, listBefore, if_neg hyx]
    show y :: listBefore (ys ++ x :: v) x = y :: ys
    rw [ih (fun h => hx (List.mem_cons_of_mem y h))]

theorem orderRefs_map_idOf (d : Doc) : d.orderRefs.map NRef.idOf = d.nodeIds := by
  rw [Doc.orderRefs, Doc.nodeIds]
  induction d.blocks with
  | nil => rfl
  | cons b bs ih =>
    rw [List.flatMap_cons, List.flatMap_cons, List.map_append, ih]
    congr 1
    rw [Block.orderRefs, Block.nodeIdsB, List.map_append, List.map_map]
    rfl

theorem orderRefs_nodup (d : Doc) (hnd : d.nodeIds.Nodup) : d.orderRefs.Nodup :=
  List.Nodup.of_map NRef.idOf (by rw [orderRefs_map_idOf]; exact hnd)

/-- Document-order decomposition at a leaf. -/
theorem orderRefs_decomp_leaf (d : Doc) (pre : List Block) (b : Block) (post : List Block)
    (kpre : List Leaf) (l : Leaf) (kpost : List Leaf)
    (hd : d.blocks = pre ++ b :: post) (hk : b.kids = kpre ++ l :: kpost) :
    d.orderRefs =
      (pre.flatMap Block.orderRefs ++ kpre.map (fun y => NRef.leafRef y.lid)) ++
        NRef.leafRef l.lid ::
          (kpost.map (fun y => NRef.leafRef y.lid) ++
            NRef.blockRef b.bid :: post.flatMap Block.orderRefs) := by
  rw [Doc.orderRefs, hd, List.flatMap_append, List.flatMap_cons, Block.orderRefs, hk]
  simp [List.append_assoc]

/-- Document-order decomposition at a block unit. -/
theorem orderRefs_decomp_block (d : Doc) (pre : List Block) (b : Block) (post : List Block)
    (hd : d.blocks = pre ++ b :: post) :
    d.orderRefs =
      (pre.flatMap Block.orderRefs ++ b.kids.map (fun y => NRef.leafRef y.lid)) ++
        NRef.blockRef b.bid :: post.flatMap Block.orderRefs := by
  rw [Doc.orderRefs, hd, List.flatMap_append, List.flatMap_cons, Block.orderRefs]
  simp [List.append_assoc]

/-- Membership, suffix and prefix of document order at a decomposed node. -/
theorem orderRefs_at (d : Doc) (U V : List NRef) (r : NRef)
    (hnd : d.nodeIds.Nodup) (hdec : d.orderRefs = U ++ r :: V) :
    r ∈ d.orderRefs ∧ listAfter d.orderRefs r = V ∧ listBefore d.orderRefs r = U := by
  have hndr := orderRefs_nodup d hnd
  rw [hdec] at hndr
  have hx : r ∉ U := by
    rw [List.nodup_middle, List.nodup_cons] at hndr
    exact fun h => hndr.1 (List.mem_append_left _ h)
  rw [hdec]
  exact ⟨by simp, listAfter_middle U r V hx, listBefore_middle U r V hx⟩

theorem find?_append_false {α : Type} (u v : List α) (p : α → Bool)
    (h : ∀ a ∈ u, p a = false) : (u ++ v).find? p = v.find? p := by
  induction u with
  | nil => rfl
  | cons y ys ih =>
    simp only [List.cons_append, List.find?_cons, h y (List.mem_cons_self y ys)]
    exact ih (fun a ha => h a (List.mem_cons_of_mem y ha))

theorem opLenOf_leaf (d : Doc) (b : Block) (l : Leaf)
    (hf : d.findLeaf l.lid = some (b, l)) :
    d.opLenOf (.leafRef l.lid) = l.ltext.length := by
  simp only [Doc.opLenOf, hf]

theorem attrsOfD_leaf (d : Doc) (b : Block) (l : Leaf)
    (hf : d.findLeaf l.lid = some (b, l)) :
    d.attrsOfD (.leafRef l.lid) = l.lattrs := by
  simp only [Doc.attrsOfD, Doc.attrsOf, hf]
  rfl

theorem opLenOf_block (d : Doc) (b : Block) (hf : d.findBlock b.bid = some b) :
    d.opLenOf (.blockRef b.bid) = 1 := by
  simp only [Doc.opLenOf, hf]

theorem nextSibling_leaf (d : Doc) (i bi ki : Nat) (b : Block)
    (hpos : d.findLeafPos i = some (bi, ki)) (hgb : d.blocks.get? bi = some b) :
    d.nextSibling (.leafRef i) =
      .ok ((b.kids.get? (ki + 1)).map (fun l => NRef.leafRef l.lid)) := by
  simp only [Doc.nextSibling, hpos, hgb]

theorem prevSibling_leaf (d : Doc) (i bi ki : Nat) (b : Block)
    (hpos : d.findLeafPos i = some (bi, ki)) (hgb : d.blocks.get? bi = some b) :
    d.prevSibling (.leafRef i) =
      .ok (if ki = 0 then none
           else (b.kids.get? (ki - 1)).map (fun l => NRef.leafRef l.lid)) := by
  simp only [Doc.prevSibling, hpos, hgb]

theorem get?_middle_succ {α : Type} (u : List α) (x y : α) (v : List α) :
    (u ++ x :: y :: v).get? (u.length + 1) = some y := by
  have h1 : u ++ x :: y :: v = (u ++ [x]) ++ y :: v := by simp
  have h2 : u.length + 1 = (u ++ [x]).length := by simp
  rw [h1, h2, get?_middle]

theorem setAfterNRU_leaf (d : Doc) (c : Cursor) (i : Nat)
    (h : d.isLinkedLeaf i = true) :
    d.setAfterNRU c i = .ok { c with startLoc := .afterLoc i } := by
  rw [Doc.setAfterNRU, if_pos h]

theorem setBeforeNRU_leaf (d : Doc) (c : Cursor) (i : Nat)
    (h : d.isLinkedLeaf i = true) :
    d.setBeforeNRU c i = .ok { c with startLoc := .beforeLoc i } := by
  rw [Doc.setBeforeNRU, if_pos h]

theorem setAtNRU_leaf (d : Doc) (c : Cursor) (l : Leaf) (b : Block) (k : Nat)
    (href : d.refOfId l.lid = some (.leafRef l.lid))
    (hf : d.findLeaf l.lid = some (b, l))
    (h0 : 0 < k) (hk : k < l.ltext.length) :
    d.setAtNRU c l.lid k = .ok { c with startLoc := .atLoc l.lid k } := by
  have hlen := opLenOf_leaf d b l hf
  simp only [Doc.setAtNRU, href, NRef.isLeafRef, hlen]
  rw [if_pos]
  simp only [Bool.and_eq_true, Bool.or_eq_true, decide_eq_true_eq]
  exact ⟨Or.inl ⟨h0, trivial⟩, Or.inl hk⟩

/-- Node ids stay duplicate-free when a block's kid list is replaced by one
whose id list is a sublist of the old one. -/
theorem nodup_replace_kids (d : Doc) (pre : List Block) (b : Block) (post : List Block)
    (ks : List Leaf) (f : Nat)
    (hnd : d.nodeIds.Nodup) (hd : d.blocks = pre ++ b :: post)
    (hsub : (ks.map Leaf.lid).Sublist (b.kids.map Leaf.lid)) :
    (⟨pre ++ { b with kids := ks } :: post, f⟩ : Doc).nodeIds.Nodup := by
  have hdec := nodeIds_decomp d pre b post hd
  have hdec2 := nodeIds_decomp ⟨pre ++ { b with kids := ks } :: post, f⟩ pre
    { b with kids := ks } post rfl
  rw [hdec] at hnd
  rw [hdec2]
  refine List.Nodup.sublist ?_ hnd
  refine List.Sublist.append (List.Sublist.refl _)
    (List.Sublist.append ?_ (List.Sublist.refl _))
  show (ks.map Leaf.lid ++ [b.bid]).Sublist (b.kids.map Leaf.lid ++ [b.bid])
  exact List.Sublist.append hsub (List.Sublist.refl _)

/-- The id sublist for the merge shape: two adjacent kids collapse into one
that keeps the left id. -/
theorem merge_kids_sublist (kpre : List Leaf) (la lb ml : Leaf) (kpost : List Leaf)
    (hml : ml.lid = la.lid) :
    ((kpre ++ ml :: kpost).map Leaf.lid).Sublist
      ((kpre ++ la :: lb :: kpost).map Leaf.lid) := by
  rw [List.map_append, List.map_append, List.map_cons, List.map_cons, List.map_cons, hml]
  exact List.Sublist.append (List.Sublist.refl _)
    (List.Sublist.cons₂ la.lid (List.Sublist.cons lb.lid (List.Sublist.refl _)))

theorem exbind_ok {ε α β : Type} (a : α) (f : α → Except ε β) :
    Bind.bind (Except.ok a : Except ε α) f = f a := rfl

theorem expure_bind {ε α β : Type} (a : α) (f : α → Except ε β) :
    Bind.bind (Pure.pure a : Except ε α) f = f a := rfl

theorem aeq_symm (x y : Attrs) (h : Attrs.aeq x y = true) : Attrs.aeq y x = true := by
  rw [Attrs.aeq] at h ⊢
  rw [Bool.and_comm]
  exact h

/-- When neither sibling of the pivot has equal attributes, the merge phase of
`try_3_way_merge_text` changes nothing and succeeds. -/
theorem mergePhase_noop (d : Doc) (c : Cursor) (mloc : MLoc) (pos : Nat) (dn : NRef)
    (next prev : Option NRef)
    (hnext : d.nextSibling dn = .ok next)
    (hprev : d.prevSibling dn = .ok prev)
    (hnq : ∀ x, next = some x → Attrs.aeq (d.attrsOfD dn) (d.attrsOfD x) = false)
    (hpq : ∀ x, prev = some x → Attrs.aeq (d.attrsOfD dn) (d.attrsOfD x) = false) :
    mergePhase d c mloc pos dn = .ok (d, c) := by
  cases next with
  | none =>
    cases prev with
    | none => simp [mergePhase, hnext, hprev, exbind_ok]
    | some x => simp [mergePhase, hnext, hprev, exbind_ok, hpq x rfl]
  | some x =>
    cases prev with
    | none => simp [mergePhase, hnext, hprev, exbind_ok, hnq x rfl]
    | some y => simp [mergePhase, hnext, hprev, exbind_ok, hnq x rfl, hpq y rfl]

/-- The double-merge computation of `try_3_way_merge_text` on an `After`
cursor whose pivot has equal-attribute siblings on both sides: the right
sibling is merged into the pivot first, then the pivot is merged into the
left sibling, and the cursor lands `At` the surviving left node. -/
theorem try3_right_then_left (d : Doc) (pre : List Block) (b : Block) (post : List Block)
    (kpre : List Leaf) (p dn n : Leaf) (kpost : List Leaf) (ri : Nat)
    (hnd : d.nodeIds.Nodup)
    (hd : d.blocks = pre ++ b :: post)
    (hk : b.kids = kpre ++ p :: dn :: n :: kpost)
    (haeqR : Attrs.aeq dn.lattrs n.lattrs = true)
    (haeqL : Attrs.aeq dn.lattrs p.lattrs = true)
    (hdnlen : 0 < dn.ltext.length) (hnlen : 0 < n.ltext.length) :
    try3WayMergeText d ⟨ri, .afterLoc dn.lid⟩ =
      .ok (⟨pre ++ { b with kids := kpre ++ mergedLeaf p (mergedLeaf dn n) :: kpost } :: post,
              d.freshId⟩,
           ⟨ri, .atLoc p.lid (p.ltext.length + dn.ltext.length)⟩) := by
  have hkdn : b.kids = (kpre ++ [p]) ++ dn :: n :: kpost := by rw [hk]; simp
  have hkn : b.kids = (kpre ++ [p, dn]) ++ n :: kpost := by rw [hk]; simp
  obtain ⟨hposDn, hgb, hgdn, hfDn, hrefDn⟩ :=
    lookup_leaf d pre b post (kpre ++ [p]) dn (n :: kpost) hnd hd hkdn
  obtain ⟨hposN, hgbN, hgn, hfN, hrefN⟩ :=
    lookup_leaf d pre b post (kpre ++ [p, dn]) n kpost hnd hd hkn
  have hrefE : d.refOfIdE dn.lid = .ok (.leafRef dn.lid) := by
    rw [Doc.refOfIdE, hrefDn]
  have hlenDn : d.opLenOf (.leafRef dn.lid) = dn.ltext.length := opLenOf_leaf d b dn hfDn
  have hnext : d.nextSibling (.leafRef dn.lid) = .ok (some (.leafRef n.lid)) := by
    rw [nextSibling_leaf d dn.lid pre.length (kpre ++ [p]).length b hposDn hgb, hkdn,
      get?_middle_succ]
    rfl
  have hattrDn : d.attrsOfD (.leafRef dn.lid) = dn.lattrs := attrsOfD_leaf d b dn hfDn
  have hattrN : d.attrsOfD (.leafRef n.lid) = n.lattrs := attrsOfD_leaf d b n hfN
  have hmg1 := mergeTextNode_spec d pre b post (kpre ++ [p]) dn n kpost hnd hd hkdn haeqR
  have hnd1 : (⟨pre ++ { b with kids := (kpre ++ [p]) ++ mergedLeaf dn n :: kpost } :: post,
      d.freshId⟩ : Doc).nodeIds.Nodup :=
    nodup_replace_kids d pre b post ((kpre ++ [p]) ++ mergedLeaf dn n :: kpost) d.freshId hnd hd
      (by rw [hkdn]; exact merge_kids_sublist (kpre ++ [p]) dn n (mergedLeaf dn n) kpost rfl)
  have hkb1b : ({ b with kids := (kpre ++ [p]) ++ mergedLeaf dn n :: kpost } : Block).kids =
      kpre ++ p :: mergedLeaf dn n :: kpost := by simp
  obtain ⟨hposMl, hgb1, hgml, hfMl, hrefMl⟩ :=
    lookup_leaf ⟨pre ++ { b with kids := (kpre ++ [p]) ++ mergedLeaf dn n :: kpost } :: post,
        d.freshId⟩
      pre { b with kids := (kpre ++ [p]) ++ mergedLeaf dn n :: kpost } post
      (kpre ++ [p]) (mergedLeaf dn n) kpost hnd1 rfl rfl
  obtain ⟨hposP1, hgbP1, hgp1, hfP1, hrefP1⟩ :=
    lookup_leaf ⟨pre ++ { b with kids := (kpre ++ [p]) ++ mergedLeaf dn n :: kpost } :: post,
        d.freshId⟩
      pre { b with kids := (kpre ++ [p]) ++ mergedLeaf dn n :: kpost } post
      kpre p (mergedLeaf dn n :: kpost) hnd1 rfl hkb1b
  have hsetAt1 : (⟨pre ++ { b with kids := (kpre ++ [p]) ++ mergedLeaf dn n :: kpost } :: post,
      d.freshId⟩ : Doc).setAtNRU ⟨ri, .afterLoc dn.lid⟩ dn.lid dn.ltext.length =
      .ok ⟨ri, .atLoc dn.lid dn.ltext.length⟩ := by
    refine setAtNRU_leaf _ _ (mergedLeaf dn n) _ dn.ltext.length hrefMl hfMl hdnlen ?_
    show dn.ltext.length < (mergedLeaf dn n).ltext.length
    simp only [mergedLeaf, List.length_append]
    omega
  have hprev1 : (⟨pre ++ { b with kids := (kpre ++ [p]) ++ mergedLeaf dn n :: kpost } :: post,
      d.freshId⟩ : Doc).prevSibling (.leafRef dn.lid) = .ok (some (.leafRef p.lid)) := by
    rw [prevSibling_leaf _ dn.lid pre.length (kpre ++ [p]).length _ hposMl hgb1]
    have hki : (kpre ++ [p]).length = kpre.length + 1 := by simp
    rw [hki, if_neg (by omega)]
    have h1 : kpre.length + 1 - 1 = kpre.length := by omega
    rw [h1, hkb1b, get?_middle]
    rfl
  have hattrMl : (⟨pre ++ { b with kids := (kpre ++ [p]) ++ mergedLeaf dn n :: kpost } :: post,
      d.freshId⟩ : Doc).attrsOfD (.leafRef dn.lid) = dn.lattrs :=
    attrsOfD_leaf _ _ (mergedLeaf dn n) hfMl
  have hattrP1 : (⟨pre ++ { b with kids := (kpre ++ [p]) ++ mergedLeaf dn n :: kpost } :: post,
      d.freshId⟩ : Doc).attrsOfD (.leafRef p.lid) = p.lattrs :=
    attrsOfD_leaf _ _ p hfP1
  have hplen1 : (⟨pre ++ { b with kids := (kpre ++ [p]) ++ mergedLeaf dn n :: kpost } :: post,
      d.freshId⟩ : Doc).opLenOf (.leafRef p.lid) = p.ltext.length :=
    opLenOf_leaf _ _ p hfP1
  have hmg2 : mergeTextNode
      ⟨pre ++ { b with kids := (kpre ++ [p]) ++ mergedLeaf dn n :: kpost } :: post, d.freshId⟩
      p.lid dn.lid =
      .ok ⟨pre ++ { { b with kids := (kpre ++ [p]) ++ mergedLeaf dn n :: kpost } with
              kids := kpre ++ mergedLeaf p (mergedLeaf dn n) :: kpost } :: post, d.freshId⟩ :=
    mergeTextNode_spec _ pre _ post kpre p (mergedLeaf dn n) kpost hnd1 rfl hkb1b
      (aeq_symm _ _ haeqL)
  have hnd2 : (⟨pre ++ { { b with kids := (kpre ++ [p]) ++ mergedLeaf dn n :: kpost } with
      kids := kpre ++ mergedLeaf p (mergedLeaf dn n) :: kpost } :: post,
      d.freshId⟩ : Doc).nodeIds.Nodup :=
    nodup_replace_kids
      ⟨pre ++ { b with kids := (kpre ++ [p]) ++ mergedLeaf dn n :: kpost } :: post, d.freshId⟩
      pre _ post (kpre ++ mergedLeaf p (mergedLeaf dn n) :: kpost) d.freshId hnd1 rfl
      (by rw [hkb1b]
          exact merge_kids_sublist kpre p (mergedLeaf dn n) (mergedLeaf p (mergedLeaf dn n)) kpost rfl)
  obtain ⟨hposMl2, hgb2, hgml2, hfMl2, hrefMl2⟩ :=
    lookup_leaf
      ⟨pre ++ { { b with kids := (kpre ++ [p]) ++ mergedLeaf dn n :: kpost } with
          kids := kpre ++ mergedLeaf p (mergedLeaf dn n) :: kpost } :: post, d.freshId⟩
      pre _ post kpre (mergedLeaf p (mergedLeaf dn n)) kpost hnd2 rfl rfl
  have hsetAt2 : (⟨pre ++ { { b with kids := (kpre ++ [p]) ++ mergedLeaf dn n :: kpost } with
      kids := kpre ++ mergedLeaf p (mergedLeaf dn n) :: kpost } :: post,
      d.freshId⟩ : Doc).setAtNRU ⟨ri, .atLoc dn.lid dn.ltext.length⟩ p.lid
      (p.ltext.length + dn.ltext.length) =
      .ok ⟨ri, .atLoc p.lid (p.ltext.length + dn.ltext.length)⟩ := by
    refine setAtNRU_leaf _ _ (mergedLeaf p (mergedLeaf dn n)) _ _ hrefMl2 hfMl2 (by omega) ?_
    show p.ltext.length + dn.ltext.length < (mergedLeaf p (mergedLeaf dn n)).ltext.length
    simp only [mergedLeaf, List.length_append]
    omega
  simp only [try3WayMergeText, mergePhase, hrefE, exbind_ok, expure_bind, hlenDn, hnext,
    NRef.idOf, hattrDn, hattrN, haeqR, hmg1, hsetAt1, hprev1, hattrMl, hattrP1, haeqL, hplen1,
    hmg2, hsetAt2, eq_self_iff_true, if_true]

/-- C7 (amended): the three-way merge checks the right sibling first and
merges it into the pivot, then checks the left sibling and merges the pivot
into it — the first conjunct computes the full right-then-left double merge
for an `After` pivot cursor — and when neither sibling has equal attributes
the merge phase changes no node and returns Ok, a no-op, not an error (second
conjunct).  The original universal claim is refuted by `C7_counterexample`:
with the cursor `Before` a block's first leaf whose right sibling qualifies,
the source panics instead. -/
theorem C7_three_way_merge :
    (∀ (d : Doc) (pre : List Block) (b : Block) (post : List Block)
       (kpre : List Leaf) (p dn n : Leaf) (kpost : List Leaf) (ri : Nat),
       d.nodeIds.Nodup → d.blocks = pre ++ b :: post →
       b.kids = kpre ++ p :: dn :: n :: kpost →
       Attrs.aeq dn.lattrs n.lattrs = true → Attrs.aeq dn.lattrs p.lattrs = true →
       0 < dn.ltext.length → 0 < n.ltext.length →
       try3WayMergeText d ⟨ri, .afterLoc dn.lid⟩ =
         .ok (⟨pre ++ { b with kids := kpre ++ mergedLeaf p (mergedLeaf dn n) :: kpost } :: post,
                 d.freshId⟩,
              ⟨ri, .atLoc p.lid (p.ltext.length + dn.ltext.length)⟩)) ∧
    (∀ (d : Doc) (c : Cursor) (mloc : MLoc) (pos : Nat) (dn : NRef)
       (next prev : Option NRef),
       d.nextSibling dn = .ok next → d.prevSibling dn = .ok prev →
       (∀ x, next = some x → Attrs.aeq (d.attrsOfD dn) (d.attrsOfD x) = false) →
       (∀ x, prev = some x → Attrs.aeq (d.attrsOfD dn) (d.attrsOfD x) = false) →
       mergePhase d c mloc pos dn = .ok (d, c)) :=
  ⟨fun d pre b post kpre p dn n kpost ri hnd hd hk hr hl h1 h2 =>
     try3_right_then_left d pre b post kpre p dn n kpost ri hnd hd hk hr hl h1 h2,
   fun d c mloc pos dn next prev hnext hprev hnq hpq =>
     mergePhase_noop d c mloc pos dn next prev hnext hprev hnq hpq⟩

/-- Witness for C7: merging "a" / "b" / "c" around an `After` pivot produces
the single leaf "abc"; with a differently-attributed pivot, nothing merges
and the phase is a no-op. -/
theorem C7_three_way_merge_witness :
    try3WayMergeText ⟨[⟨0, [], true, [⟨1, ['a'], []⟩, ⟨2, ['b'], []⟩, ⟨3, ['c'], []⟩]⟩], 4⟩
        ⟨1, .afterLoc 2⟩ =
      .ok (⟨[⟨0, [], true, [⟨1, ['a', 'b', 'c'], []⟩]⟩], 4⟩, ⟨1, .atLoc 1 2⟩) ∧
    mergePhase ⟨[⟨0, [], true,
        [⟨1, ['a'], []⟩, ⟨2, ['b'], [("bold", AttrVal.boolV true)]⟩, ⟨3, ['c'], []⟩]⟩], 4⟩
      ⟨0, .afterLoc 2⟩ .afterM 1 (.leafRef 2) =
      .ok (⟨[⟨0, [], true,
        [⟨1, ['a'], []⟩, ⟨2, ['b'], [("bold", AttrVal.boolV true)]⟩, ⟨3, ['c'], []⟩]⟩], 4⟩,
        ⟨0, .afterLoc 2⟩) :=
  ⟨C7_three_way_merge.1 ⟨[⟨0, [], true, [⟨1, ['a'], []⟩, ⟨2, ['b'], []⟩, ⟨3, ['c'], []⟩]⟩], 4⟩
     [] ⟨0, [], true, [⟨1, ['a'], []⟩, ⟨2, ['b'], []⟩, ⟨3, ['c'], []⟩]⟩ []
     [] ⟨1, ['a'], []⟩ ⟨2, ['b'], []⟩ ⟨3, ['c'], []⟩ [] 1
     (by decide) rfl rfl (by decide) (by decide) (by decide) (by decide),
   C7_three_way_merge.2
     ⟨[⟨0, [], true,
        [⟨1, ['a'], []⟩, ⟨2, ['b'], [("bold", AttrVal.boolV true)]⟩, ⟨3, ['c'], []⟩]⟩], 4⟩
     ⟨0, .afterLoc 2⟩ .afterM 1 (.leafRef 2) (some (.leafRef 3)) (some (.leafRef 1))
     rfl rfl (fun x hx => by cases hx; decide) (fun x hx => by cases hx; decide)⟩

theorem blocksFilter_id (bs : List Block) (id : Nat) (h : ∀ x ∈ bs, x.bid ≠ id) :
    bs.filter (fun b => decide (b.bid ≠ id)) = bs :=
  List.filter_eq_self.mpr (fun y hy => by simp [h y hy])

theorem blocksMap_id (bs : List Block) (id : Nat) (f : Block → Block)
    (h : ∀ x ∈ bs, x.bid ≠ id) :
    bs.map (fun b => if b.bid = id then f b else b) = bs := by
  induction bs with
  | nil => rfl
  | cons y ys ih =>
    rw [List.map_cons, if_neg (h y (List.mem_cons_self y ys)),
      ih (fun z hz => h z (List.mem_cons_of_mem y hz))]

/-- Computation of `delete_document_node` on the line-terminator unit of a
non-empty block followed by a non-empty block: the children move, in order, to
the front of the following block, which keeps its own attributes, and the
former block disappears. -/
theorem deleteDocumentNode_moves_children (d : Doc) (pre : List Block) (b nb : Block)
    (post : List Block)
    (hnd : d.nodeIds.Nodup) (hd : d.blocks = pre ++ b :: nb :: post)
    (hbk : b.kids ≠ []) (hnbk : nb.kids ≠ []) :
    deleteDocumentNode d (.blockRef b.bid) =
      .ok ⟨pre ++ { nb with kids := b.kids ++ nb.kids } :: post, d.freshId⟩ := by
  have hd2 : d.blocks = (pre ++ [b]) ++ nb :: post := by rw [hd]; simp
  obtain ⟨hib, hfB, hgbB, hnoleafB, hrefB⟩ := lookup_block d pre b (nb :: post) hnd hd
  obtain ⟨hinb, hfNb, hgbNb, hnoleafNb, hrefNb⟩ := lookup_block d (pre ++ [b]) nb post hnd hd2
  obtain ⟨hbs1, hbs2, hbs3⟩ := block_sides d pre b (nb :: post) hnd hd
  obtain ⟨hns1, hns2, hns3⟩ := block_sides d (pre ++ [b]) nb post hnd hd2
  have hdec := orderRefs_decomp_block d pre b (nb :: post) hd
  obtain ⟨hmem, hafter, hbefore⟩ := orderRefs_at d _ _ (.blockRef b.bid) hnd hdec
  have hnbt : d.nextBlockT (.blockRef b.bid) = .ok (some (.blockRef nb.bid)) := by
    rw [Doc.nextBlockT, if_pos hmem, hafter]
    have h1 : (nb :: post).flatMap Block.orderRefs =
        nb.kids.map (fun y => NRef.leafRef y.lid) ++
          (NRef.blockRef nb.bid :: post.flatMap Block.orderRefs) := by
      rw [List.flatMap_cons, Block.orderRefs]
      simp [List.append_assoc]
    rw [h1, find?_append_false _ _ _ ?hleaf]
    case hleaf =>
      intro a ha
      obtain ⟨y, _, rfl⟩ := List.mem_map.mp ha
      rfl
    rw [List.find?_cons]
    have hp : (!(NRef.blockRef nb.bid).isLeafRef &&
        decide (0 < d.opLenOf (NRef.blockRef nb.bid))) = true := by
      simp [NRef.isLeafRef, opLenOf_block d nb hfNb]
    rw [hp]
  have hlen0 : (b.kids.length = 0) = False :=
    eq_false (fun h => hbk (List.length_eq_zero.mp h))
  have hie : nb.kids.isEmpty = false := by
    cases h : nb.kids with
    | nil => exact absurd h hnbk
    | cons x xs => rfl
  have hrm : d.removeBlock b.bid = ⟨pre ++ nb :: post, d.freshId⟩ := by
    rw [Doc.removeBlock]
    congr 1
    rw [hd, List.filter_append, List.filter_cons]
    have hself : (decide (b.bid ≠ b.bid)) = false := by simp
    rw [hself, blocksFilter_id pre b.bid hbs1, blocksFilter_id (nb :: post) b.bid hbs2]
    simp
  have hup : (⟨pre ++ nb :: post, d.freshId⟩ : Doc).updateBlock nb.bid
      (fun pb0 => { pb0 with kids := b.kids ++ pb0.kids }) =
      ⟨pre ++ { nb with kids := b.kids ++ nb.kids } :: post, d.freshId⟩ := by
    rw [Doc.updateBlock]
    congr 1
    show (pre ++ nb :: post).map _ = _
    rw [List.map_append, List.map_cons, if_pos rfl,
      blocksMap_id pre nb.bid _ (fun z hz => hns1 z (List.mem_append_left _ hz)),
      blocksMap_id post nb.bid _ hns2]
  simp only [deleteDocumentNode, hnbt, exbind_ok, expure_bind, NRef.isLeafRef, NRef.idOf,
    hfB, hfNb, hlen0, hie, Bool.false_eq_true, if_false, hrm, hup]

/-- C2: deleting the line-terminator unit of a non-empty block moves all of
its children, in their original order, to the front of the following block,
which keeps its own format and attributes, and removes the now-empty former
block (first conjunct, `delete_document_node` in general); in particular a
complete `delete` of the break between the plain line "abc" and the centered
line "def" yields the single line "abcdef" carrying the second line's
attributes (second conjunct). -/
theorem C2_delete_block_merges_lines :
    (∀ (d : Doc) (pre : List Block) (b nb : Block) (post : List Block),
       d.nodeIds.Nodup → d.blocks = pre ++ b :: nb :: post →
       b.kids ≠ [] → nb.kids ≠ [] →
       deleteDocumentNode d (.blockRef b.bid) =
         .ok ⟨pre ++ { nb with kids := b.kids ++ nb.kids } :: post, d.freshId⟩) ∧
    opDelete ⟨[⟨0, [], false, [⟨1, ['a', 'b', 'c'], []⟩]⟩,
               ⟨2, [("align", AttrVal.strV "center")], false, [⟨3, ['d', 'e', 'f'], []⟩]⟩], 4⟩
      ⟨3, .afterLoc 1⟩ 1 =
      .ok (⟨[⟨2, [("align", AttrVal.strV "center")], false,
              [⟨1, ['a', 'b', 'c', 'd', 'e', 'f'], []⟩]⟩], 4⟩,
           ⟨3, .atLoc 1 3⟩) :=
  ⟨fun d pre b nb post hnd hd hbk hnbk =>
     deleteDocumentNode_moves_children d pre b nb post hnd hd hbk hnbk, by rfl⟩

/-- Witness for C2: relocating the single child "x" of a deleted block to the
front of the following block, which keeps its own attributes. -/
theorem C2_delete_block_merges_lines_witness :
    deleteDocumentNode
      ⟨[⟨0, [], false, [⟨1, ['x'], []⟩]⟩,
        ⟨2, [("k", AttrVal.strV "v")], false, [⟨3, ['y'], []⟩]⟩], 4⟩ (.blockRef 0) =
      .ok ⟨[⟨2, [("k", AttrVal.strV "v")], false, [⟨1, ['x'], []⟩, ⟨3, ['y'], []⟩]⟩], 4⟩ :=
  C2_delete_block_merges_lines.1
    ⟨[⟨0, [], false, [⟨1, ['x'], []⟩]⟩,
      ⟨2, [("k", AttrVal.strV "v")], false, [⟨3, ['y'], []⟩]⟩], 4⟩
    [] ⟨0, [], false, [⟨1, ['x'], []⟩]⟩ ⟨2, [("k", AttrVal.strV "v")], false, [⟨3, ['y'], []⟩]⟩ []
    (by decide) rfl (by decide) (by decide)

/-- The delete loop on a document reduced to one empty block: any remaining
positive count hits the end of the document, and deleting the final block unit
is the typed `DeletingLastBlock` error. -/
theorem deleteLoop_last_block (c : Cursor) (bid : Nat) (ba : Attrs) (soft : Bool)
    (fid : Nat) (del fuel : Nat) (hdel : 0 < del) (hfuel : 0 < fuel) :
    deleteLoop ⟨[⟨bid, ba, soft, []⟩], fid⟩ c (.blockRef bid) del fuel =
      .error .deletingLastBlock := by
  cases fuel with
  | zero => exact absurd hfuel (by omega)
  | succ fuel =>
    have hd0 : (del = 0) = False := eq_false (by omega)
    have hfb : (⟨[⟨bid, ba, soft, []⟩], fid⟩ : Doc).findBlock bid = some ⟨bid, ba, soft, []⟩ := by
      simp [Doc.findBlock]
    have hol : (⟨[⟨bid, ba, soft, []⟩], fid⟩ : Doc).opLenOf (.blockRef bid) = 1 :=
      opLenOf_block _ ⟨bid, ba, soft, []⟩ hfb
    have hmem : (NRef.blockRef bid) ∈ (⟨[⟨bid, ba, soft, []⟩], fid⟩ : Doc).orderRefs := by
      simp [Doc.orderRefs, Block.orderRefs]
    have hnnz : (⟨[⟨bid, ba, soft, []⟩], fid⟩ : Doc).nextNodeNonZero (.blockRef bid) =
        .ok none := by
      rw [Doc.nextNodeNonZero, if_pos hmem]
      simp [Doc.orderRefs, Block.orderRefs, listAfter]
    have hprevn : (⟨[⟨bid, ba, soft, []⟩], fid⟩ : Doc).prevNode (.blockRef bid) = .ok none := by
      rw [Doc.prevNode, if_pos hmem]
      simp [Doc.orderRefs, Block.orderRefs, listBefore]
    have hnbt : (⟨[⟨bid, ba, soft, []⟩], fid⟩ : Doc).nextBlockT (.blockRef bid) = .ok none := by
      rw [Doc.nextBlockT, if_pos hmem]
      simp [Doc.orderRefs, Block.orderRefs, listAfter]
    have hfl : findLeftNodeAndSetCursor ⟨[⟨bid, ba, soft, []⟩], fid⟩ c (.blockRef bid) =
        .ok (false, c) := by
      rw [findLeftNodeAndSetCursor, hprevn]
      rfl
    have hddn : deleteDocumentNode ⟨[⟨bid, ba, soft, []⟩], fid⟩ (.blockRef bid) =
        .error .deletingLastBlock := by
      rw [deleteDocumentNode, hnbt]
      rfl
    by_cases hc : del > 1
    · have hgt : (del > 1) = True := eq_true hc
      simp only [deleteLoop, hd0, hol, hgt, hnnz, hfl, hddn, exbind_ok, expure_bind,
        if_false, if_true]
      rfl
    · have hdeq : del = 1 := by omega
      subst hdeq
      simp only [deleteLoop, hd0, hol, hnnz, hfl, hddn, exbind_ok, expure_bind, if_false]
      rfl

theorem exbind_err {ε α β : Type} (e : ε) (f : α → Except ε β) :
    Bind.bind (Except.error e : Except ε α) f = Except.error e := rfl

/-- Deleting from the document's only remaining (empty) block is the typed
`DeletingLastBlock` error, for any positive count. -/
theorem opDelete_only_block (bid : Nat) (ba : Attrs) (soft : Bool) (fid ri n : Nat)
    (hn : 0 < n) :
    opDelete ⟨[⟨bid, ba, soft, []⟩], fid⟩ ⟨ri, .atLoc bid 0⟩ n =
      .error .deletingLastBlock := by
  have hflp : (⟨[⟨bid, ba, soft, []⟩], fid⟩ : Doc).findLeafPos bid = none := by
    simp [Doc.findLeafPos, findLeafPosAux, Block.findKidIdx]
  have hfbi : (⟨[⟨bid, ba, soft, []⟩], fid⟩ : Doc).findBlockIdx bid = some 0 := by
    simp [Doc.findBlockIdx]
  have hrefE : (⟨[⟨bid, ba, soft, []⟩], fid⟩ : Doc).refOfIdE bid = .ok (.blockRef bid) := by
    rw [Doc.refOfIdE, Doc.refOfId, Doc.isLinkedLeaf, hflp]
    simp [Doc.isLinkedBlock, hfbi]
  have hloop := deleteLoop_last_block ⟨ri, .atLoc bid 0⟩ bid ba soft fid n (n + 2) hn (by omega)
  simp only [opDelete, hrefE, exbind_ok, expure_bind, exbind_err, NRef.isLeafRef,
    Bool.not_false, eq_self_iff_true, if_true, hloop]

/-- Deleting past the end of a one-line document consumes the leaf, then the
final block unit, and reports the typed `DeletingLastBlock` error. -/
theorem opDelete_past_end (bid lid : Nat) (ba la : Attrs) (t : List Char) (fid ri n : Nat)
    (hne : bid ≠ lid) (hgt : t.length < n) :
    opDelete ⟨[⟨bid, ba, false, [⟨lid, t, la⟩]⟩], fid⟩ ⟨ri, .beforeLoc lid⟩ n =
      .error .deletingLastBlock := by
  have h0 : (n = 0) = False := eq_false (by omega)
  have hnid : (⟨[⟨bid, ba, false, [⟨lid, t, la⟩]⟩], fid⟩ : Doc).nodeIds = [lid, bid] := by
    simp [Doc.nodeIds, Block.nodeIdsB]
  have hnd : (⟨[⟨bid, ba, false, [⟨lid, t, la⟩]⟩], fid⟩ : Doc).nodeIds.Nodup := by
    rw [hnid]
    simp [List.nodup_cons]
    exact fun h => hne h.symm
  have hlk := lookup_leaf ⟨[⟨bid, ba, false, [⟨lid, t, la⟩]⟩], fid⟩ []
    ⟨bid, ba, false, [⟨lid, t, la⟩]⟩ [] [] ⟨lid, t, la⟩ [] hnd rfl rfl
  have hfl : (⟨[⟨bid, ba, false, [⟨lid, t, la⟩]⟩], fid⟩ : Doc).findLeaf lid =
      some (⟨bid, ba, false, [⟨lid, t, la⟩]⟩, ⟨lid, t, la⟩) := hlk.2.2.2.1
  have hpos : (⟨[⟨bid, ba, false, [⟨lid, t, la⟩]⟩], fid⟩ : Doc).findLeafPos lid =
      some (0, 0) := hlk.1
  have href : (⟨[⟨bid, ba, false, [⟨lid, t, la⟩]⟩], fid⟩ : Doc).refOfId lid =
      some (.leafRef lid) := hlk.2.2.2.2
  have hrefE : (⟨[⟨bid, ba, false, [⟨lid, t, la⟩]⟩], fid⟩ : Doc).refOfIdE lid =
      .ok (.leafRef lid) := by
    simp only [Doc.refOfIdE, href]
  have hol : (⟨[⟨bid, ba, false, [⟨lid, t, la⟩]⟩], fid⟩ : Doc).opLenOf (.leafRef lid) =
      t.length := opLenOf_leaf _ _ ⟨lid, t, la⟩ hfl
  have hgtP : (n > t.length) = True := eq_true hgt
  have horder : (⟨[⟨bid, ba, false, [⟨lid, t, la⟩]⟩], fid⟩ : Doc).orderRefs =
      [.leafRef lid, .blockRef bid] := by
    simp [Doc.orderRefs, Block.orderRefs]
  have hmem : (NRef.leafRef lid) ∈ (⟨[⟨bid, ba, false, [⟨lid, t, la⟩]⟩], fid⟩ : Doc).orderRefs := by
    rw [horder]
    simp
  have hfb : (⟨[⟨bid, ba, false, [⟨lid, t, la⟩]⟩], fid⟩ : Doc).findBlock bid =
      some ⟨bid, ba, false, [⟨lid, t, la⟩]⟩ := by
    simp [Doc.findBlock]
  have holb : (⟨[⟨bid, ba, false, [⟨lid, t, la⟩]⟩], fid⟩ : Doc).opLenOf (.blockRef bid) = 1 :=
    opLenOf_block _ ⟨bid, ba, false, [⟨lid, t, la⟩]⟩ hfb
  have hla : listAfter [NRef.leafRef lid, NRef.blockRef bid] (NRef.leafRef lid) =
      [NRef.blockRef bid] := listAfter_middle [] _ _ (by simp)
  have hnnz : (⟨[⟨bid, ba, false, [⟨lid, t, la⟩]⟩], fid⟩ : Doc).nextNodeNonZero
      (.leafRef lid) = .ok (some (.blockRef bid)) := by
    rw [Doc.nextNodeNonZero, if_pos hmem, horder, hla, List.find?_cons]
    have hp : decide (0 < (⟨[⟨bid, ba, false, [⟨lid, t, la⟩]⟩], fid⟩ : Doc).opLenOf
        (NRef.blockRef bid)) = true := by
      rw [holb]
      rfl
    rw [hp]
  have hnbt : (⟨[⟨bid, ba, false, [⟨lid, t, la⟩]⟩], fid⟩ : Doc).nextBlockT
      (.leafRef lid) = .ok (some (.blockRef bid)) := by
    rw [Doc.nextBlockT, if_pos hmem, horder, hla, List.find?_cons]
    have hp : (!(NRef.blockRef bid).isLeafRef &&
        decide (0 < (⟨[⟨bid, ba, false, [⟨lid, t, la⟩]⟩], fid⟩ : Doc).opLenOf
          (NRef.blockRef bid))) = true := by
      rw [holb]
      rfl
    rw [hp]
  have hdnm : deleteNodeM ⟨[⟨bid, ba, false, [⟨lid, t, la⟩]⟩], fid⟩ (.leafRef lid) =
      .ok ⟨[⟨bid, ba, false, []⟩], fid⟩ := by
    simp only [deleteNodeM, hpos]
    simp [Doc.removeLeaf]
  have hfb1 : (⟨[⟨bid, ba, false, []⟩], fid⟩ : Doc).findBlock bid =
      some ⟨bid, ba, false, []⟩ := by
    simp [Doc.findBlock]
  have hasb : asbInsert ⟨[⟨bid, ba, false, []⟩], fid⟩ bid =
      .ok ⟨[⟨bid, ba, true, []⟩], fid⟩ := by
    simp only [asbInsert, hfb1, asbInsertB]
    simp [Doc.updateBlock]
    rfl
  have hddn : deleteDocumentNode ⟨[⟨bid, ba, false, [⟨lid, t, la⟩]⟩], fid⟩ (.leafRef lid) =
      .ok ⟨[⟨bid, ba, true, []⟩], fid⟩ := by
    simp only [deleteDocumentNode, hnbt, exbind_ok, expure_bind, NRef.isLeafRef, NRef.idOf,
      if_true, hdnm, hfb1, hasb]
    rfl
  have key : ∀ fuel : Nat, 0 < fuel →
      deleteLoop ⟨[⟨bid, ba, false, [⟨lid, t, la⟩]⟩], fid⟩ ⟨ri, .beforeLoc lid⟩
        (.leafRef lid) n (Nat.succ fuel) = .error .deletingLastBlock := by
    intro fuel hf
    have hrec := deleteLoop_last_block ⟨ri, .beforeLoc lid⟩ bid ba true fid
      (n - t.length) fuel (by omega) hf
    simp only [deleteLoop, h0, hol, hgtP, if_false, if_true, hnnz, exbind_ok, hddn, hrec]
  have hloop : deleteLoop ⟨[⟨bid, ba, false, [⟨lid, t, la⟩]⟩], fid⟩ ⟨ri, .beforeLoc lid⟩
      (.leafRef lid) n (n + 2) = .error .deletingLastBlock := key (n + 1) (by omega)
  simp only [opDelete, hrefE, exbind_ok, expure_bind, exbind_err, hloop]

/-- C3: delete reports a typed error — never an Ok result — when it would
delete the document's only remaining block (first conjunct, which is also the
no-following-block case: `delete_document_node` finds no next block and
returns `DeletingLastBlock`) or would delete past the end of the document
(second conjunct). -/
theorem C3_delete_errors :
    (∀ (bid : Nat) (ba : Attrs) (soft : Bool) (fid ri n : Nat), 0 < n →
       opDelete ⟨[⟨bid, ba, soft, []⟩], fid⟩ ⟨ri, .atLoc bid 0⟩ n =
         .error .deletingLastBlock) ∧
    (∀ (bid lid : Nat) (ba la : Attrs) (t : List Char) (fid ri n : Nat),
       bid ≠ lid → t.length < n →
       opDelete ⟨[⟨bid, ba, false, [⟨lid, t, la⟩]⟩], fid⟩ ⟨ri, .beforeLoc lid⟩ n =
         .error .deletingLastBlock) :=
  ⟨fun bid ba soft fid ri n hn => opDelete_only_block bid ba soft fid ri n hn,
   fun bid lid ba la t fid ri n hne hgt => opDelete_past_end bid lid ba la t fid ri n hne hgt⟩

/-- Witness for C3: deleting from an empty one-block document, and deleting
five characters from a two-character document, both report the typed error. -/
theorem C3_delete_errors_witness :
    opDelete ⟨[⟨0, [], true, []⟩], 1⟩ ⟨0, .atLoc 0 0⟩ 1 = .error .deletingLastBlock ∧
    opDelete ⟨[⟨0, [], false, [⟨1, ['a', 'b'], []⟩]⟩], 2⟩ ⟨0, .beforeLoc 1⟩ 5 =
      .error .deletingLastBlock :=
  ⟨C3_delete_errors.1 0 [] true 1 0 1 (by decide),
   C3_delete_errors.2 0 1 [] [] ['a', 'b'] 2 0 5 (by decide) (by decide)⟩

/-- A retain with empty attributes never touches the document. -/
theorem opRetain_empty_frame (d : Doc) (c : Cursor) (n : Nat) (reg : Registry)
    (p : Doc × Cursor) (hok : opRetain d c n [] reg = .ok p) : p.1 = d := by
  simp only [opRetain, Attrs.isEmptyA, List.isEmpty, eq_self_iff_true, if_true] at hok
  cases hrl : retainLength d { c with retainIdx := c.retainIdx + n } n with
  | error e =>
    rw [hrl, exbind_err] at hok
    exact Except.noConfusion hok
  | ok c1 =>
    rw [hrl, exbind_ok] at hok
    cases hok
    rfl

/-- A pure retain that stays strictly inside the leaf before the cursor lands
`At` that leaf at exactly the retained index, with the cached retain index
advanced by the count. -/
theorem retain_before_within (d : Doc) (pre : List Block) (b : Block) (post : List Block)
    (kpre : List Leaf) (l : Leaf) (kpost : List Leaf) (ri k : Nat) (reg : Registry)
    (hnd : d.nodeIds.Nodup) (hd : d.blocks = pre ++ b :: post)
    (hk : b.kids = kpre ++ l :: kpost)
    (h0 : 0 < k) (hkl : k < l.ltext.length) :
    opRetain d ⟨ri, .beforeLoc l.lid⟩ k [] reg = .ok (d, ⟨ri + k, .atLoc l.lid k⟩) := by
  obtain ⟨hpos, hgb, hgl, hfl, href⟩ := lookup_leaf d pre b post kpre l kpost hnd hd hk
  have hrefE : d.refOfIdE l.lid = .ok (.leafRef l.lid) := by
    simp only [Doc.refOfIdE, href]
  have hol : d.opLenOf (.leafRef l.lid) = l.ltext.length := opLenOf_leaf d b l hfl
  have hk0 : (k = 0) = False := eq_false (by omega)
  have hge : (k ≥ l.ltext.length) = False := eq_false (by omega)
  have hset : d.setAtNRU ⟨ri + k, .beforeLoc l.lid⟩ l.lid k =
      .ok ⟨ri + k, .atLoc l.lid k⟩ :=
    setAtNRU_leaf d ⟨ri + k, .beforeLoc l.lid⟩ l b k href hfl h0 hkl
  have hloop : retainLengthLoop d ⟨ri + k, .beforeLoc l.lid⟩ (.leafRef l.lid) k
      (Nat.succ (k + 1)) = .ok ⟨ri + k, .atLoc l.lid k⟩ := by
    simp only [retainLengthLoop, hk0, hol, hge, if_false, NRef.idOf, hset]
  simp only [opRetain, Attrs.isEmptyA, List.isEmpty, eq_self_iff_true, if_true,
    retainLength, hrefE, exbind_ok, hloop]

/-- A pure retain of exactly the leaf's length lands `Before` the following
leaf; the cached retain index is the recomputed walk, which equals the
starting node's walk plus the count. -/
theorem retain_before_exact_next (d : Doc) (pre : List Block) (b : Block) (post : List Block)
    (kpre : List Leaf) (l l2 : Leaf) (kpost : List Leaf) (ri : Nat) (reg : Registry)
    (hnd : d.nodeIds.Nodup) (hd : d.blocks = pre ++ b :: post)
    (hk : b.kids = kpre ++ l :: l2 :: kpost)
    (hl : 0 < l.ltext.length) (hl2 : 0 < l2.ltext.length) :
    opRetain d ⟨ri, .beforeLoc l.lid⟩ l.ltext.length [] reg =
      .ok (d, ⟨d.prefixLen (.leafRef l2.lid), .beforeLoc l2.lid⟩) ∧
    d.prefixLen (.leafRef l2.lid) = d.prefixLen (.leafRef l.lid) + l.ltext.length := by
  have hk1 : b.kids = kpre ++ l :: (l2 :: kpost) := hk
  have hk2 : b.kids = (kpre ++ [l]) ++ l2 :: kpost := by rw [hk]; simp
  obtain ⟨hpos, hgb, hgl, hfl, href⟩ := lookup_leaf d pre b post kpre l (l2 :: kpost) hnd hd hk1
  obtain ⟨hpos2, hgb2, hgl2, hfl2, href2⟩ :=
    lookup_leaf d pre b post (kpre ++ [l]) l2 kpost hnd hd hk2
  have hrefE : d.refOfIdE l.lid = .ok (.leafRef l.lid) := by
    simp only [Doc.refOfIdE, href]
  have hrefE2 : d.refOfIdE l2.lid = .ok (.leafRef l2.lid) := by
    simp only [Doc.refOfIdE, href2]
  have hol : d.opLenOf (.leafRef l.lid) = l.ltext.length := opLenOf_leaf d b l hfl
  have hol2 : d.opLenOf (.leafRef l2.lid) = l2.ltext.length := opLenOf_leaf d b l2 hfl2
  have hk0 : (l.ltext.length = 0) = False := eq_false (by omega)
  have hdec := orderRefs_decomp_leaf d pre b post kpre l (l2 :: kpost) hd hk1
  have hdec' : d.orderRefs =
      (pre.flatMap Block.orderRefs ++ kpre.map (fun y => NRef.leafRef y.lid)) ++
        NRef.leafRef l.lid ::
          (NRef.leafRef l2.lid ::
            (kpost.map (fun y => NRef.leafRef y.lid) ++
              NRef.blockRef b.bid :: post.flatMap Block.orderRefs)) := by
    rw [hdec]
    simp
  obtain ⟨hmem, hafter, hbefore⟩ := orderRefs_at d _ _ (.leafRef l.lid) hnd hdec'
  have hdec2 := orderRefs_decomp_leaf d pre b post (kpre ++ [l]) l2 kpost hd hk2
  obtain ⟨hmem2, hafter2, hbefore2⟩ := orderRefs_at d _ _ (.leafRef l2.lid) hnd hdec2
  have hnnz : d.nextNodeNonZero (.leafRef l.lid) = .ok (some (.leafRef l2.lid)) := by
    rw [Doc.nextNodeNonZero, if_pos hmem, hafter, List.find?_cons]
    have hp : decide (0 < d.opLenOf (NRef.leafRef l2.lid)) = true := by
      rw [hol2]
      simp [hl2]
    rw [hp]
  have hprefix : d.prefixLen (.leafRef l2.lid) =
      d.prefixLen (.leafRef l.lid) + l.ltext.length := by
    rw [Doc.prefixLen, Doc.prefixLen, hbefore, hbefore2]
    have he : (kpre ++ [l]).map (fun y => NRef.leafRef y.lid) =
        kpre.map (fun y => NRef.leafRef y.lid) ++ [NRef.leafRef l.lid] := by
      simp
    rw [he, ← List.append_assoc, List.map_append, List.sum_append]
    simp [hol]
  have hsetb : d.setBeforeNRU ⟨ri + l.ltext.length, .beforeLoc l.lid⟩ l2.lid =
      .ok ⟨ri + l.ltext.length, .beforeLoc l2.lid⟩ :=
    setBeforeNRU_leaf d _ l2.lid (by rw [Doc.isLinkedLeaf, hpos2]; rfl)
  have hcalc : d.calcRetain (.beforeLoc l2.lid) = .ok (d.prefixLen (.leafRef l2.lid)) := by
    simp only [Doc.calcRetain, hrefE2, exbind_ok]
  have hedge : d.setCursorToEdge ⟨ri + l.ltext.length, .beforeLoc l.lid⟩
      (.leafRef l2.lid) true =
      .ok ⟨d.prefixLen (.leafRef l2.lid), .beforeLoc l2.lid⟩ := by
    simp only [Doc.setCursorToEdge, NRef.isLeafRef, if_true, Doc.setBeforeC, NRef.idOf,
      hsetb, exbind_ok, hcalc]
  have hsub : (l.ltext.length - l.ltext.length = 0) = True := eq_true (by omega)
  have hloop : retainLengthLoop d ⟨ri + l.ltext.length, .beforeLoc l.lid⟩ (.leafRef l.lid)
      l.ltext.length (Nat.succ (l.ltext.length + 1)) =
      .ok ⟨d.prefixLen (.leafRef l2.lid), .beforeLoc l2.lid⟩ := by
    simp only [retainLengthLoop, hk0, hol, ge_iff_le, le_refl, if_true, if_false, hnnz,
      exbind_ok, hsub, hedge]
  constructor
  · simp only [opRetain, Attrs.isEmptyA, List.isEmpty, eq_self_iff_true, if_true,
      retainLength, hrefE, exbind_ok, hloop]
  · exact hprefix

/-- A pure retain of exactly the last leaf's length steps onto the block unit
and lands `After` that leaf, with the recomputed walk as cached index. -/
theorem retain_before_exact_end (d : Doc) (pre : List Block) (b : Block) (post : List Block)
    (kpre : List Leaf) (l : Leaf) (ri : Nat) (reg : Registry)
    (hnd : d.nodeIds.Nodup) (hd : d.blocks = pre ++ b :: post)
    (hk : b.kids = kpre ++ [l]) (hl : 0 < l.ltext.length) :
    opRetain d ⟨ri, .beforeLoc l.lid⟩ l.ltext.length [] reg =
      .ok (d, ⟨d.prefixLen (.leafRef l.lid) + l.ltext.length, .afterLoc l.lid⟩) := by
  have hk1 : b.kids = kpre ++ l :: [] := hk
  obtain ⟨hpos, hgb, hgl, hfl, href⟩ := lookup_leaf d pre b post kpre l [] hnd hd hk1
  obtain ⟨hib, hfB, hgbB, hnoleafB, hrefB⟩ := lookup_block d pre b post hnd hd
  have hrefE : d.refOfIdE l.lid = .ok (.leafRef l.lid) := by
    simp only [Doc.refOfIdE, href]
  have hol : d.opLenOf (.leafRef l.lid) = l.ltext.length := opLenOf_leaf d b l hfl
  have holb : d.opLenOf (.blockRef b.bid) = 1 := opLenOf_block d b hfB
  have hk0 : (l.ltext.length = 0) = False := eq_false (by omega)
  have hdec := orderRefs_decomp_leaf d pre b post kpre l [] hd hk1
  obtain ⟨hmem, hafter, hbefore⟩ := orderRefs_at d _ _ (.leafRef l.lid) hnd hdec
  have hdecB := orderRefs_decomp_block d pre b post hd
  obtain ⟨hmemB, hafterB, hbeforeB⟩ := orderRefs_at d _ _ (.blockRef b.bid) hnd hdecB
  have hnnz : d.nextNodeNonZero (.leafRef l.lid) = .ok (some (.blockRef b.bid)) := by
    rw [Doc.nextNodeNonZero, if_pos hmem, hafter]
    simp only [List.map_nil, List.nil_append, List.find?_cons]
    have hp : decide (0 < d.opLenOf (NRef.blockRef b.bid)) = true := by
      rw [holb]
      rfl
    rw [hp]
  have hpnz : d.prevNodeNonZero (.blockRef b.bid) = .ok (some (.leafRef l.lid)) := by
    rw [Doc.prevNodeNonZero, if_pos hmemB, hbeforeB]
    have he : (pre.flatMap Block.orderRefs ++ b.kids.map (fun y => NRef.leafRef y.lid)).reverse =
        NRef.leafRef l.lid ::
          ((kpre.map (fun y => NRef.leafRef y.lid)).reverse ++
            (pre.flatMap Block.orderRefs).reverse) := by
      rw [hk]
      simp
    rw [he, List.find?_cons]
    have hp : decide (0 < d.opLenOf (NRef.leafRef l.lid)) = true := by
      rw [hol]
      simp [hl]
    rw [hp]
  have hsa : d.setAfterNRU ⟨ri + l.ltext.length, .beforeLoc l.lid⟩ l.lid =
      .ok ⟨ri + l.ltext.length, .afterLoc l.lid⟩ :=
    setAfterNRU_leaf d _ l.lid (by rw [Doc.isLinkedLeaf, hpos]; rfl)
  have hcalc : d.calcRetain (.afterLoc l.lid) =
      .ok (d.prefixLen (.leafRef l.lid) + l.ltext.length) := by
    simp only [Doc.calcRetain, hrefE, exbind_ok, hol]
  have hedge : d.setCursorToEdge ⟨ri + l.ltext.length, .beforeLoc l.lid⟩
      (.blockRef b.bid) true =
      .ok ⟨d.prefixLen (.leafRef l.lid) + l.ltext.length, .afterLoc l.lid⟩ := by
    simp only [Doc.setCursorToEdge, NRef.isLeafRef, Bool.false_eq_true, if_false, hpnz,
      exbind_ok, if_true, Doc.setAfterC, NRef.idOf, hsa, hcalc]
  have hsub : (l.ltext.length - l.ltext.length = 0) = True := eq_true (by omega)
  have hloop : retainLengthLoop d ⟨ri + l.ltext.length, .beforeLoc l.lid⟩ (.leafRef l.lid)
      l.ltext.length (Nat.succ (l.ltext.length + 1)) =
      .ok ⟨d.prefixLen (.leafRef l.lid) + l.ltext.length, .afterLoc l.lid⟩ := by
    simp only [retainLengthLoop, hk0, hol, ge_iff_le, le_refl, if_true, if_false, hnnz,
      exbind_ok, hsub, hedge]
  simp only [opRetain, Attrs.isEmptyA, List.isEmpty, eq_self_iff_true, if_true,
    retainLength, hrefE, exbind_ok, hloop]

/-- C9: a retain with empty attributes never touches the document tree — the
returned document is the input document itself (first conjunct) — and the
cursor advances by exactly the count, landing `At` inside the leaf for a
strict remainder (second conjunct, cache bumped by the count), `Before` the
next leaf on an exact boundary (third conjunct, cache recomputed to the walk
one leaf further, which equals the old walk plus the count), and `After` the
last leaf at the end of a block (fourth conjunct). -/
theorem C9_retain_empty_attrs :
    (∀ (d : Doc) (c : Cursor) (n : Nat) (reg : Registry) (p : Doc × Cursor),
       opRetain d c n [] reg = .ok p → p.1 = d) ∧
    (∀ (d : Doc) (pre : List Block) (b : Block) (post : List Block)
       (kpre : List Leaf) (l : Leaf) (kpost : List Leaf) (ri k : Nat) (reg : Registry),
       d.nodeIds.Nodup → d.blocks = pre ++ b :: post → b.kids = kpre ++ l :: kpost →
       0 < k → k < l.ltext.length →
       opRetain d ⟨ri, .beforeLoc l.lid⟩ k [] reg = .ok (d, ⟨ri + k, .atLoc l.lid k⟩)) ∧
    (∀ (d : Doc) (pre : List Block) (b : Block) (post : List Block)
       (kpre : List Leaf) (l l2 : Leaf) (kpost : List Leaf) (ri : Nat) (reg : Registry),
       d.nodeIds.Nodup → d.blocks = pre ++ b :: post → b.kids = kpre ++ l :: l2 :: kpost →
       0 < l.ltext.length → 0 < l2.ltext.length →
       opRetain d ⟨ri, .beforeLoc l.lid⟩ l.ltext.length [] reg =
         .ok (d, ⟨d.prefixLen (.leafRef l2.lid), .beforeLoc l2.lid⟩) ∧
       d.prefixLen (.leafRef l2.lid) = d.prefixLen (.leafRef l.lid) + l.ltext.length) ∧
    (∀ (d : Doc) (pre : List Block) (b : Block) (post : List Block)
       (kpre : List Leaf) (l : Leaf) (ri : Nat) (reg : Registry),
       d.nodeIds.Nodup → d.blocks = pre ++ b :: post → b.kids = kpre ++ [l] →
       0 < l.ltext.length →
       opRetain d ⟨ri, .beforeLoc l.lid⟩ l.ltext.length [] reg =
         .ok (d, ⟨d.prefixLen (.leafRef l.lid) + l.ltext.length, .afterLoc l.lid⟩)) :=
  ⟨fun d c n reg p hok => opRetain_empty_frame d c n reg p hok,
   fun d pre b post kpre l kpost ri k reg hnd hd hk h0 hkl =>
     retain_before_within d pre b post kpre l kpost ri k reg hnd hd hk h0 hkl,
   fun d pre b post kpre l l2 kpost ri reg hnd hd hk hl hl2 =>
     retain_before_exact_next d pre b post kpre l l2 kpost ri reg hnd hd hk hl hl2,
   fun d pre b post kpre l ri reg hnd hd hk hl =>
     retain_before_exact_end d pre b post kpre l ri reg hnd hd hk hl⟩

/-- Witness for C9 on the documents "ab" and "a"/"b": a strict-remainder
retain lands `At`, an exact retain lands `Before` the next leaf or `After`
the last one, and the document comes back unchanged. -/
theorem C9_retain_empty_attrs_witness :
    (⟨⟨[⟨0, [], false, [⟨1, ['a', 'b'], []⟩]⟩], 2⟩, ⟨1, .atLoc 1 1⟩⟩ : Doc × Cursor).1 =
      ⟨[⟨0, [], false, [⟨1, ['a', 'b'], []⟩]⟩], 2⟩ ∧
    opRetain ⟨[⟨0, [], false, [⟨1, ['a', 'b'], []⟩]⟩], 2⟩ ⟨0, .beforeLoc 1⟩ 1 [] testRegistry =
      .ok (⟨[⟨0, [], false, [⟨1, ['a', 'b'], []⟩]⟩], 2⟩, ⟨1, .atLoc 1 1⟩) ∧
    opRetain ⟨[⟨0, [], false, [⟨1, ['a'], []⟩, ⟨2, ['b'], []⟩]⟩], 3⟩ ⟨0, .beforeLoc 1⟩ 1 []
        testRegistry =
      .ok (⟨[⟨0, [], false, [⟨1, ['a'], []⟩, ⟨2, ['b'], []⟩]⟩], 3⟩, ⟨1, .beforeLoc 2⟩) ∧
    opRetain ⟨[⟨0, [], false, [⟨1, ['a', 'b'], []⟩]⟩], 2⟩ ⟨0, .beforeLoc 1⟩ 2 [] testRegistry =
      .ok (⟨[⟨0, [], false, [⟨1, ['a', 'b'], []⟩]⟩], 2⟩, ⟨2, .afterLoc 1⟩) :=
  ⟨C9_retain_empty_attrs.1 ⟨[⟨0, [], false, [⟨1, ['a', 'b'], []⟩]⟩], 2⟩ ⟨0, .beforeLoc 1⟩ 1
     testRegistry (⟨[⟨0, [], false, [⟨1, ['a', 'b'], []⟩]⟩], 2⟩, ⟨1, .atLoc 1 1⟩) (by rfl),
   C9_retain_empty_attrs.2.1 ⟨[⟨0, [], false, [⟨1, ['a', 'b'], []⟩]⟩], 2⟩
     [] ⟨0, [], false, [⟨1, ['a', 'b'], []⟩]⟩ [] [] ⟨1, ['a', 'b'], []⟩ [] 0 1 testRegistry
     (by decide) rfl rfl (by decide) (by decide),
   (C9_retain_empty_attrs.2.2.1 ⟨[⟨0, [], false, [⟨1, ['a'], []⟩, ⟨2, ['b'], []⟩]⟩], 3⟩
     [] ⟨0, [], false, [⟨1, ['a'], []⟩, ⟨2, ['b'], []⟩]⟩ [] [] ⟨1, ['a'], []⟩ ⟨2, ['b'], []⟩ []
     0 testRegistry (by decide) rfl rfl (by decide) (by decide)).1,
   C9_retain_empty_attrs.2.2.2 ⟨[⟨0, [], false, [⟨1, ['a', 'b'], []⟩]⟩], 2⟩
     [] ⟨0, [], false, [⟨1, ['a', 'b'], []⟩]⟩ [] [] ⟨1, ['a', 'b'], []⟩ 0 testRegistry
     (by decide) rfl rfl (by decide)⟩

/-- Computation of leaf unlinking on a decomposed well-formed document. -/
theorem removeLeaf_spec (d : Doc) (pre : List Block) (b : Block) (post : List Block)
    (kpre : List Leaf) (x : Leaf) (kpost : List Leaf)
    (hnd : d.nodeIds.Nodup) (hd : d.blocks = pre ++ b :: post)
    (hk : b.kids = kpre ++ x :: kpost) :
    d.removeLeaf x.lid = ⟨pre ++ { b with kids := kpre ++ kpost } :: post, d.freshId⟩ := by
  obtain ⟨h1, h2, h3, h4, _⟩ := leaf_sides_raw d pre b post kpre x kpost hnd hd hk
  rw [Doc.removeLeaf]
  congr 1
  rw [hd, List.map_append, List.map_cons,
    removeLeaf_map_id pre x.lid h1, removeLeaf_map_id post x.lid h3]
  congr 2
  rw [hk, List.filter_append, List.filter_cons]
  have hkpre := kidsFilter_id kpre x.lid h2
  have hkpost := kidsFilter_id kpost x.lid h4
  simp only [decide_not] at hkpre hkpost
  simp [hkpre, hkpost]

/-- A complete delete of the leaf standing between two leaves with equal
attributes merges the two survivors into one leaf: the `try_merge` at the end
of `delete` restores the canonical form among adjacent text leaves. -/
theorem opDelete_merge_site (d : Doc) (pre : List Block) (b : Block) (post : List Block)
    (kpre : List Leaf) (a x cc : Leaf) (kpost : List Leaf) (ri : Nat)
    (hnd : d.nodeIds.Nodup) (hd : d.blocks = pre ++ b :: post)
    (hk : b.kids = kpre ++ a :: x :: cc :: kpost)
    (haeq : Attrs.aeq a.lattrs cc.lattrs = true)
    (hleft : ∀ w, kpre.getLast? = some w → Attrs.aeq a.lattrs w.lattrs = false)
    (ha : 0 < a.ltext.length) (hx : 0 < x.ltext.length) (hcc : 0 < cc.ltext.length) :
    opDelete d ⟨ri, .afterLoc a.lid⟩ x.ltext.length =
      .ok (⟨pre ++ { b with kids := kpre ++ mergedLeaf a cc :: kpost } :: post, d.freshId⟩,
           ⟨(⟨pre ++ { b with kids := kpre ++ a :: cc :: kpost } :: post,
               d.freshId⟩ : Doc).prefixLen (.leafRef cc.lid),
            .atLoc a.lid a.ltext.length⟩) := by
  have hka : b.kids = kpre ++ a :: (x :: cc :: kpost) := hk
  have hkx : b.kids = (kpre ++ [a]) ++ x :: (cc :: kpost) := by rw [hk]; simp
  have hkc : b.kids = (kpre ++ [a, x]) ++ cc :: kpost := by rw [hk]; simp
  obtain ⟨hposA, hgbA, hglA, hflA, hrefA⟩ := lookup_leaf d pre b post kpre a (x :: cc :: kpost) hnd hd hka
  obtain ⟨hposX, hgbX, hglX, hflX, hrefX⟩ := lookup_leaf d pre b post (kpre ++ [a]) x (cc :: kpost) hnd hd hkx
  obtain ⟨hposC, hgbC, hglC, hflC, hrefC⟩ := lookup_leaf d pre b post (kpre ++ [a, x]) cc kpost hnd hd hkc
  obtain ⟨hib, hfB, _, _, _⟩ := lookup_block d pre b post hnd hd
  have hrefEA : d.refOfIdE a.lid = .ok (.leafRef a.lid) := by simp only [Doc.refOfIdE, hrefA]
  have holA : d.opLenOf (.leafRef a.lid) = a.ltext.length := opLenOf_leaf d b a hflA
  have holX : d.opLenOf (.leafRef x.lid) = x.ltext.length := opLenOf_leaf d b x hflX
  have holC : d.opLenOf (.leafRef cc.lid) = cc.ltext.length := opLenOf_leaf d b cc hflC
  have holB : d.opLenOf (.blockRef b.bid) = 1 := opLenOf_block d b hfB
  have hdecA := orderRefs_decomp_leaf d pre b post kpre a (x :: cc :: kpost) hd hka
  have hdecA' : d.orderRefs =
      (pre.flatMap Block.orderRefs ++ kpre.map (fun y => NRef.leafRef y.lid)) ++
        NRef.leafRef a.lid ::
          (NRef.leafRef x.lid ::
            ((cc :: kpost).map (fun y => NRef.leafRef y.lid) ++
              NRef.blockRef b.bid :: post.flatMap Block.orderRefs)) := by
    rw [hdecA]
    simp
  obtain ⟨hmemA, hafterA, _⟩ := orderRefs_at d _ _ (.leafRef a.lid) hnd hdecA'
  have hdecX := orderRefs_decomp_leaf d pre b post (kpre ++ [a]) x (cc :: kpost) hd hkx
  have hdecX' : d.orderRefs =
      (pre.flatMap Block.orderRefs ++ (kpre ++ [a]).map (fun y => NRef.leafRef y.lid)) ++
        NRef.leafRef x.lid ::
          (NRef.leafRef cc.lid ::
            (kpost.map (fun y => NRef.leafRef y.lid) ++
              NRef.blockRef b.bid :: post.flatMap Block.orderRefs)) := by
    rw [hdecX]
    simp
  obtain ⟨hmemX, hafterX, _⟩ := orderRefs_at d _ _ (.leafRef x.lid) hnd hdecX'
  have hnnzA : d.nextNodeNonZero (.leafRef a.lid) = .ok (some (.leafRef x.lid)) := by
    rw [Doc.nextNodeNonZero, if_pos hmemA, hafterA, List.find?_cons]
    have hp : decide (0 < d.opLenOf (NRef.leafRef x.lid)) = true := by
      rw [holX]
      simp [hx]
    rw [hp]
  have hnnzX : d.nextNodeNonZero (.leafRef x.lid) = .ok (some (.leafRef cc.lid)) := by
    rw [Doc.nextNodeNonZero, if_pos hmemX, hafterX, List.find?_cons]
    have hp : decide (0 < d.opLenOf (NRef.leafRef cc.lid)) = true := by
      rw [holC]
      simp [hcc]
    rw [hp]
  have hnbtX : d.nextBlockT (.leafRef x.lid) = .ok (some (.blockRef b.bid)) := by
    rw [Doc.nextBlockT, if_pos hmemX, hafterX]
    have hshape : NRef.leafRef cc.lid ::
        (kpost.map (fun y => NRef.leafRef y.lid) ++
          NRef.blockRef b.bid :: post.flatMap Block.orderRefs) =
        ((cc :: kpost).map (fun y => NRef.leafRef y.lid)) ++
          (NRef.blockRef b.bid :: post.flatMap Block.orderRefs) := by
      simp
    rw [hshape, find?_append_false _ _ _ ?hlv]
    case hlv =>
      intro q hq
      obtain ⟨y, _, rfl⟩ := List.mem_map.mp hq
      rfl
    rw [List.find?_cons]
    have hp : (!(NRef.blockRef b.bid).isLeafRef &&
        decide (0 < d.opLenOf (NRef.blockRef b.bid))) = true := by
      rw [holB]
      rfl
    rw [hp]
  have hrml := removeLeaf_spec d pre b post (kpre ++ [a]) x (cc :: kpost) hnd hd hkx
  have hrml' : d.removeLeaf x.lid =
      ⟨pre ++ { b with kids := kpre ++ a :: cc :: kpost } :: post, d.freshId⟩ := by
    rw [hrml]
    simp
  have hdnm : deleteNodeM d (.leafRef x.lid) =
      .ok ⟨pre ++ { b with kids := kpre ++ a :: cc :: kpost } :: post, d.freshId⟩ := by
    simp only [deleteNodeM, hposX, hrml']
  have hnd1 : (⟨pre ++ { b with kids := kpre ++ a :: cc :: kpost } :: post,
      d.freshId⟩ : Doc).nodeIds.Nodup := by
    refine nodup_replace_kids d pre b post (kpre ++ a :: cc :: kpost) d.freshId hnd hd ?_
    rw [hk]
    simp only [List.map_append, List.map_cons]
    exact List.Sublist.append (List.Sublist.refl _)
      (List.Sublist.cons₂ _ (List.Sublist.cons _ (List.Sublist.refl _)))
  obtain ⟨hibB1, hfB1, _, _, _⟩ :=
    lookup_block ⟨pre ++ { b with kids := kpre ++ a :: cc :: kpost } :: post, d.freshId⟩
      pre { b with kids := kpre ++ a :: cc :: kpost } post hnd1 rfl
  have hkid1ne : ({ b with kids := kpre ++ a :: cc :: kpost } : Block).kids.isEmpty = false := by
    show (kpre ++ a :: cc :: kpost).isEmpty = false
    cases kpre <;> rfl
  have hddn : deleteDocumentNode d (.leafRef x.lid) =
      .ok ⟨pre ++ { b with kids := kpre ++ a :: cc :: kpost } :: post, d.freshId⟩ := by
    simp only [deleteDocumentNode, hnbtX, exbind_ok, NRef.isLeafRef, NRef.idOf, if_true,
      hdnm, hfB1, hkid1ne, Bool.false_eq_true, if_false]
  obtain ⟨hposC1, hgbC1, hglC1, hflC1, hrefC1⟩ :=
    lookup_leaf ⟨pre ++ { b with kids := kpre ++ a :: cc :: kpost } :: post, d.freshId⟩
      pre { b with kids := kpre ++ a :: cc :: kpost } post (kpre ++ [a]) cc kpost hnd1 rfl
      (by simp)
  obtain ⟨hposA1, hgbA1, hglA1, hflA1, hrefA1⟩ :=
    lookup_leaf ⟨pre ++ { b with kids := kpre ++ a :: cc :: kpost } :: post, d.freshId⟩
      pre { b with kids := kpre ++ a :: cc :: kpost } post kpre a (cc :: kpost) hnd1 rfl rfl
  have hrefEC1 : (⟨pre ++ { b with kids := kpre ++ a :: cc :: kpost } :: post,
      d.freshId⟩ : Doc).refOfIdE cc.lid = .ok (.leafRef cc.lid) := by
    simp only [Doc.refOfIdE, hrefC1]
  have holA1 : (⟨pre ++ { b with kids := kpre ++ a :: cc :: kpost } :: post,
      d.freshId⟩ : Doc).opLenOf (.leafRef a.lid) = a.ltext.length :=
    opLenOf_leaf _ _ a hflA1
  have hsetb : (⟨pre ++ { b with kids := kpre ++ a :: cc :: kpost } :: post,
      d.freshId⟩ : Doc).setBeforeNRU ⟨ri, .afterLoc a.lid⟩ cc.lid =
      .ok ⟨ri, .beforeLoc cc.lid⟩ :=
    setBeforeNRU_leaf _ _ cc.lid (by rw [Doc.isLinkedLeaf, hposC1]; rfl)
  have hcalc : (⟨pre ++ { b with kids := kpre ++ a :: cc :: kpost } :: post,
      d.freshId⟩ : Doc).calcRetain (.beforeLoc cc.lid) =
      .ok ((⟨pre ++ { b with kids := kpre ++ a :: cc :: kpost } :: post,
        d.freshId⟩ : Doc).prefixLen (.leafRef cc.lid)) := by
    simp only [Doc.calcRetain, hrefEC1, exbind_ok]
  have hedge : (⟨pre ++ { b with kids := kpre ++ a :: cc :: kpost } :: post,
      d.freshId⟩ : Doc).setCursorToEdge ⟨ri, .afterLoc a.lid⟩ (.leafRef cc.lid) true =
      .ok ⟨(⟨pre ++ { b with kids := kpre ++ a :: cc :: kpost } :: post,
        d.freshId⟩ : Doc).prefixLen (.leafRef cc.lid), .beforeLoc cc.lid⟩ := by
    simp only [Doc.setCursorToEdge, NRef.isLeafRef, if_true, Doc.setBeforeC, NRef.idOf,
      hsetb, exbind_ok, hcalc]
  have hx0 : (x.ltext.length = 0) = False := eq_false (by omega)
  have hxgt : (x.ltext.length > x.ltext.length) = False := eq_false (by omega)
  have hloop : ∀ fuel : Nat,
      deleteLoop d ⟨ri, .afterLoc a.lid⟩ (.leafRef x.lid) x.ltext.length (Nat.succ fuel) =
      .ok (⟨pre ++ { b with kids := kpre ++ a :: cc :: kpost } :: post, d.freshId⟩,
           ⟨(⟨pre ++ { b with kids := kpre ++ a :: cc :: kpost } :: post,
              d.freshId⟩ : Doc).prefixLen (.leafRef cc.lid), .beforeLoc cc.lid⟩) := by
    intro fuel
    simp only [deleteLoop, hx0, holX, hxgt, if_false, eq_self_iff_true, if_true, hnnzX,
      exbind_ok, hddn, hedge]
  have hprevS1 : (⟨pre ++ { b with kids := kpre ++ a :: cc :: kpost } :: post,
      d.freshId⟩ : Doc).prevSibling (.leafRef cc.lid) = .ok (some (.leafRef a.lid)) := by
    rw [prevSibling_leaf _ cc.lid pre.length (kpre ++ [a]).length _ hposC1 hgbC1]
    have hki : (kpre ++ [a]).length = kpre.length + 1 := by simp
    rw [hki, if_neg (by omega)]
    have h1 : kpre.length + 1 - 1 = kpre.length := by omega
    rw [h1]
    show Except.ok ((List.get? (kpre ++ a :: cc :: kpost) kpre.length).map
      (fun l => NRef.leafRef l.lid)) = _
    rw [get?_middle]
    rfl
  have hnextS1 : (⟨pre ++ { b with kids := kpre ++ a :: cc :: kpost } :: post,
      d.freshId⟩ : Doc).nextSibling (.leafRef a.lid) = .ok (some (.leafRef cc.lid)) := by
    rw [nextSibling_leaf _ a.lid pre.length kpre.length _ hposA1 hgbA1]
    show Except.ok ((List.get? (kpre ++ a :: cc :: kpost) (kpre.length + 1)).map
      (fun l => NRef.leafRef l.lid)) = _
    rw [get?_middle_succ]
    rfl
  have hattrA1 : (⟨pre ++ { b with kids := kpre ++ a :: cc :: kpost } :: post,
      d.freshId⟩ : Doc).attrsOfD (.leafRef a.lid) = a.lattrs := attrsOfD_leaf _ _ a hflA1
  have hattrC1 : (⟨pre ++ { b with kids := kpre ++ a :: cc :: kpost } :: post,
      d.freshId⟩ : Doc).attrsOfD (.leafRef cc.lid) = cc.lattrs := attrsOfD_leaf _ _ cc hflC1
  have hmg := mergeTextNode_spec
    ⟨pre ++ { b with kids := kpre ++ a :: cc :: kpost } :: post, d.freshId⟩
    pre { b with kids := kpre ++ a :: cc :: kpost } post kpre a cc kpost hnd1 rfl rfl haeq
  have hnd2 : (⟨pre ++ { { b with kids := kpre ++ a :: cc :: kpost } with
      kids := kpre ++ mergedLeaf a cc :: kpost } :: post, d.freshId⟩ : Doc).nodeIds.Nodup :=
    nodup_replace_kids ⟨pre ++ { b with kids := kpre ++ a :: cc :: kpost } :: post, d.freshId⟩
      pre { b with kids := kpre ++ a :: cc :: kpost } post
      (kpre ++ mergedLeaf a cc :: kpost) d.freshId hnd1 rfl
      (merge_kids_sublist kpre a cc (mergedLeaf a cc) kpost rfl)
  obtain ⟨hposM2, hgbM2, hglM2, hflM2, hrefM2⟩ :=
    lookup_leaf ⟨pre ++ { { b with kids := kpre ++ a :: cc :: kpost } with
        kids := kpre ++ mergedLeaf a cc :: kpost } :: post, d.freshId⟩
      pre { { b with kids := kpre ++ a :: cc :: kpost } with
        kids := kpre ++ mergedLeaf a cc :: kpost } post kpre (mergedLeaf a cc) kpost hnd2 rfl rfl
  have hsetAt : (⟨pre ++ { { b with kids := kpre ++ a :: cc :: kpost } with
      kids := kpre ++ mergedLeaf a cc :: kpost } :: post, d.freshId⟩ : Doc).setAtNRU
      ⟨(⟨pre ++ { b with kids := kpre ++ a :: cc :: kpost } :: post,
          d.freshId⟩ : Doc).prefixLen (.leafRef cc.lid), .beforeLoc cc.lid⟩
      a.lid a.ltext.length =
      .ok ⟨(⟨pre ++ { b with kids := kpre ++ a :: cc :: kpost } :: post,
          d.freshId⟩ : Doc).prefixLen (.leafRef cc.lid), .atLoc a.lid a.ltext.length⟩ := by
    refine setAtNRU_leaf _ _ (mergedLeaf a cc) _ a.ltext.length hrefM2 hflM2 ha ?_
    show a.ltext.length < (mergedLeaf a cc).ltext.length
    simp only [mergedLeaf, List.length_append]
    omega
  have hattrM2 : (⟨pre ++ { { b with kids := kpre ++ a :: cc :: kpost } with
      kids := kpre ++ mergedLeaf a cc :: kpost } :: post, d.freshId⟩ : Doc).attrsOfD
      (.leafRef a.lid) = a.lattrs := attrsOfD_leaf _ _ (mergedLeaf a cc) hflM2
  have htm : tryMergeAtCursor
      ⟨pre ++ { b with kids := kpre ++ a :: cc :: kpost } :: post, d.freshId⟩
      ⟨(⟨pre ++ { b with kids := kpre ++ a :: cc :: kpost } :: post,
          d.freshId⟩ : Doc).prefixLen (.leafRef cc.lid), .beforeLoc cc.lid⟩ =
      .ok (⟨pre ++ { { b with kids := kpre ++ a :: cc :: kpost } with
              kids := kpre ++ mergedLeaf a cc :: kpost } :: post, d.freshId⟩,
           ⟨(⟨pre ++ { b with kids := kpre ++ a :: cc :: kpost } :: post,
               d.freshId⟩ : Doc).prefixLen (.leafRef cc.lid),
            .atLoc a.lid a.ltext.length⟩) := by
    rcases List.eq_nil_or_concat kpre with hnil | ⟨kpre0, w, hconc⟩
    · subst hnil
      have hprevS2 : (⟨pre ++ { { b with kids := [] ++ a :: cc :: kpost } with
          kids := [] ++ mergedLeaf a cc :: kpost } :: post,
          d.freshId⟩ : Doc).prevSibling (.leafRef a.lid) = .ok none := by
        rw [prevSibling_leaf _ a.lid pre.length ([] : List Leaf).length _ hposM2 hgbM2]
        simp
      simp only [tryMergeAtCursor, CLoc.idOf, exbind_ok, expure_bind, hrefC1,
        try3WayMergeText, hrefEC1, hprevS1, mergePhase, hnextS1, hattrA1, hattrC1, haeq,
        eq_self_iff_true, if_true, NRef.idOf, hmg, holA1, hsetAt, hprevS2]
    · rw [List.concat_eq_append] at hconc
      subst hconc
      have hprevS2 : (⟨pre ++ { { b with kids := (kpre0 ++ [w]) ++ a :: cc :: kpost } with
          kids := (kpre0 ++ [w]) ++ mergedLeaf a cc :: kpost } :: post,
          d.freshId⟩ : Doc).prevSibling (.leafRef a.lid) = .ok (some (.leafRef w.lid)) := by
        rw [prevSibling_leaf _ a.lid pre.length (kpre0 ++ [w]).length _ hposM2 hgbM2]
        have hki : (kpre0 ++ [w]).length = kpre0.length + 1 := by simp
        rw [hki, if_neg (by omega)]
        have h1 : kpre0.length + 1 - 1 = kpre0.length := by omega
        rw [h1]
        show Except.ok ((List.get? ((kpre0 ++ [w]) ++ mergedLeaf a cc :: kpost)
          kpre0.length).map (fun l => NRef.leafRef l.lid)) = _
        have hsh : (kpre0 ++ [w]) ++ mergedLeaf a cc :: kpost =
            kpre0 ++ w :: (mergedLeaf a cc :: kpost) := by simp
        rw [hsh, get?_middle]
        rfl
      obtain ⟨_, _, _, hflW2, _⟩ :=
        lookup_leaf ⟨pre ++ { { b with kids := (kpre0 ++ [w]) ++ a :: cc :: kpost } with
            kids := (kpre0 ++ [w]) ++ mergedLeaf a cc :: kpost } :: post, d.freshId⟩
          pre { { b with kids := (kpre0 ++ [w]) ++ a :: cc :: kpost } with
            kids := (kpre0 ++ [w]) ++ mergedLeaf a cc :: kpost } post
          kpre0 w (mergedLeaf a cc :: kpost) hnd2 rfl (by simp)
      have hattrW2 : (⟨pre ++ { { b with kids := (kpre0 ++ [w]) ++ a :: cc :: kpost } with
          kids := (kpre0 ++ [w]) ++ mergedLeaf a cc :: kpost } :: post,
          d.freshId⟩ : Doc).attrsOfD (.leafRef w.lid) = w.lattrs :=
        attrsOfD_leaf _ _ w hflW2
      have haeqW : Attrs.aeq a.lattrs w.lattrs = false :=
        hleft w (by simp)
      simp only [tryMergeAtCursor, CLoc.idOf, exbind_ok, expure_bind, hrefC1,
        try3WayMergeText, hrefEC1, hprevS1, mergePhase, hnextS1, hattrA1, hattrC1, haeq,
        eq_self_iff_true, if_true, NRef.idOf, hmg, holA1, hsetAt, hprevS2, hattrM2,
        hattrW2, haeqW, Bool.false_eq_true, if_false]
  have hrefEM2 : (⟨pre ++ { { b with kids := kpre ++ a :: cc :: kpost } with
      kids := kpre ++ mergedLeaf a cc :: kpost } :: post, d.freshId⟩ : Doc).refOfIdE a.lid =
      .ok (.leafRef a.lid) := by
    have hrefM2a : (⟨pre ++ { { b with kids := kpre ++ a :: cc :: kpost } with
        kids := kpre ++ mergedLeaf a cc :: kpost } :: post, d.freshId⟩ : Doc).refOfId a.lid =
        some (.leafRef a.lid) := hrefM2
    unfold Doc.refOfIdE
    rw [hrefM2a]
  have holM2 : (⟨pre ++ { { b with kids := kpre ++ a :: cc :: kpost } with
      kids := kpre ++ mergedLeaf a cc :: kpost } :: post, d.freshId⟩ : Doc).opLenOf
      (.leafRef a.lid) = (a.ltext ++ cc.ltext).length :=
    opLenOf_leaf _ _ (mergedLeaf a cc) hflM2
  have hne0 : ((a.ltext ++ cc.ltext).length = 0) = False := by
    refine eq_false ?_
    simp only [List.length_append]
    omega
  simp only [opDelete, hrefEA, exbind_ok, expure_bind, hnnzA, hloop (x.ltext.length + 1),
    htm, CLoc.idOf, hrefEM2, holM2, hne0, if_false]

/-- Two adjacent sibling blocks with equal attribute maps.  In the baseline
registry every block is the paragraph format, so adjacent blocks always share
the format name; equal attributes complete the duplicate. -/
def hasAdjacentEqualBlocks : List Block → Bool
  | b1 :: b2 :: rest =>
    Attrs.aeq b1.battrs b2.battrs || hasAdjacentEqualBlocks (b2 :: rest)
  | _ => false

/-- Counterexample for C1: one completed insert of `"\n"` into a freshly
opened document returns Ok and leaves two adjacent sibling paragraph blocks
with the same format name and equal (empty) attributes — block nodes are
never merged, so the claimed canonical form does not hold for them. -/
theorem C1_counterexample :
    applyOps openState [.insOp ⟨.textI newline, []⟩] =
      .ok ⟨⟨[⟨1, [], true, []⟩, ⟨0, [], true, []⟩], 2⟩, ⟨1, .atLoc 0 0⟩⟩ ∧
    hasAdjacentEqualBlocks [⟨1, [], true, []⟩, ⟨0, [], true, []⟩] = true :=
  ⟨by rfl, by rfl⟩

/-- C1 (amended): the canonical de-dup invariant holds for adjacent sibling
text leaves at the operation's merge site, not for block nodes
(`C1_counterexample`): a completed delete that removes the leaf standing
between two leaves with equal attributes returns Ok with the two survivors
merged into a single leaf — the engine's final `try_merge` restores the
canonical form among adjacent text leaves. -/
theorem C1_canonical_leaves :
    ∀ (d : Doc) (pre : List Block) (b : Block) (post : List Block)
      (kpre : List Leaf) (a x cc : Leaf) (kpost : List Leaf) (ri : Nat),
      d.nodeIds.Nodup → d.blocks = pre ++ b :: post →
      b.kids = kpre ++ a :: x :: cc :: kpost →
      Attrs.aeq a.lattrs cc.lattrs = true →
      (∀ w, kpre.getLast? = some w → Attrs.aeq a.lattrs w.lattrs = false) →
      0 < a.ltext.length → 0 < x.ltext.length → 0 < cc.ltext.length →
      opDelete d ⟨ri, .afterLoc a.lid⟩ x.ltext.length =
        .ok (⟨pre ++ { b with kids := kpre ++ mergedLeaf a cc :: kpost } :: post, d.freshId⟩,
             ⟨(⟨pre ++ { b with kids := kpre ++ a :: cc :: kpost } :: post,
                 d.freshId⟩ : Doc).prefixLen (.leafRef cc.lid),
              .atLoc a.lid a.ltext.length⟩) :=
  fun d pre b post kpre a x cc kpost ri hnd hd hk haeq hleft ha hx hcc =>
    opDelete_merge_site d pre b post kpre a x cc kpost ri hnd hd hk haeq hleft ha hx hcc

/-- Witness for C1: deleting the bold leaf "x" between the equal plain leaves
"a" and "c" yields the single merged leaf "ac". -/
theorem C1_canonical_leaves_witness :
    opDelete ⟨[⟨0, [], false,
        [⟨1, ['a'], []⟩, ⟨2, ['x'], [("bold", AttrVal.boolV true)]⟩, ⟨3, ['c'], []⟩]⟩], 4⟩
      ⟨1, .afterLoc 1⟩ 1 =
      .ok (⟨[⟨0, [], false, [⟨1, ['a', 'c'], []⟩]⟩], 4⟩, ⟨1, .atLoc 1 1⟩) :=
  C1_canonical_leaves ⟨[⟨0, [], false,
      [⟨1, ['a'], []⟩, ⟨2, ['x'], [("bold", AttrVal.boolV true)]⟩, ⟨3, ['c'], []⟩]⟩], 4⟩
    [] ⟨0, [], false,
      [⟨1, ['a'], []⟩, ⟨2, ['x'], [("bold", AttrVal.boolV true)]⟩, ⟨3, ['c'], []⟩]⟩ []
    [] ⟨1, ['a'], []⟩ ⟨2, ['x'], [("bold", AttrVal.boolV true)]⟩ ⟨3, ['c'], []⟩ [] 1
    (by decide) rfl rfl (by decide) (fun w hw => by cases hw) (by decide) (by decide)
    (by decide)
